import Mathlib

/-! # ASDF splines: a shallow embedding

The C++ templates of `asdfspline` are generic in a scalar type `S` and a vector
type `V`.  Here `S` is any linearly ordered field (exact arithmetic; the
rounding of `float` is not modelled) and `V` any `S`-module.  The two library
functions the code calls on them, `std::sqrt` on scalars and the Euclidean
`length` of the vector type, are parameters of the definitions that use them.

A C++ constructor that throws is a function into `Option`; `none` is the
exception.  `assert` is not compiled into the model.

The library instantiates `S` with the binary32 type `float`.  What is proved
here of control flow, sizes and comparisons is also true of that instance.  An
equality between two computed values is true of it up to rounding only, and a
sum or product can overflow, underflow or absorb a small term there.  The
theorems on a whole constructor or evaluation that rest on such an equality
say so: their comment starts with "In exact arithmetic".
-/

namespace asdf

/-! ## bisect.hpp -/

/-- The local variables of `bisect` at the moment it returns: the returned
value, the final bracket and the number of evaluations of `f`. -/
structure BisectResult (S : Type) where
  result : S
  xmin : S
  xmax : S
  calls : Nat
deriving DecidableEq, Repr

section Scalar

variable {S : Type} [LinearOrderedField S]

/-- The `while` loop of `bisect`.  The first argument is the value of the
unsigned expression `max_calls - calls`, which each pass decreases by one;
`calls` counts the evaluations of `f` made so far. -/
def bisect_loop (f : S → S) (xtol : S) :
    Nat → Nat → S → S → S → S → BisectResult S
  | 0, calls, xmin, xmax, fmin, fmax =>
      ⟨if |fmin| < |fmax| then xmin else xmax, xmin, xmax, calls⟩
  | remaining + 1, calls, xmin, xmax, fmin, fmax =>
      if xmax - xmin > xtol then
        let xmid := (xmin + xmax) / 2
        if xmid = xmin ∨ xmid = xmax then
          ⟨xmid, xmin, xmax, calls⟩
        else
          let fmid := f xmid
          if fmid = 0 then
            ⟨xmid, xmin, xmax, calls + 1⟩
          else if fmin * fmid < 0 then
            bisect_loop f xtol remaining (calls + 1) xmin xmid fmin fmid
          else
            bisect_loop f xtol remaining (calls + 1) xmid xmax fmid fmax
      else
        ⟨if |fmin| < |fmax| then xmin else xmax, xmin, xmax, calls⟩

/-- The body of `bisect`, keeping the final local state.  `max_calls` is a
`size_t`: the loop starts with `max_calls - 2` computed modulo `2 ^ 64`. -/
def bisect_run (f : S → S) (xmin xmax xtol : S) (max_calls : Nat) : BisectResult S :=
  let fmin := f xmin
  if fmin = 0 then ⟨xmin, xmin, xmax, 1⟩
  else
    let fmax := f xmax
    if fmax = 0 then ⟨xmax, xmin, xmax, 2⟩
    else if fmin * fmax < 0 then
      bisect_loop f xtol ((max_calls + 2 ^ 64 - 2) % 2 ^ 64) 2 xmin xmax fmin fmax
    else
      ⟨if |fmin| < |fmax| then xmin else xmax, xmin, xmax, 2⟩

/-- The value returned by `bisect(f, xmin, xmax, xtol, max_calls)`. -/
def bisect (f : S → S) (xmin xmax xtol : S) (max_calls : Nat) : S :=
  (bisect_run f xmin xmax xtol max_calls).result

/-! ## gauss-legendre.hpp -/

/-- The array `times` of `gauss_legendre13`, with the digits written in the code. -/
def gl_times : List S :=
  [-0.9841830547185881, -0.9175983992229779, -0.8015780907333099,
   -0.6423493394403403, -0.44849275103644687, -0.23045831595513483,
    0, 0.23045831595513483, 0.44849275103644687,
    0.6423493394403403, 0.8015780907333099, 0.9175983992229779,
    0.9841830547185881]

/-- The array `weights` of `gauss_legendre13`, with the digits written in the code. -/
def gl_weights : List S :=
  [0.04048400476531615, 0.0921214998377276, 0.1388735102197876,
   0.17814598076194554, 0.20781604753688862, 0.2262831802628975,
   0.23255155323087406, 0.2262831802628975, 0.20781604753688862,
   0.17814598076194554, 0.1388735102197876, 0.0921214998377276,
   0.04048400476531615]

/-- The 13-point sum `gauss_legendre13(f, a, b)`. -/
def gauss_legendre13 (f : S → S) (a b : S) : S :=
  let result := (List.zip gl_times gl_weights).foldl
    (fun r tw => r + tw.2 * f ((b - a) * tw.1 / 2 + (a + b) / 2)) 0
  (b - a) * result / 2

/-! ## Standard algorithms on vectors -/

/-- Index returned by `std::upper_bound`: the first element greater than `v`. -/
def upper_bound (xs : List S) (v : S) : Nat :=
  xs.findIdx (fun x => decide (v < x))

/-- Index returned by `std::lower_bound`: the first element not less than `v`. -/
def lower_bound (xs : List S) (v : S) : Nat :=
  xs.findIdx (fun x => decide (¬ x < v))

/-- Whether `std::adjacent_find(first, last, std::greater_equal())` finds a
pair: some element is greater than or equal to its successor. -/
def has_adjacent_ge : List S → Bool
  | a :: b :: rest => decide (a ≥ b) || has_adjacent_ge (b :: rest)
  | _ => false

/-- The test `std::is_sorted`: no element is less than its predecessor. -/
def is_sorted : List S → Bool
  | a :: b :: rest => !decide (b < a) && is_sorted (b :: rest)
  | _ => true

end Scalar

/-! ## piecewisecubiccurve.hpp -/

/-- The four coefficients `std::array<V, 4>` of one cubic segment. -/
structure Segment (V : Type) where
  a0 : V
  a1 : V
  a2 : V
  a3 : V
deriving DecidableEq, Repr

/-- The data members `_segments` and `_grid` of `PiecewiseCubicCurve`. -/
structure PiecewiseCubicCurve (S V : Type) where
  segments : List (Segment V)
  grid : List S
deriving DecidableEq, Repr

section Curve

variable {S V : Type} [LinearOrderedField S] [AddCommGroup V] [Module S V]

instance : Inhabited (Segment V) := ⟨⟨0, 0, 0, 0⟩⟩

/-- The function `_get_segment_and_trim`: the trimmed `t` (the argument is
passed by reference), the two grid values and the coefficients of the segment. -/
def PiecewiseCubicCurve.get_segment_and_trim (c : PiecewiseCubicCurve S V) (t : S) :
    S × S × S × Segment V :=
  let front := c.grid.headD 0
  let back := c.grid.getLastD 0
  let ti : S × Nat :=
    if t < front then (front, 0)
    else if t < back then (t, upper_bound c.grid t - 1)
    else if t = back then (t, c.grid.length - 2)
    else (back, c.segments.length - 1)
  (ti.1, c.grid.getD ti.2 0, c.grid.getD (ti.2 + 1) 0, c.segments.getD ti.2 default)

/-- The cubic of a segment at the local parameter `t`, by nested multiplication. -/
def Segment.eval (a : Segment V) (t : S) : V :=
  t • (t • (t • a.a3 + a.a2) + a.a1) + a.a0

/-- The function `PiecewiseCubicCurve::evaluate`. -/
def PiecewiseCubicCurve.evaluate (c : PiecewiseCubicCurve S V) (t : S) : V :=
  let r := c.get_segment_and_trim t
  r.2.2.2.eval ((r.1 - r.2.1) / (r.2.2.1 - r.2.1))

/-- The static function `_segment_velocity`. -/
def segment_velocity (t0 t1 : S) (a : Segment V) (t : S) : V :=
  let u := (t - t0) / (t1 - t0)
  (t1 - t0)⁻¹ • (u • (u • ((3 : S) • a.a3) + (2 : S) • a.a2) + a.a1)

/-- The function `PiecewiseCubicCurve::evaluate_velocity`. -/
def PiecewiseCubicCurve.evaluate_velocity (c : PiecewiseCubicCurve S V) (t : S) : V :=
  let r := c.get_segment_and_trim t
  segment_velocity r.2.1 r.2.2.1 r.2.2.2 r.1

/-- The three-argument `segment_length(index, a, b)`; the `.at()` accesses
throw when `index` is out of range. -/
def PiecewiseCubicCurve.segment_length (length : V → S) (c : PiecewiseCubicCurve S V)
    (index : Nat) (a b : S) : Option S :=
  match c.segments[index]?, c.grid[index]?, c.grid[index + 1]? with
  | some coeffs, some t0, some t1 =>
      some (gauss_legendre13 (fun t => length (segment_velocity t0 t1 coeffs t)) a b)
  | _, _, _ => none

/-- The one-argument `segment_length(index)`, over the whole segment. -/
def PiecewiseCubicCurve.segment_length_full (length : V → S) (c : PiecewiseCubicCurve S V)
    (index : Nat) : Option S :=
  match c.grid[index]?, c.grid[index + 1]? with
  | some t0, some t1 => c.segment_length length index t0 t1
  | _, _ => none

/-! ## cubichermitespline.hpp -/

/-- The coefficients pushed for one segment by the `CubicHermiteSpline` constructor. -/
def hermite_segment (x0 x1 v0 v1 : V) (t0 t1 : S) : Segment V :=
  let delta := t1 - t0
  { a0 := x0
    a1 := delta • v0
    a2 := (-3 : S) • x0 + (3 : S) • x1 - ((2 : S) * delta) • v0 - delta • v1
    a3 := (2 : S) • x0 - (2 : S) • x1 + delta • v0 + delta • v1 }

/-- The constructor `CubicHermiteSpline(vertices, tangents, grid)`. -/
def CubicHermiteSpline.construct (vertices tangents : List V) (grid : List S) :
    Option (PiecewiseCubicCurve S V) :=
  if vertices.length < 2 then none
  else
    let segments_size := vertices.length - 1
    if tangents.length ≠ 2 * segments_size then none
    else if vertices.length ≠ grid.length then none
    else if has_adjacent_ge grid then none
    else
      some
        { segments := (List.range segments_size).map fun i =>
            hermite_segment (vertices.getD i 0) (vertices.getD (i + 1) 0)
              (tangents.getD (2 * i) 0) (tangents.getD (2 * i + 1) 0)
              (grid.getD i 0) (grid.getD (i + 1) 0)
          grid := grid }

/-! ## centripetalkochanekbartelsspline.hpp -/

/-- The static function `_calculate_tangents`: incoming and outgoing tangent. -/
def calculate_tangents (x_1 x0 x1 : V) (t_1 t0 t1 : S) (tcb : S × S × S) : V × V :=
  let T := tcb.1
  let C := tcb.2.1
  let B := tcb.2.2
  let a := (1 - T) * (1 + C) * (1 + B)
  let b := (1 - T) * (1 - C) * (1 - B)
  let c := (1 - T) * (1 - C) * (1 + B)
  let d := (1 - T) * (1 + C) * (1 - B)
  let incoming := ((t1 - t0) * (t0 - t_1) * (t1 - t_1))⁻¹ •
    ((c * (t1 - t0) ^ 2) • (x0 - x_1) + (d * (t0 - t_1) ^ 2) • (x1 - x0))
  let outgoing := ((t1 - t0) * (t0 - t_1) * (t1 - t_1))⁻¹ •
    ((a * (t1 - t0) ^ 2) • (x0 - x_1) + (b * (t0 - t_1) ^ 2) • (x1 - x0))
  (incoming, outgoing)

/-- The static function `_end_tangent` ("natural" end conditions). -/
def end_tangent (x0 x1 : V) (t0 t1 : S) (inner_tangent : V) : V :=
  let delta := t1 - t0
  ((2 : S) * delta)⁻¹ • ((3 : S) • x1 - (3 : S) • x0 - delta • inner_tangent)

/-- The loop of `_init` creating the grid with centripetal parametrization;
it throws on a zero step. -/
def centripetal_grid (sqrt : S → S) (length : V → S) (vertices : List V) :
    Option (List S) :=
  (List.range (vertices.length - 1)).foldlM (fun grid i =>
    let x0 := vertices.getD i 0
    let x1 := vertices.getD (i + 1) 0
    let delta := sqrt (length (x1 - x0))
    if delta = 0 then none else some (grid ++ [grid.getLastD 0 + delta])) [0]

/-- The loop of `_init` pushing the incoming and outgoing tangent of every
inner vertex behind the placeholder `tangents[0]`. -/
def inner_tangents (vertices : List V) (grid : List S) (tcb : List (S × S × S))
    (closed : Bool) : List V :=
  (List.range (vertices.length - 2)).foldl (fun tangents i =>
    let io := calculate_tangents
      (vertices.getD i 0) (vertices.getD (i + 1) 0) (vertices.getD (i + 2) 0)
      (grid.getD i 0) (grid.getD (i + 1) 0) (grid.getD (i + 2) 0)
      (tcb.getD ((i + closed.toNat) % tcb.length) (0, 0, 0))
    tangents ++ [io.1, io.2]) [0]

/-- The static function `CentripetalKochanekBartelsSpline::_init`: the
vertices, tangents and grid handed to the base class constructor. -/
def CentripetalKochanekBartelsSpline.init (sqrt : S → S) (length : V → S)
    (vertices_in : List V) (tcb : List (S × S × S)) (closed : Bool) :
    Option (List V × List V × List S) :=
  if vertices_in.length < 2 then none
  else
    let vertices :=
      if closed then vertices_in ++ [vertices_in.getD 0 0, vertices_in.getD 1 0]
      else vertices_in
    if tcb.length + 2 ≠ vertices.length then none
    else
      match centripetal_grid sqrt length vertices with
      | none => none
      | some grid =>
        let tangents := inner_tangents vertices grid tcb closed
        if closed then
          some (vertices.dropLast,
                (tangents.set 0 (tangents.getLastD 0)).dropLast,
                grid.dropLast)
        else if vertices.length = 2 then
          let tangent := (grid.getD 1 0 - grid.getD 0 0)⁻¹ •
            (vertices.getD 1 0 - vertices.getD 0 0)
          some (vertices, [tangent, tangent], grid)
        else
          let tangents := tangents.set 0
            (end_tangent (vertices.getD 0 0) (vertices.getD 1 0)
              (grid.getD 0 0) (grid.getD 1 0) (tangents.getD 1 0))
          let last := vertices.length - 1
          let tangents := tangents ++
            [end_tangent (vertices.getD (last - 1) 0) (vertices.getD last 0)
              (grid.getD (last - 1) 0) (grid.getD last 0)
              (tangents.getD (tangents.length - 1) 0)]
          some (vertices, tangents, grid)

/-- The constructor `CentripetalKochanekBartelsSpline(vertices, tcb, closed)`. -/
def CentripetalKochanekBartelsSpline.construct (sqrt : S → S) (length : V → S)
    (vertices_in : List V) (tcb : List (S × S × S)) (closed : Bool) :
    Option (PiecewiseCubicCurve S V) :=
  match CentripetalKochanekBartelsSpline.init sqrt length vertices_in tcb closed with
  | none => none
  | some r => CubicHermiteSpline.construct r.1 r.2.1 r.2.2

end Curve

/-! ## shapepreservingcubicspline.hpp -/

section Scalar

variable {S : Type} [LinearOrderedField S]

/-- The static function `_calculate_slope`. -/
def calculate_slope (x_1 x0 x1 t_1 t0 t1 : S) : S :=
  ((x0 - x_1) / (t0 - t_1) + (x1 - x0) / (t1 - t0)) / 2

/-- The static function `_fix_slope` (Dougherty et al. 1989, eq. 4.2). -/
def fix_slope (slope left right : S) : S :=
  if left * right ≤ 0 then 0
  else if right > 0 then min (max 0 slope) (3 * min |left| |right|)
  else max (min 0 slope) (-3 * min |left| |right|)

/-- The recursive static function `_end_slope`, with a bound on the depth of
the recursion; `none` when the bound is reached. -/
def end_slope_depth : Nat → S → S → Option S
  | 0, _, _ => none
  | depth + 1, inner_slope, chord_slope =>
      if chord_slope < 0 then
        (end_slope_depth depth (-inner_slope) (-chord_slope)).map fun r => -r
      else if inner_slope ≤ chord_slope then
        some (3 * chord_slope - 2 * inner_slope)
      else
        some ((3 * chord_slope - inner_slope) / 2)

/-- The static function `_end_slope`; depth 2 always suffices
(see `end_slope_depth_two`). -/
def end_slope (inner_slope chord_slope : S) : S :=
  (end_slope_depth 2 inner_slope chord_slope).getD 0

/-- One pass of the loop over the inner values in `_init`: the slope at
`values[i + 1]`, pushed twice (incoming and outgoing). -/
def inner_slope_step (values : List S) (slopes_in : List (Option S)) (grid : List S)
    (slopes : List S) (i : Nat) : Option (List S) :=
  let x_1 := values.getD i 0
  let x0 := values.getD (i + 1) 0
  let x1 := values.getD (i + 2) 0
  let t_1 := grid.getD i 0
  let t0 := grid.getD (i + 1) 0
  let t1 := grid.getD (i + 2) 0
  let left := (x0 - x_1) / (t0 - t_1)
  let right := (x1 - x0) / (t1 - t0)
  match slopes_in.getD ((i + 1) % slopes_in.length) none with
  | some slope =>
      if slope ≠ fix_slope slope left right then none
      else some (slopes ++ [slope, slope])
  | none =>
      let slope := fix_slope (calculate_slope x_1 x0 x1 t_1 t0 t1) left right
      some (slopes ++ [slope, slope])

/-- The lambda `check_slope` of the two-value case, as the test that it passes. -/
def check_slope (chord slope : S) : Bool :=
  decide (slope = fix_slope slope chord chord)

/-- The lambda `end_slope` of `_init` for more than two values. -/
def end_slope_or_given (outer : Option S) (inner chord : S) : Option S :=
  match outer with
  | some o => if o ≠ fix_slope o chord chord then none else some o
  | none => some (end_slope inner chord)

/-- The static function `ShapePreservingCubicSpline::_init` with slopes: the
values, slopes and grid handed to the base class constructor. -/
def ShapePreservingCubicSpline.init (values_in : List S) (slopes_in : List (Option S))
    (grid_in : List S) (closed : Bool) : Option (List S × List S × List S) :=
  if values_in.length < 2 then none
  else if values_in.length ≠ grid_in.length + closed.toNat then none
  else if values_in.length ≠ slopes_in.length then none
  else
    let values :=
      if closed then values_in ++ [values_in.getD 0 0, values_in.getD 1 0] else values_in
    let grid :=
      if closed then
        grid_in ++ [grid_in.getLastD 0 + grid_in.getD 1 0 - grid_in.getD 0 0]
      else grid_in
    match (List.range (values.length - 2)).foldlM
        (inner_slope_step values slopes_in grid) [0] with
    | none => none
    | some slopes =>
      if closed then
        some (values, (slopes.set 0 (slopes.getLastD 0)).dropLast, grid)
      else if slopes_in.length = 2 then
        let chord := (values_in.getD 1 0 - values_in.getD 0 0) /
          (grid_in.getD 1 0 - grid_in.getD 0 0)
        match slopes_in.getD 0 none, slopes_in.getD 1 none with
        | some one, some two =>
            if check_slope chord one && check_slope chord two then
              some (values, [one, two], grid)
            else none
        | some one, none =>
            if check_slope chord one then
              some (values, [one, end_slope one chord], grid)
            else none
        | none, some two =>
            if check_slope chord two then
              some (values, [end_slope two chord, two], grid)
            else none
        | none, none => some (values, [chord, chord], grid)
      else
        match end_slope_or_given (slopes_in.headD none) (slopes.getD 1 0)
            ((values.getD 1 0 - values.getD 0 0) / (grid.getD 1 0 - grid.getD 0 0)) with
        | none => none
        | some first =>
          let slopes := slopes.set 0 first
          match end_slope_or_given (slopes_in.getLastD none) (slopes.getLastD 0)
              ((values.getD (values.length - 1) 0 - values.getD (values.length - 2) 0) /
                (grid.getD (grid.length - 1) 0 - grid.getD (grid.length - 2) 0)) with
          | none => none
          | some last => some (values, slopes ++ [last], grid)

/-- The constructor `ShapePreservingCubicSpline(values, slopes, grid, closed)`. -/
def ShapePreservingCubicSpline.construct (values : List S) (slopes : List (Option S))
    (grid : List S) (closed : Bool) : Option (PiecewiseCubicCurve S S) :=
  match ShapePreservingCubicSpline.init values slopes grid closed with
  | none => none
  | some r => CubicHermiteSpline.construct r.1 r.2.1 r.2.2

/-- The constructor `ShapePreservingCubicSpline(values, grid, closed)`, which
adds undefined slopes. -/
def ShapePreservingCubicSpline.construct_without_slopes (values grid : List S) (closed : Bool) :
    Option (PiecewiseCubicCurve S S) :=
  ShapePreservingCubicSpline.construct values (List.replicate values.length none) grid closed

/-! ## monotonecubicspline.hpp -/

/-- A `MonotoneCubicSpline`: the base class members and the member `_values`. -/
structure MonotoneCubicSpline (S : Type) where
  curve : PiecewiseCubicCurve S S
  values : List S
deriving DecidableEq, Repr

/-- The constructor `MonotoneCubicSpline(values, slopes, grid)`: the base class
is built with `closed = false`, then the values are tested with `std::is_sorted`. -/
def MonotoneCubicSpline.construct (values : List S) (slopes : List (Option S)) (grid : List S) :
    Option (MonotoneCubicSpline S) :=
  match ShapePreservingCubicSpline.construct values slopes grid false with
  | none => none
  | some c => if ¬ is_sorted values then none else some ⟨c, values⟩

/-- The function `MonotoneCubicSpline::get_time`; `none` is `std::nullopt`.
The difference `endmatch - beginmatch` of the two iterators is signed. -/
def MonotoneCubicSpline.get_time (m : MonotoneCubicSpline S) (value : S) : Option S :=
  let beginmatch := lower_bound m.values value
  let endmatch := upper_bound m.values value
  if endmatch = 0 then some (m.curve.grid.headD 0)
  else if beginmatch = m.values.length then some (m.curve.grid.getLastD 0)
  else if (endmatch : Int) - (beginmatch : Int) = 1 then
    some (m.curve.grid.getD beginmatch 0)
  else if (endmatch : Int) - (beginmatch : Int) > 1 then none
  else
    let idx := endmatch - 1
    let a := m.curve.segments.getD idx default
    let a0 := a.a0 - value
    let func := fun t : S => ((a.a3 * t + a.a2) * t + a.a1) * t + a0
    let time := bisect func 0 1 0.0001 500
    let t0 := m.curve.grid.getD idx 0
    let t1 := m.curve.grid.getD (idx + 1) 0
    some (time * (t1 - t0) + t0)

end Scalar

/-! ## asdfspline.hpp -/

/-- The type `std::variant<V, CLOSED>` of a vertex position. -/
inductive Position (V : Type) where
  | point (v : V)
  | CLOSED
deriving DecidableEq, Repr

/-- The point held by a position, if it holds one (`std::holds_alternative<V>`
and `std::get<V>`). -/
def Position.toOption {V : Type} : Position V → Option V
  | Position.point v => some v
  | Position.CLOSED => none

/-- The struct `AsdfVertex`. -/
structure AsdfVertex (S V : Type) where
  position : Position V
  time : Option S
  speed : Option S
  tcb : S × S × S
deriving DecidableEq, Repr

/-- The data members of `AsdfSpline::Initializer`. -/
structure Initializer (S V : Type) where
  closed : Bool
  vertices : List V
  times : List S
  missing_times : List Nat
  speeds : List (Option S)
  tcb : List (S × S × S)
  lengths_at_missing_times : List S
deriving DecidableEq, Repr

/-- The data members of `AsdfSpline` once the constructor has returned. -/
structure AsdfSpline (S V : Type) where
  path : PiecewiseCubicCurve S V
  t2s : MonotoneCubicSpline S
  grid : List S
  s_grid : List S
deriving DecidableEq, Repr

section Asdf

variable {S V : Type} [LinearOrderedField S] [AddCommGroup V] [Module S V]

/-- First block of the loop body of the `Initializer` constructor: the
position of the record `current` at index `i` of `size` records. -/
def Initializer.add_position (size : Nat) (init : Initializer S V) (i : Nat)
    (current : AsdfVertex S V) : Option (Initializer S V) :=
  match current.position with
  | Position.point v => some { init with vertices := init.vertices ++ [v] }
  | Position.CLOSED => if i ≠ size - 1 then none else some init

/-- Second block of the loop body: time and speed of the record. -/
def Initializer.add_time (size : Nat) (init : Initializer S V) (i : Nat)
    (current : AsdfVertex S V) : Option (Initializer S V) :=
  match current.time with
  | some t =>
      some { init with times := init.times ++ [t], speeds := init.speeds ++ [current.speed] }
  | none =>
      if i = 0 then
        some { init with times := init.times ++ [0], speeds := init.speeds ++ [current.speed] }
      else if i = size - 1 then none
      else if current.speed.isSome then none
      else some { init with missing_times := init.missing_times ++ [i] }

/-- Third block of the loop body: the TCB values of the record. -/
def Initializer.add_tcb (size : Nat) (init : Initializer S V) (i : Nat)
    (current : AsdfVertex S V) : Option (Initializer S V) :=
  if (init.closed || decide (0 < i)) && decide (i < size - 1) then
    some { init with tcb := init.tcb ++ [current.tcb] }
  else if current.tcb ≠ (0, 0, 0) then none
  else some init

/-- One pass of the loop of the `Initializer` constructor, for the record
`current` at index `i` of `size` records. -/
def Initializer.step (size : Nat) (init : Initializer S V) (i : Nat)
    (current : AsdfVertex S V) : Option (Initializer S V) :=
  (init.add_position size i current).bind fun init =>
    (init.add_time size i current).bind fun init =>
      init.add_tcb size i current

/-- The constructor `Initializer(data)`. -/
def Initializer.construct (data : List (AsdfVertex S V)) : Option (Initializer S V) :=
  if data.length < 2 then none
  else
    let closed :=
      match data.getLast? with
      | some ⟨Position.CLOSED, _, _, _⟩ => true
      | _ => false
    (List.range data.length).foldlM (fun init i =>
      match data[i]? with
      | some current => Initializer.step data.length init i current
      | none => none)
      { closed := closed, vertices := [], times := [], missing_times := [],
        speeds := [], tcb := [], lengths_at_missing_times := [] }

/-- The member function `get_t2s_arguments(path)`: the tuple
`(lengths, speeds, times)` and the initializer with its updated
`lengths_at_missing_times`. -/
def Initializer.get_t2s_arguments (length : V → S) (init : Initializer S V)
    (path : PiecewiseCubicCurve S V) :
    Option ((List S × List (Option S) × List S) × Initializer S V) :=
  match (List.range (path.grid.length - 1)).foldlM (fun (st : List S × List S) i =>
      match path.segment_length_full length i with
      | none => none
      | some len =>
        if i ∈ init.missing_times then
          some (st.1.dropLast ++ [st.1.getLastD 0 + len], st.2 ++ [st.1.getLastD 0])
        else
          some (st.1 ++ [st.1.getLastD 0 + len], st.2))
      ([0], init.lengths_at_missing_times) with
  | none => none
  | some st =>
      some ((st.1, init.speeds, init.times), { init with lengths_at_missing_times := st.2 })

/-- The member function `get_grid(t2s)`. -/
def Initializer.get_grid (init : Initializer S V) (t2s : MonotoneCubicSpline S) :
    Option (List S) :=
  (List.range init.missing_times.length).foldlM (fun times i =>
    match t2s.get_time (init.lengths_at_missing_times.getD i 0) with
    | some time => some (times.insertIdx (init.missing_times.getD i 0) time)
    | none => none) init.times

/-- The constructor `AsdfSpline(data)`. -/
def AsdfSpline.construct (sqrt : S → S) (length : V → S) (data : List (AsdfVertex S V)) :
    Option (AsdfSpline S V) :=
  match Initializer.construct data with
  | none => none
  | some init =>
    match CentripetalKochanekBartelsSpline.construct sqrt length init.vertices init.tcb init.closed with
    | none => none
    | some path =>
      match init.get_t2s_arguments length path with
      | none => none
      | some (args, init) =>
        match MonotoneCubicSpline.construct args.1 args.2.1 args.2.2 with
        | none => none
        | some t2s =>
          match init.get_grid t2s with
          | none => none
          | some grid =>
              some { path := path, t2s := t2s, grid := grid,
                     s_grid := grid.map fun t => t2s.curve.evaluate t }

/-- The private function `_s2u`.  The index passed to `segment_length` comes
from the search in `_s_grid`; should `.at()` throw, the model takes `0`. -/
def AsdfSpline.s2u (length : V → S) (sp : AsdfSpline S V) (s : S) : S :=
  let accuracy : S := 0.0001
  if s ≤ sp.s_grid.headD 0 then sp.path.grid.headD 0
  else if s < sp.s_grid.getLastD 0 then
    let index := upper_bound sp.s_grid s - 1
    let s := s - sp.s_grid.getD index 0
    let u0 := sp.path.grid.getD index 0
    let u1 := sp.path.grid.getD (index + 1) 0
    let func := fun u : S => (sp.path.segment_length length index u0 u).getD 0 - s
    bisect func u0 u1 accuracy 50
  else sp.path.grid.getLastD 0

/-- The function `AsdfSpline::evaluate`. -/
def AsdfSpline.evaluate (length : V → S) (sp : AsdfSpline S V) (t : S) : V :=
  sp.path.evaluate (sp.s2u length (sp.t2s.curve.evaluate t))

/-- The function `AsdfSpline::evaluate_velocity`. -/
def AsdfSpline.evaluate_velocity (length : V → S) (sp : AsdfSpline S V) (t : S) : V :=
  let speed := sp.t2s.curve.evaluate_velocity t
  let tangent := sp.path.evaluate_velocity (sp.s2u length (sp.t2s.curve.evaluate t))
  let tangent_length := length tangent
  let tangent := if tangent_length ≠ 0 then tangent_length⁻¹ • tangent else tangent
  speed • tangent

end Asdf

/-! ## The vector type of the Python binding and exact library functions -/

/-- The type `Vec3<T>` of the binding, as a triple of rationals. -/
abbrev Vec3 := ℚ × ℚ × ℚ

/-- Search for the integer square root of `n` between `lo` and `hi`, by halving. -/
def sqrt_search (n : Nat) : Nat → Nat → Nat → Nat
  | 0, lo, _ => lo
  | fuel + 1, lo, hi =>
      if hi ≤ lo + 1 then lo
      else
        let mid := (lo + hi) / 2
        if mid * mid ≤ n then sqrt_search n fuel mid hi else sqrt_search n fuel lo mid

/-- The integer square root, rounded down. -/
def natSqrt (n : Nat) : Nat := sqrt_search n n 0 (n + 1)

/-- A square root on rationals, exact on squares of rationals (`std::sqrt`
with the root of numerator and denominator rounded down). -/
def sqrtQ (q : ℚ) : ℚ := mkRat (natSqrt q.num.toNat) (natSqrt q.den)

/-- The function `length(Vec3)` (`std::hypot`), exact when the sum of squares
is the square of a rational. -/
def lengthQ (v : Vec3) : ℚ := sqrtQ (v.1 * v.1 + v.2.1 * v.2.1 + v.2.2 * v.2.2)

/-! ## Auxiliary definitions for the statements -/

/-- A function for which bisection ends on a point worse than both bounds. -/
def zigzag (x : ℚ) : ℚ :=
  if x = 0 then -1 else if x = 1 then 1 else if x ≤ 1 / 4 then -100 else 100

/-- A function with a single root at one third. -/
def third_line (x : ℚ) : ℚ := x - 1 / 3

/-- A function whose root is the first midpoint. -/
def half_line (x : ℚ) : ℚ := x - 1 / 2

/-- What holds of the state in which the loop of `bisect` returns, when it was
entered with a sign change between `lo` and `hi` and `P` is kept by a step. -/
def BisectPost {S : Type} [LinearOrderedField S] (f : S → S) (xtol lo hi : S)
    (P : S → S → Prop) (bound : Nat) (r : BisectResult S) : Prop :=
  f r.result = 0 ∨
    ((r.result = if |f r.xmin| < |f r.xmax| then r.xmin else r.xmax) ∧
      lo ≤ r.xmin ∧ r.xmin < r.xmax ∧ r.xmax ≤ hi ∧ f r.xmin * f r.xmax < 0 ∧
      P r.xmin r.xmax ∧ (r.xmax - r.xmin ≤ xtol ∨ bound ≤ r.calls))

/-- A vertex record with a position, default TCB and the given time and speed. -/
def vertexQ (x y z : ℚ) (time speed : Option ℚ) : AsdfVertex ℚ Vec3 :=
  ⟨Position.point (x, y, z), time, speed, (0, 0, 0)⟩

/-- The scenario of the specification: the middle vertex has no time. -/
def scenario_data : List (AsdfVertex ℚ Vec3) :=
  [vertexQ 0 0 0 (some 0) none, vertexQ 1 0 0 none none, vertexQ 2 0 0 (some 2) none]

/-- A vertex without time very close to its predecessor. -/
def close_vertex_data : List (AsdfVertex ℚ Vec3) :=
  [vertexQ 0 0 0 (some 0) none, vertexQ (1 / 1000000) 0 0 none none,
   vertexQ (1000001 / 1000000) 0 0 (some 1) none]

/-- A closed curve of three records, the last one being the `CLOSED` marker. -/
def closed_data : List (AsdfVertex ℚ Vec3) :=
  [vertexQ 0 0 0 (some 0) none, vertexQ 1 0 0 (some 1) none,
   ⟨Position.CLOSED, some 2, none, (0, 0, 0)⟩]

/-- Two records, the first one with a speed and without a time. -/
def first_speed_data : List (AsdfVertex ℚ Vec3) :=
  [vertexQ 0 0 0 none (some 1), vertexQ 1 0 0 (some 1) none]

/-- Two records of an open curve, the first one with a tension of 1. -/
def first_tcb_data : List (AsdfVertex ℚ Vec3) :=
  [⟨Position.point (0, 0, 0), some 0, none, (1, 0, 0)⟩, vertexQ 1 0 0 (some 1) none]

/-- Three records, the middle one with a speed and without a time. -/
def middle_speed_data : List (AsdfVertex ℚ Vec3) :=
  [vertexQ 0 0 0 (some 0) none, vertexQ 1 0 0 none (some 1), vertexQ 2 0 0 (some 2) none]

/-- The spline without segments, the value of a failed construction below. -/
def empty_spline : AsdfSpline ℚ Vec3 := ⟨⟨[], []⟩, ⟨⟨[], []⟩, []⟩, [], []⟩

/-- The spline constructed from `closed_data`. -/
def closed_spline : AsdfSpline ℚ Vec3 :=
  (AsdfSpline.construct sqrtQ lengthQ closed_data).getD empty_spline

/-- The monotone spline through the values 0, 1, 2 at the times 0, 1, 2. -/
def sample_monotone : MonotoneCubicSpline ℚ :=
  (MonotoneCubicSpline.construct [0, 1, 2] [none, none, none] [0, 1, 2]).getD ⟨⟨[], []⟩, []⟩

/-- The Euclidean length of a vector of dimension one. -/
def abs_length (x : ℚ) : ℚ := |x|

/-- Three records on a line, in dimension one; the middle one has the speed 1. -/
def line_data : List (AsdfVertex ℚ ℚ) :=
  [⟨Position.point 0, some 0, none, (0, 0, 0)⟩, ⟨Position.point 1, some 1, some 1, (0, 0, 0)⟩,
   ⟨Position.point 2, some 2, none, (0, 0, 0)⟩]

/-- The spline constructed from `line_data`. -/
def line_spline : AsdfSpline ℚ ℚ :=
  (AsdfSpline.construct sqrtQ abs_length line_data).getD ⟨⟨[], []⟩, ⟨⟨[], []⟩, []⟩, [], []⟩

/-- A scalar Hermite spline through 0, 1, 3 at the times 0, 1, 2. -/
def sample_hermite : PiecewiseCubicCurve ℚ ℚ :=
  (CubicHermiteSpline.construct [(0 : ℚ), 1, 3] [1, 2, 2, 0] [(0 : ℚ), 1, 2]).getD ⟨[], []⟩

/-- The index `idx` that `_get_segment_and_trim` computes before it reads
`_grid[idx]`, `_grid[idx + 1]` and `_segments[idx]`. -/
def PiecewiseCubicCurve.get_segment_index {S V : Type} [LinearOrderedField S]
    (c : PiecewiseCubicCurve S V) (t : S) : Nat :=
  let front := c.grid.headD 0
  let back := c.grid.getLastD 0
  if t < front then 0
  else if t < back then upper_bound c.grid t - 1
  else if t = back then c.grid.length - 2
  else c.segments.length - 1

/-- A scalar curve of one segment that runs from 0 back to 0 with the velocity
`2 t - 1`, so that its speed `|2 t - 1|` has a kink at `t = 1 / 2`. -/
def kink_curve : PiecewiseCubicCurve ℚ ℚ :=
  (CubicHermiteSpline.construct [(0 : ℚ), 0] [-1, 1] [(0 : ℚ), 1]).getD ⟨[], []⟩

/-- A scalar curve of one segment from 0 to 2 with the constant velocity 2. -/
def steady_curve : PiecewiseCubicCurve ℚ ℚ :=
  (CubicHermiteSpline.construct [(0 : ℚ), 2] [2, 2] [(0 : ℚ), 1]).getD ⟨[], []⟩

/-- An open scalar Kochanek-Bartels spline through 0, 1, 5. -/
def open_ckb : PiecewiseCubicCurve ℚ ℚ :=
  (CentripetalKochanekBartelsSpline.construct sqrtQ abs_length [(0 : ℚ), 1, 5] [(0, 0, 0)]
    false).getD ⟨[], []⟩

/-- A closed scalar Kochanek-Bartels spline through 0 and 1 whose closing
vertex has the continuity parameter 1. -/
def corner_ckb : PiecewiseCubicCurve ℚ ℚ :=
  (CentripetalKochanekBartelsSpline.construct sqrtQ abs_length [(0 : ℚ), 1]
    [(0, 1, 0), (0, 0, 0)] true).getD ⟨[], []⟩

/-- A closed scalar Kochanek-Bartels spline through 0 and 1 whose closing
vertex has the continuity parameter 0, with tension and bias. -/
def smooth_ckb : PiecewiseCubicCurve ℚ ℚ :=
  (CentripetalKochanekBartelsSpline.construct sqrtQ abs_length [(0 : ℚ), 1]
    [(1 / 2, 0, 1 / 3), (0, 1, 0)] true).getD ⟨[], []⟩

/-- The slope of the chord of segment `i`. -/
def chord_slope {S : Type} [LinearOrderedField S] (values grid : List S) (i : Nat) : S :=
  (values.getD (i + 1) 0 - values.getD i 0) / (grid.getD (i + 1) 0 - grid.getD i 0)

/-- The chord slope on the left of vertex `k`; at the first vertex, the slope
of the only adjacent chord. -/
def left_chord {S : Type} [LinearOrderedField S] (values grid : List S) (k : Nat) : S :=
  if k = 0 then chord_slope values grid 0 else chord_slope values grid (k - 1)

/-- The chord slope on the right of vertex `k`; at the last vertex, the slope
of the only adjacent chord. -/
def right_chord {S : Type} [LinearOrderedField S] (values grid : List S) (k : Nat) : S :=
  if k + 1 = values.length then chord_slope values grid (k - 1) else chord_slope values grid k

/-- The monotone spline over the reals through the values 0 and 1 at the times
0 and 1, which `MonotoneCubicSpline([0, 1], [nullopt, nullopt], [0, 1])`
constructs: a straight line. -/
def unit_ramp : MonotoneCubicSpline ℝ := ⟨⟨[⟨0, 1, 0, 0⟩], [0, 1]⟩, [0, 1]⟩

/-- What `_init` hands to the Hermite constructor for the closed spline through
0 and 1 with the TCB triples `(1/2, 0, 1/3)` and `(0, 1, 0)`. -/
def smooth_init : List ℚ × List ℚ × List ℚ :=
  (CentripetalKochanekBartelsSpline.init sqrtQ abs_length [(0 : ℚ), 1]
    [(1 / 2, 0, 1 / 3), (0, 1, 0)] true).getD ([], [], [])

/-! # Theorems -/

/-! ## bisect -/
section
variable {S : Type} [LinearOrderedField S]

theorem BisectPost.mono_bound {f : S → S} {xtol lo hi : S} {P : S → S → Prop} {b1 b2 : Nat}
    {r : BisectResult S} (h : BisectPost f xtol lo hi P b1 r) (hb : b2 ≤ b1) :
    BisectPost f xtol lo hi P b2 r := by
  rcases h with h | ⟨ha, hb1, hc, hd, he, hf, hg⟩
  · exact Or.inl h
  · exact Or.inr ⟨ha, hb1, hc, hd, he, hf, hg.imp id (fun h => le_trans hb h)⟩

theorem sign_change_right {a m b : S} (h : a * b < 0) (hm : m ≠ 0) (hs : ¬ a * m < 0) :
    m * b < 0 := by
  rcases lt_trichotomy a 0 with ha | ha | ha
  · have hb : 0 < b := pos_of_mul_neg_right h (le_of_lt ha)
    have hm2 : m < 0 := by
      rcases lt_trichotomy m 0 with h1 | h1 | h1
      · exact h1
      · exact absurd h1 hm
      · exact absurd (mul_neg_of_neg_of_pos ha h1) hs
    exact mul_neg_of_neg_of_pos hm2 hb
  · rw [ha] at h; simp at h
  · have hb : b < 0 := neg_of_mul_neg_right h (le_of_lt ha)
    have hm2 : 0 < m := by
      rcases lt_trichotomy m 0 with h1 | h1 | h1
      · exact absurd (mul_neg_of_pos_of_neg ha h1) hs
      · exact absurd h1 hm
      · exact h1
    exact mul_neg_of_pos_of_neg hm2 hb

theorem bisect_loop_spec (f : S → S) (xtol : S) (lo hi : S) (P : S → S → Prop)
    (hP : ∀ a b, lo ≤ a → a < b → b ≤ hi → f a * f b < 0 → P a b →
      (f a * f ((a + b) / 2) < 0 → P a ((a + b) / 2)) ∧
      (f ((a + b) / 2) * f b < 0 → P ((a + b) / 2) b)) :
    ∀ (n calls : Nat) (xmin xmax : S), lo ≤ xmin → xmin < xmax → xmax ≤ hi →
      f xmin * f xmax < 0 → P xmin xmax →
      BisectPost f xtol lo hi P (calls + n)
        (bisect_loop f xtol n calls xmin xmax (f xmin) (f xmax)) := by
  intro n
  induction n with
  | zero =>
    intro calls xmin xmax h1 h2 h3 h4 h5
    rw [bisect_loop]
    exact Or.inr ⟨rfl, h1, h2, h3, h4, h5, Or.inr (le_refl _)⟩
  | succ n ih =>
    intro calls xmin xmax h1 h2 h3 h4 h5
    have hm1 : xmin < (xmin + xmax) / 2 := by linarith
    have hm2 : (xmin + xmax) / 2 < xmax := by linarith
    rw [bisect_loop]
    by_cases hw : xmax - xmin > xtol
    · rw [if_pos hw]
      have hmid : ¬ ((xmin + xmax) / 2 = xmin ∨ (xmin + xmax) / 2 = xmax) := by
        rintro (h | h)
        · exact absurd h (ne_of_gt hm1)
        · exact absurd h (ne_of_lt hm2)
      simp only [if_neg hmid]
      by_cases hz : f ((xmin + xmax) / 2) = 0
      · rw [if_pos hz]
        exact Or.inl hz
      · rw [if_neg hz]
        by_cases hs : f xmin * f ((xmin + xmax) / 2) < 0
        · rw [if_pos hs]
          exact (ih (calls + 1) xmin ((xmin + xmax) / 2) h1 hm1 (by linarith) hs
            ((hP xmin xmax h1 h2 h3 h4 h5).1 hs)).mono_bound (by omega)
        · rw [if_neg hs]
          have hs2 := sign_change_right h4 hz hs
          exact (ih (calls + 1) ((xmin + xmax) / 2) xmax (by linarith) hm2 h3 hs2
            ((hP xmin xmax h1 h2 h3 h4 h5).2 hs2)).mono_bound (by omega)
    · rw [if_neg hw]
      exact Or.inr ⟨rfl, h1, h2, h3, h4, h5, Or.inl (not_lt.mp hw)⟩
end

section
variable {S : Type} [LinearOrderedField S]

theorem bisect_run_sign_change (f : S → S) (lo hi xtol : S) (max_calls : Nat)
    (hb : max_calls < 2 ^ 64) (hle : lo ≤ hi) (hsign : f lo * f hi < 0)
    (P : S → S → Prop) (hP0 : P lo hi)
    (hP : ∀ a b, lo ≤ a → a < b → b ≤ hi → f a * f b < 0 → P a b →
      (f a * f ((a + b) / 2) < 0 → P a ((a + b) / 2)) ∧
      (f ((a + b) / 2) * f b < 0 → P ((a + b) / 2) b)) :
    BisectPost f xtol lo hi P max_calls (bisect_run f lo hi xtol max_calls) := by
  have h1 : f lo ≠ 0 := by
    intro h; rw [h] at hsign; simp at hsign
  have h2 : f hi ≠ 0 := by
    intro h; rw [h] at hsign; simp at hsign
  have hlt : lo < hi := by
    rcases lt_or_eq_of_le hle with h | h
    · exact h
    · rw [h] at hsign
      exact absurd hsign (not_lt.mpr (mul_self_nonneg _))
  unfold bisect_run
  simp only [if_neg h1, if_neg h2, if_pos hsign]
  refine (bisect_loop_spec f xtol lo hi P hP _ 2 lo hi (le_refl _) hlt (le_refl _) hsign
    hP0).mono_bound ?_
  norm_num at hb ⊢
  omega

theorem monotone_keeps_bounds (f : S → S) (lo hi : S)
    (hmono : MonotoneOn f (Set.Icc lo hi) ∨ AntitoneOn f (Set.Icc lo hi)) :
    ∀ a b, lo ≤ a → a < b → b ≤ hi → f a * f b < 0 →
      (|f a| ≤ |f lo| ∧ |f b| ≤ |f hi|) →
      (f a * f ((a + b) / 2) < 0 → |f a| ≤ |f lo| ∧ |f ((a + b) / 2)| ≤ |f hi|) ∧
      (f ((a + b) / 2) * f b < 0 → |f ((a + b) / 2)| ≤ |f lo| ∧ |f b| ≤ |f hi|) := by
  intro a b h1 h2 h3 h4 ⟨h5, h6⟩
  have ha : a ∈ Set.Icc lo hi := ⟨h1, by linarith⟩
  have hb : b ∈ Set.Icc lo hi := ⟨by linarith, h3⟩
  have hm : (a + b) / 2 ∈ Set.Icc lo hi := ⟨by linarith, by linarith⟩
  have ham : a ≤ (a + b) / 2 := by linarith
  have hmb : (a + b) / 2 ≤ b := by linarith
  rcases hmono with hmono | hmono
  · have e1 := hmono ha hm ham
    have e2 := hmono hm hb hmb
    have hfa : f a < 0 := by
      by_contra hc
      push_neg at hc
      nlinarith [mul_nonneg hc (le_trans hc (le_trans e1 e2))]
    have hfb : 0 < f b := pos_of_mul_neg_right h4 (le_of_lt hfa)
    constructor
    · intro hs
      refine ⟨h5, le_trans ?_ h6⟩
      have hfm : 0 < f ((a + b) / 2) := pos_of_mul_neg_right hs (le_of_lt hfa)
      rw [abs_of_pos hfm, abs_of_pos hfb]
      exact e2
    · intro hs
      refine ⟨le_trans ?_ h5, h6⟩
      have hfm : f ((a + b) / 2) < 0 := neg_of_mul_neg_left hs (le_of_lt hfb)
      rw [abs_of_neg hfm, abs_of_neg hfa]
      linarith
  · have e1 := hmono ha hm ham
    have e2 := hmono hm hb hmb
    have hfa : 0 < f a := by
      by_contra hc
      push_neg at hc
      nlinarith [mul_nonneg_of_nonpos_of_nonpos hc (le_trans (le_trans e2 e1) hc)]
    have hfb : f b < 0 := neg_of_mul_neg_right h4 (le_of_lt hfa)
    constructor
    · intro hs
      refine ⟨h5, le_trans ?_ h6⟩
      have hfm : f ((a + b) / 2) < 0 := neg_of_mul_neg_right hs (le_of_lt hfa)
      rw [abs_of_neg hfm, abs_of_neg hfb]
      linarith
    · intro hs
      refine ⟨le_trans ?_ h5, h6⟩
      have hfm : 0 < f ((a + b) / 2) := pos_of_mul_neg_left hs (le_of_lt hfb)
      rw [abs_of_pos hfm, abs_of_pos hfa]
      exact e1

/-- In exact arithmetic, where the midpoint of a bracket is never one of its
ends: for `f` monotone on a bracket `lo <= hi` with a sign change, the result `r` of `bisect` has `|f r| <= min (|f lo|, |f hi|)`, and
`bisect` returns with `f r = 0`, or with a final bracket no wider than the
tolerance, or with at least `max_calls` evaluations made. -/
theorem bisect_monotone_sign_change (f : S → S) (lo hi xtol : S) (max_calls : Nat)
    (hb : max_calls < 2 ^ 64) (hle : lo ≤ hi) (hsign : f lo * f hi < 0)
    (hmono : MonotoneOn f (Set.Icc lo hi) ∨ AntitoneOn f (Set.Icc lo hi)) :
    |f (bisect f lo hi xtol max_calls)| ≤ min |f lo| |f hi| ∧
      (f (bisect f lo hi xtol max_calls) = 0 ∨
        (bisect_run f lo hi xtol max_calls).xmax - (bisect_run f lo hi xtol max_calls).xmin
          ≤ xtol ∨
        max_calls ≤ (bisect_run f lo hi xtol max_calls).calls) := by
  have key := bisect_run_sign_change f lo hi xtol max_calls hb hle hsign
    (fun a b => |f a| ≤ |f lo| ∧ |f b| ≤ |f hi|) ⟨le_refl _, le_refl _⟩
    (monotone_keeps_bounds f lo hi hmono)
  unfold bisect
  rcases key with h | ⟨ha, _, _, _, _, ⟨hf1, hf2⟩, hg⟩
  · refine ⟨?_, Or.inl h⟩
    rw [h, abs_zero]
    exact le_min (abs_nonneg _) (abs_nonneg _)
  · refine ⟨?_, Or.inr hg⟩
    rw [ha]
    split_ifs with hc
    · exact le_min hf1 (le_trans (le_of_lt hc) hf2)
    · exact le_min (le_trans (not_lt.mp hc) hf1) hf2

theorem bisect_monotone_sign_change_witness :
    (500 < 2 ^ 64 ∧ (0 : ℚ) ≤ 1 ∧ third_line 0 * third_line 1 < 0 ∧
      (MonotoneOn third_line (Set.Icc 0 1) ∨ AntitoneOn third_line (Set.Icc 0 1))) ∧
    (|third_line (bisect third_line 0 1 (1 / 10000) 500)| ≤
        min |third_line 0| |third_line 1| ∧
      (third_line (bisect third_line 0 1 (1 / 10000) 500) = 0 ∨
        (bisect_run third_line 0 1 (1 / 10000) 500).xmax -
          (bisect_run third_line 0 1 (1 / 10000) 500).xmin ≤ 1 / 10000 ∨
        500 ≤ (bisect_run third_line 0 1 (1 / 10000) 500).calls)) :=
  have hm : MonotoneOn third_line (Set.Icc 0 1) := fun a _ b _ hab => by
    unfold third_line; linarith
  ⟨⟨by norm_num, by norm_num, by decide!, Or.inl hm⟩,
    bisect_monotone_sign_change third_line 0 1 (1 / 10000) 500 (by norm_num) (by norm_num)
      (by decide!) (Or.inl hm)⟩

end

/-! ## Concrete runs of the constructor -/

/-- C7: for the scenario with the middle time missing, construction succeeds,
the grid is `[0, 1, 2]` and `evaluate(1)` is `(1, 0, 0)`. -/
theorem scenario_missing_middle_time :
    (AsdfSpline.construct sqrtQ lengthQ scenario_data).map
      (fun sp => (sp.grid, sp.evaluate lengthQ 1)) = some ([0, 1, 2], ((1 : ℚ), (0 : ℚ), (0 : ℚ))) := by
  decide!

/-- C2 at its failing input: the vertex without time lies a millionth of the
path behind the first vertex, bisection returns the lower bound of its
bracket, and the resulting grid `[0, 0, 1]` repeats a value. -/
theorem grid_repeats_value :
    (AsdfSpline.construct sqrtQ lengthQ close_vertex_data).map (fun sp => sp.grid)
      = some [0, 0, 1] := by
  decide!

/-- C3 (as stated) fails: three records ending in the `CLOSED` marker give a
grid of three values, not two. -/
theorem closed_grid_size_counterexample :
    closed_data.getLast? = some ⟨Position.CLOSED, some 2, none, (0, 0, 0)⟩ ∧
    closed_data.length = 3 ∧
    (AsdfSpline.construct sqrtQ lengthQ closed_data).map (fun sp => sp.grid.length)
      = some 3 := by
  decide!

/-- C4 (as stated) fails: a first record with a speed and no time is accepted,
its time being taken as zero. -/
theorem first_speed_without_time_counterexample :
    (first_speed_data.head?.map fun v => (v.time, v.speed)) = some (none, some 1) ∧
    (AsdfSpline.construct sqrtQ lengthQ first_speed_data).map (fun sp => sp.grid)
      = some [0, 1] := by
  decide!

section
variable {α : Type}

theorem foldlM_range_succ (f : α → Nat → Option α) (init : α) (n : Nat) :
    (List.range (n + 1)).foldlM f init
      = ((List.range n).foldlM f init).bind (fun s => f s n) := by
  rw [List.range_succ, List.foldlM_append]
  cases h : List.foldlM f init (List.range n) <;> simp [List.foldlM]

/-- A loop invariant holds of the final state of a loop that did not throw. -/
theorem foldlM_range_inv (f : α → Nat → Option α) (Inv : Nat → α → Prop) (init : α)
    (n : Nat) (h0 : Inv 0 init)
    (hstep : ∀ k s s', k < n → Inv k s → f s k = some s' → Inv (k + 1) s') :
    ∀ s, (List.range n).foldlM f init = some s → Inv n s := by
  induction n with
  | zero =>
    intro s hs
    simp [List.foldlM] at hs
    rw [← hs]; exact h0
  | succ n ih =>
    intro s hs
    rw [foldlM_range_succ] at hs
    cases hprev : List.foldlM f init (List.range n) with
    | none => rw [hprev] at hs; simp at hs
    | some s0 =>
      rw [hprev] at hs
      simp only [Option.some_bind] at hs
      exact hstep n s0 s (Nat.lt_succ_self n)
        (ih (fun k s s' hk => hstep k s s' (Nat.lt_succ_of_lt hk)) s0 hprev) hs

/-- A loop throws when one of its passes throws in every state that the
invariant allows. -/
theorem foldlM_range_none (f : α → Nat → Option α) (Inv : Nat → α → Prop) (init : α)
    (n i : Nat) (hi : i < n) (h0 : Inv 0 init)
    (hstep : ∀ k s s', k < n → Inv k s → f s k = some s' → Inv (k + 1) s')
    (hfail : ∀ s, Inv i s → f s i = none) :
    (List.range n).foldlM f init = none := by
  induction n with
  | zero => omega
  | succ n ih =>
    rw [foldlM_range_succ]
    cases hprev : List.foldlM f init (List.range n) with
    | none => rfl
    | some s0 =>
      simp only [Option.some_bind]
      rcases Nat.lt_succ_iff_lt_or_eq.mp hi with h | h
      · have := ih h (fun k s s' hk => hstep k s s' (Nat.lt_succ_of_lt hk))
        rw [hprev] at this
        exact absurd this (by simp)
      · subst h
        exact hfail s0 (foldlM_range_inv f Inv init i h0
          (fun k s s' hk => hstep k s s' (Nat.lt_succ_of_lt hk)) s0 hprev)
end

section
variable {S V : Type} [LinearOrderedField S]

omit [LinearOrderedField S] in
theorem Initializer.add_position_spec {size i : Nat} {init init' : Initializer S V}
    {current : AsdfVertex S V} (h : init.add_position size i current = some init') :
    init'.closed = init.closed ∧ init'.times = init.times ∧
    init'.missing_times = init.missing_times ∧ init'.speeds = init.speeds ∧
    init'.tcb = init.tcb ∧
    init'.lengths_at_missing_times = init.lengths_at_missing_times ∧
    ((∃ v, current.position = Position.point v ∧ init'.vertices = init.vertices ++ [v]) ∨
      (current.position = Position.CLOSED ∧ i = size - 1 ∧ init'.vertices = init.vertices)) := by
  unfold Initializer.add_position at h
  cases hp : current.position with
  | point v =>
    rw [hp] at h
    simp only [Option.some.injEq] at h
    subst h
    exact ⟨rfl, rfl, rfl, rfl, rfl, rfl, Or.inl ⟨v, rfl, rfl⟩⟩
  | CLOSED =>
    rw [hp] at h
    simp only at h
    split_ifs at h with hi
    simp only [Option.some.injEq] at h
    subst h
    exact ⟨rfl, rfl, rfl, rfl, rfl, rfl, Or.inr ⟨rfl, not_not.mp hi, rfl⟩⟩

theorem Initializer.add_time_spec {size i : Nat} {init init' : Initializer S V}
    {current : AsdfVertex S V} (h : init.add_time size i current = some init') :
    init'.closed = init.closed ∧ init'.vertices = init.vertices ∧
    init'.tcb = init.tcb ∧
    init'.lengths_at_missing_times = init.lengths_at_missing_times ∧
    (((current.time.isSome ∨ i = 0) ∧ init'.times = init.times ++ [current.time.getD 0] ∧
        init'.speeds = init.speeds ++ [current.speed] ∧
        init'.missing_times = init.missing_times) ∨
      (current.time = none ∧ i ≠ 0 ∧ i ≠ size - 1 ∧ current.speed = none ∧
        init'.times = init.times ∧ init'.speeds = init.speeds ∧
        init'.missing_times = init.missing_times ++ [i])) := by
  unfold Initializer.add_time at h
  cases ht : current.time with
  | some t =>
    rw [ht] at h
    simp only [Option.some.injEq] at h
    subst h
    exact ⟨rfl, rfl, rfl, rfl, Or.inl ⟨Or.inl rfl, rfl, rfl, rfl⟩⟩
  | none =>
    rw [ht] at h
    simp only at h
    split_ifs at h with h0 h1 h2
    · simp only [Option.some.injEq] at h
      subst h
      exact ⟨rfl, rfl, rfl, rfl, Or.inl ⟨Or.inr h0, rfl, rfl, rfl⟩⟩
    · simp only [Option.some.injEq] at h
      subst h
      refine ⟨rfl, rfl, rfl, rfl, Or.inr ⟨rfl, h0, h1, ?_, rfl, rfl, rfl⟩⟩
      cases hs : current.speed with
      | none => rfl
      | some v => rw [hs] at h2; simp at h2

theorem Initializer.add_tcb_spec {size i : Nat} {init init' : Initializer S V}
    {current : AsdfVertex S V} (h : init.add_tcb size i current = some init') :
    init'.closed = init.closed ∧ init'.vertices = init.vertices ∧
    init'.times = init.times ∧ init'.speeds = init.speeds ∧
    init'.missing_times = init.missing_times ∧
    init'.lengths_at_missing_times = init.lengths_at_missing_times ∧
    ((((init.closed = true ∨ 0 < i) ∧ i < size - 1) ∧ init'.tcb = init.tcb ++ [current.tcb]) ∨
      (¬ ((init.closed = true ∨ 0 < i) ∧ i < size - 1) ∧ current.tcb = (0, 0, 0) ∧
        init'.tcb = init.tcb)) := by
  unfold Initializer.add_tcb at h
  split_ifs at h with hc hz
  · simp only [Option.some.injEq] at h
    subst h
    refine ⟨rfl, rfl, rfl, rfl, rfl, rfl, Or.inl ⟨?_, rfl⟩⟩
    simpa using hc
  · simp only [Option.some.injEq] at h
    subst h
    refine ⟨rfl, rfl, rfl, rfl, rfl, rfl, Or.inr ⟨?_, not_not.mp hz, rfl⟩⟩
    simpa using hc

theorem Initializer.step_some {size i : Nat} {init init' : Initializer S V}
    {current : AsdfVertex S V} (h : Initializer.step size init i current = some init') :
    ∃ i1 i2, init.add_position size i current = some i1 ∧
      i1.add_time size i current = some i2 ∧ i2.add_tcb size i current = some init' := by
  unfold Initializer.step at h
  cases h1 : init.add_position size i current with
  | none => rw [h1] at h; simp at h
  | some i1 =>
    rw [h1] at h
    simp only [Option.some_bind] at h
    cases h2 : i1.add_time size i current with
    | none => rw [h2] at h; simp at h
    | some i2 =>
      rw [h2] at h
      simp only [Option.some_bind] at h
      exact ⟨i1, i2, rfl, h2, h⟩
end

section
variable {S V : Type} [LinearOrderedField S]

/-- The flag `closed` computed before the loop of the `Initializer` constructor. -/
theorem Initializer.construct_eq (data : List (AsdfVertex S V)) (h : ¬ data.length < 2) :
    Initializer.construct data =
      (List.range data.length).foldlM (fun init i =>
        match data[i]? with
        | some current => Initializer.step data.length init i current
        | none => none)
        { closed := (match data.getLast? with
            | some ⟨Position.CLOSED, _, _, _⟩ => true
            | _ => false),
          vertices := [], times := [], missing_times := [],
          speeds := [], tcb := [], lengths_at_missing_times := [] } := by
  unfold Initializer.construct
  rw [if_neg h]

theorem Initializer.step_closed {size i : Nat} {init init' : Initializer S V}
    {current : AsdfVertex S V} (h : Initializer.step size init i current = some init') :
    init'.closed = init.closed := by
  obtain ⟨i1, i2, h1, h2, h3⟩ := Initializer.step_some h
  rw [(Initializer.add_tcb_spec h3).1, (Initializer.add_time_spec h2).1,
    (Initializer.add_position_spec h1).1]

/-- The constructor throws when the record at some index makes the loop body
throw in every state with the flag `closed` as computed. -/
theorem Initializer.construct_none_of_step (data : List (AsdfVertex S V)) (i : Nat)
    (current : AsdfVertex S V) (hi : data[i]? = some current)
    (hfail : ∀ init : Initializer S V,
      init.closed = (match data.getLast? with
        | some ⟨Position.CLOSED, _, _, _⟩ => true
        | _ => false) →
      Initializer.step data.length init i current = none) :
    Initializer.construct data = none := by
  by_cases hlen : data.length < 2
  · unfold Initializer.construct
    rw [if_pos hlen]
  · rw [Initializer.construct_eq data hlen]
    have hlt : i < data.length := by
      rcases List.getElem?_eq_some_iff.mp hi with ⟨h, _⟩
      exact h
    refine foldlM_range_none _ (fun _ s => s.closed = (match data.getLast? with
        | some ⟨Position.CLOSED, _, _, _⟩ => true
        | _ => false)) _ _ i hlt rfl ?_ ?_
    · intro k s s' _ hs hstep
      cases hk : data[k]? with
      | none => simp [hk] at hstep
      | some cur =>
        simp only [hk] at hstep
        rw [Initializer.step_closed hstep]
        exact hs
    · intro s hs
      simp only [hi]
      exact hfail s hs
end

section
variable {S V : Type} [LinearOrderedField S]

theorem Initializer.step_none_of_closed_marker {size i : Nat} (init : Initializer S V)
    {current : AsdfVertex S V} (hp : current.position = Position.CLOSED)
    (hi : i ≠ size - 1) : Initializer.step size init i current = none := by
  cases h : Initializer.step size init i current with
  | none => rfl
  | some init' =>
    exfalso
    obtain ⟨i1, i2, h1, _, _⟩ := Initializer.step_some h
    rcases (Initializer.add_position_spec h1).2.2.2.2.2.2 with ⟨v, hv, _⟩ | ⟨_, hc, _⟩
    · rw [hp] at hv; cases hv
    · exact hi hc

theorem Initializer.step_none_of_no_time {size i : Nat} (init : Initializer S V)
    {current : AsdfVertex S V} (ht : current.time = none) (h0 : i ≠ 0)
    (hc : i = size - 1 ∨ current.speed ≠ none) :
    Initializer.step size init i current = none := by
  cases h : Initializer.step size init i current with
  | none => rfl
  | some init' =>
    exfalso
    obtain ⟨i1, i2, _, h2, _⟩ := Initializer.step_some h
    rcases (Initializer.add_time_spec h2).2.2.2.2 with ⟨hs, _⟩ | ⟨_, _, hl, hsp, _⟩
    · rcases hs with hs | hs
      · rw [ht] at hs; simp at hs
      · exact h0 hs
    · rcases hc with hc | hc
      · exact hl hc
      · exact hc hsp

theorem Initializer.step_none_of_tcb {size i : Nat} (init : Initializer S V)
    {current : AsdfVertex S V} (ht : current.tcb ≠ (0, 0, 0))
    (hc : ¬ i < size - 1 ∨ (i = 0 ∧ init.closed = false)) :
    Initializer.step size init i current = none := by
  cases h : Initializer.step size init i current with
  | none => rfl
  | some init' =>
    exfalso
    obtain ⟨i1, i2, h1, h2, h3⟩ := Initializer.step_some h
    have hcl : i2.closed = init.closed := by
      rw [(Initializer.add_time_spec h2).1, (Initializer.add_position_spec h1).1]
    rcases (Initializer.add_tcb_spec h3).2.2.2.2.2.2 with ⟨⟨ha, hb⟩, _⟩ | ⟨_, hz, _⟩
    · rcases hc with hc | ⟨hc0, hcc⟩
      · exact hc hb
      · rcases ha with ha | ha
        · rw [hcl, hcc] at ha; cases ha
        · omega
    · exact ht hz

theorem getLast?_eq_some_getElem? {α : Type} {l : List α} {v : α}
    (h : l.getLast? = some v) : l[l.length - 1]? = some v := by
  rw [← h, List.getLast?_eq_getElem?]

/-- The invalid vertex lists of C5 make the `Initializer` constructor throw. -/
theorem Initializer.construct_none_of_invalid (data : List (AsdfVertex S V))
    (h : data.length < 2
      ∨ (∃ i v, i + 1 < data.length ∧ data[i]? = some v ∧ v.position = Position.CLOSED)
      ∨ (∃ v, data.getLast? = some v ∧ v.time = none)
      ∨ (∃ v, data.getLast? = some v ∧ v.tcb ≠ (0, 0, 0))
      ∨ (∃ v w, data.head? = some v ∧ data.getLast? = some w ∧
          w.position ≠ Position.CLOSED ∧ v.tcb ≠ (0, 0, 0))) :
    Initializer.construct data = none := by
  by_cases hlen : data.length < 2
  · unfold Initializer.construct
    rw [if_pos hlen]
  rcases h with h | ⟨i, v, hi, hv, hp⟩ | ⟨v, hv, ht⟩ | ⟨v, hv, ht⟩ | ⟨v, w, hv, hw, hp, ht⟩
  · exact absurd h hlen
  · exact Initializer.construct_none_of_step data i v hv fun init _ =>
      Initializer.step_none_of_closed_marker init hp (by omega)
  · exact Initializer.construct_none_of_step data _ v (getLast?_eq_some_getElem? hv)
      fun init _ => Initializer.step_none_of_no_time init ht (by omega) (Or.inl rfl)
  · exact Initializer.construct_none_of_step data _ v (getLast?_eq_some_getElem? hv)
      fun init _ => Initializer.step_none_of_tcb init ht (Or.inl (by omega))
  · have hv0 : data[0]? = some v := by
      rw [← hv, List.head?_eq_getElem?]
    refine Initializer.construct_none_of_step data 0 v hv0 fun init hcl =>
      Initializer.step_none_of_tcb init ht (Or.inr ⟨rfl, ?_⟩)
    rw [hcl, hw]
    rcases w with ⟨pos, t, sp, tcb⟩
    cases pos with
    | point p => rfl
    | CLOSED => exact absurd rfl hp

/-- A vertex with a speed and no time at an index other than the first makes
the `Initializer` constructor throw. -/
theorem Initializer.construct_none_of_speed (data : List (AsdfVertex S V))
    (i : Nat) (v : AsdfVertex S V) (h0 : i ≠ 0) (hv : data[i]? = some v)
    (ht : v.time = none) (hs : v.speed ≠ none) :
    Initializer.construct data = none :=
  Initializer.construct_none_of_step data i v hv fun init _ =>
    Initializer.step_none_of_no_time init ht h0 (Or.inr hs)
end

section
variable {S V : Type} [LinearOrderedField S] [AddCommGroup V] [Module S V]

theorem AsdfSpline.construct_none_of_initializer (sqrt : S → S) (length : V → S)
    (data : List (AsdfVertex S V)) (h : Initializer.construct data = none) :
    AsdfSpline.construct sqrt length data = none := by
  unfold AsdfSpline.construct
  rw [h]

/-- C5: construction fails for a vertex list with fewer than two records, or
with the `CLOSED` marker at an index other than the last, or whose last record
has no time, or with a non-zero TCB triple on the last record or on the first
record of an open curve. -/
theorem construct_fails_on_invalid (sqrt : S → S) (length : V → S)
    (data : List (AsdfVertex S V))
    (h : data.length < 2
      ∨ (∃ i v, i + 1 < data.length ∧ data[i]? = some v ∧ v.position = Position.CLOSED)
      ∨ (∃ v, data.getLast? = some v ∧ v.time = none)
      ∨ (∃ v, data.getLast? = some v ∧ v.tcb ≠ (0, 0, 0))
      ∨ (∃ v w, data.head? = some v ∧ data.getLast? = some w ∧
          w.position ≠ Position.CLOSED ∧ v.tcb ≠ (0, 0, 0))) :
    AsdfSpline.construct sqrt length data = none :=
  AsdfSpline.construct_none_of_initializer sqrt length data
    (Initializer.construct_none_of_invalid data h)

theorem construct_fails_on_invalid_witness :
    (first_tcb_data.length < 2
      ∨ (∃ i v, i + 1 < first_tcb_data.length ∧ first_tcb_data[i]? = some v ∧
          v.position = Position.CLOSED)
      ∨ (∃ v, first_tcb_data.getLast? = some v ∧ v.time = none)
      ∨ (∃ v, first_tcb_data.getLast? = some v ∧ v.tcb ≠ (0, 0, 0))
      ∨ (∃ v w, first_tcb_data.head? = some v ∧ first_tcb_data.getLast? = some w ∧
          w.position ≠ Position.CLOSED ∧ v.tcb ≠ (0, 0, 0))) ∧
    AsdfSpline.construct sqrtQ lengthQ first_tcb_data = none :=
  have h : (first_tcb_data.length < 2
      ∨ (∃ i v, i + 1 < first_tcb_data.length ∧ first_tcb_data[i]? = some v ∧
          v.position = Position.CLOSED)
      ∨ (∃ v, first_tcb_data.getLast? = some v ∧ v.time = none)
      ∨ (∃ v, first_tcb_data.getLast? = some v ∧ v.tcb ≠ (0, 0, 0))
      ∨ (∃ v w, first_tcb_data.head? = some v ∧ first_tcb_data.getLast? = some w ∧
          w.position ≠ Position.CLOSED ∧ v.tcb ≠ (0, 0, 0))) :=
    Or.inr (Or.inr (Or.inr (Or.inr
      ⟨⟨Position.point (0, 0, 0), some 0, none, (1, 0, 0)⟩, vertexQ 1 0 0 (some 1) none,
        rfl, rfl, by decide, by decide!⟩)))
  ⟨h, construct_fails_on_invalid sqrtQ lengthQ first_tcb_data h⟩

/-- C4 (as amended): construction fails for every vertex list in which some
vertex at an index other than the first carries a speed but no time. -/
theorem construct_fails_on_speed_without_time (sqrt : S → S) (length : V → S)
    (data : List (AsdfVertex S V)) (i : Nat) (v : AsdfVertex S V) (h0 : i ≠ 0)
    (hv : data[i]? = some v) (ht : v.time = none) (hs : v.speed ≠ none) :
    AsdfSpline.construct sqrt length data = none :=
  AsdfSpline.construct_none_of_initializer sqrt length data
    (Initializer.construct_none_of_speed data i v h0 hv ht hs)

theorem construct_fails_on_speed_without_time_witness :
    ((1 : Nat) ≠ 0 ∧ middle_speed_data[1]? = some (vertexQ 1 0 0 none (some 1)) ∧
      (vertexQ 1 0 0 none (some 1)).time = none ∧
      (vertexQ 1 0 0 none (some 1)).speed ≠ none) ∧
    AsdfSpline.construct sqrtQ lengthQ middle_speed_data = none :=
  ⟨⟨by decide, rfl, rfl, by decide⟩,
    construct_fails_on_speed_without_time sqrtQ lengthQ middle_speed_data 1
      (vertexQ 1 0 0 none (some 1)) (by decide) rfl rfl (by decide)⟩
end

section
variable {S V : Type} [LinearOrderedField S]

/-- What the loop of the `Initializer` constructor leaves in its vectors of
times, speeds and indices of missing times. -/
theorem Initializer.construct_spec (data : List (AsdfVertex S V)) (init : Initializer S V)
    (h : Initializer.construct data = some init) :
    2 ≤ data.length ∧
    init.times.length + init.missing_times.length = data.length ∧
    init.speeds.length = init.times.length ∧
    1 ≤ init.times.length ∧
    (∀ m ∈ init.missing_times, 1 ≤ m ∧ m + 1 < data.length) ∧
    init.missing_times.Pairwise (· < ·) ∧
    init.lengths_at_missing_times = [] := by
  by_cases hlen : data.length < 2
  · unfold Initializer.construct at h
    rw [if_pos hlen] at h
    cases h
  rw [Initializer.construct_eq data hlen] at h
  have key := foldlM_range_inv _ (fun k (s : Initializer S V) =>
      s.times.length + s.missing_times.length = k ∧
      s.speeds.length = s.times.length ∧
      (1 ≤ k → 1 ≤ s.times.length) ∧
      (∀ m ∈ s.missing_times, 1 ≤ m ∧ m < k ∧ m + 1 < data.length) ∧
      s.missing_times.Pairwise (· < ·) ∧
      s.lengths_at_missing_times = []) _ data.length ?_ ?_ init h
  · obtain ⟨k1, k2, k3, k4, k5, k6⟩ := key
    exact ⟨by omega, k1, k2, k3 (by omega), fun m hm => ⟨(k4 m hm).1, (k4 m hm).2.2⟩, k5, k6⟩
  · exact ⟨rfl, rfl, fun h => absurd h (by decide), fun m hm => by simp at hm,
      List.Pairwise.nil, rfl⟩
  · intro k s s' hk ⟨i1, i2, i3, i4, i5, i6⟩ hstep
    cases hcur : data[k]? with
    | none => simp [hcur] at hstep
    | some cur =>
      simp only [hcur] at hstep
      obtain ⟨s1, s2, h1, h2, h3⟩ := Initializer.step_some hstep
      obtain ⟨_, p2, p3, p4, _, p6, _⟩ := Initializer.add_position_spec h1
      obtain ⟨_, _, _, t4, t5⟩ := Initializer.add_time_spec h2
      obtain ⟨_, _, c3, c4, c5, c6, _⟩ := Initializer.add_tcb_spec h3
      rw [c3, c4, c5, c6, t4, p6]
      rcases t5 with ⟨_, e1, e2, e3⟩ | ⟨_, e0, e1, _, e2, e3, e4⟩
      · rw [e1, e2, e3, p2, p3, p4]
        refine ⟨?_, ?_, ?_, ?_, i5, i6⟩
        · simp only [List.length_append, List.length_singleton]; omega
        · simp only [List.length_append, List.length_singleton]; omega
        · intro _; simp only [List.length_append, List.length_singleton]; omega
        · intro m hm
          obtain ⟨a, b, c⟩ := i4 m hm
          exact ⟨a, by omega, c⟩
      · rw [e2, e3, e4, p2, p3, p4]
        refine ⟨?_, i2, ?_, ?_, ?_, i6⟩
        · simp only [List.length_append, List.length_singleton]; omega
        · intro _
          exact i3 (by omega)
        · intro m hm
          rcases List.mem_append.mp hm with hm | hm
          · obtain ⟨a, b, c⟩ := i4 m hm
            exact ⟨a, by omega, c⟩
          · simp only [List.mem_singleton] at hm
            subst hm
            exact ⟨by omega, by omega, by omega⟩
        · rw [List.pairwise_append]
          refine ⟨i5, List.pairwise_singleton _ _, ?_⟩
          intro a ha b hb
          simp only [List.mem_singleton] at hb
          subst hb
          exact (i4 a ha).2.1

/-- In a strictly increasing list of indices below `b`, the entry at
position `j` leaves room for the entries behind it. -/
theorem pairwise_lt_room : ∀ (l : List Nat) (b : Nat), l.Pairwise (· < ·) →
    (∀ x ∈ l, x < b) → ∀ j, j < l.length → l.getD j 0 + (l.length - j) ≤ b := by
  intro l
  induction l with
  | nil => intro b _ _ j hj; simp at hj
  | cons x xs ih =>
    intro b hp hb j hj
    rw [List.pairwise_cons] at hp
    cases j with
    | zero =>
      simp only [List.getD_cons_zero, List.length_cons, Nat.sub_zero]
      cases xs with
      | nil =>
        have := hb x (List.mem_cons_self _ _)
        simp only [List.length_nil]; omega
      | cons y ys =>
        have h1 := ih b hp.2 (fun z hz => hb z (List.mem_cons_of_mem _ hz)) 0 (by simp)
        have h2 := hp.1 y (List.mem_cons_self _ _)
        simp only [List.getD_cons_zero, List.length_cons, Nat.sub_zero] at h1 ⊢
        omega
    | succ j =>
      have h1 := ih b hp.2 (fun z hz => hb z (List.mem_cons_of_mem _ hz)) j
        (by simpa using hj)
      simp only [List.getD_cons_succ, List.length_cons]
      omega

theorem head?_insertIdx {α : Type} (l : List α) (k : Nat) (a : α) (hk : 0 < k) :
    (l.insertIdx k a).head? = l.head? := by
  cases k with
  | zero => omega
  | succ k =>
    cases l with
    | nil => rfl
    | cons x xs => rfl

theorem getLast?_insertIdx {α : Type} : ∀ (l : List α) (k : Nat) (a : α), k < l.length →
    (l.insertIdx k a).getLast? = l.getLast? := by
  intro l
  induction l with
  | nil => intro k a hk; simp at hk
  | cons x xs ih =>
    intro k a hk
    cases k with
    | zero =>
      rw [List.insertIdx_zero]
      simp [List.getLast?_cons_cons]
    | succ k =>
      rw [List.insertIdx_succ_cons]
      have hk2 : k < xs.length := by simpa using hk
      have hne : xs ≠ [] := by
        intro h; rw [h] at hk2; simp at hk2
      obtain ⟨y, ys, hy⟩ := List.exists_cons_of_ne_nil hne
      have hlen : (xs.insertIdx k a).length = xs.length + 1 :=
        List.length_insertIdx k xs (le_of_lt hk2)
      have hne2 : xs.insertIdx k a ≠ [] := by
        intro h; rw [h] at hlen; simp at hlen
      obtain ⟨z, zs, hz⟩ := List.exists_cons_of_ne_nil hne2
      have := ih k a hk2
      rw [hz, hy] at this
      rw [hz, hy, List.getLast?_cons_cons, List.getLast?_cons_cons]
      exact this

/-- The loop of `get_grid`, when it does not throw, inserts every solved time
inside the vector of times: its length grows to the number of records and its
first and last element stay. -/
theorem Initializer.get_grid_spec (init : Initializer S V) (t2s : MonotoneCubicSpline S)
    (grid : List S) (n : Nat) (h : init.get_grid t2s = some grid)
    (hlen : init.times.length + init.missing_times.length = n)
    (hm : ∀ m ∈ init.missing_times, 1 ≤ m ∧ m + 1 < n)
    (hp : init.missing_times.Pairwise (· < ·)) :
    grid.length = n ∧ grid.head? = init.times.head? ∧
      grid.getLast? = init.times.getLast? := by
  unfold Initializer.get_grid at h
  have key := foldlM_range_inv _ (fun j (times : List S) =>
      times.length = init.times.length + j ∧ times.head? = init.times.head? ∧
      times.getLast? = init.times.getLast?) init.times init.missing_times.length
    ⟨rfl, rfl, rfl⟩ ?_ grid h
  · exact ⟨by omega, key.2.1, key.2.2⟩
  · intro j times times' hj ⟨i1, i2, i3⟩ hstep
    cases ht : t2s.get_time (init.lengths_at_missing_times.getD j 0) with
    | none => rw [ht] at hstep; cases hstep
    | some time =>
      rw [ht] at hstep
      simp only [Option.some.injEq] at hstep
      have hroom := pairwise_lt_room init.missing_times (n - 1) hp
        (fun x hx => by have := (hm x hx).2; omega) j hj
      have hpos : 1 ≤ init.missing_times.getD j 0 := by
        rw [List.getD_eq_getElem _ _ hj]
        exact (hm _ (List.getElem_mem _)).1
      have hlt : init.missing_times.getD j 0 < times.length := by omega
      subst hstep
      refine ⟨?_, ?_, ?_⟩
      · rw [List.length_insertIdx _ _ (le_of_lt hlt)]; omega
      · rw [head?_insertIdx _ _ _ (by omega)]; exact i2
      · rw [getLast?_insertIdx _ _ _ hlt]; exact i3
end

section
variable {S V : Type} [LinearOrderedField S] [AddCommGroup V] [Module S V]

/-- The tuple returned by `get_t2s_arguments` carries the speeds and times of
the initializer, whose times and indices of missing times it leaves alone. -/
theorem Initializer.get_t2s_arguments_fields (length : V → S) (init init' : Initializer S V)
    (path : PiecewiseCubicCurve S V) (args : List S × List (Option S) × List S)
    (h : init.get_t2s_arguments length path = some (args, init')) :
    args.2.1 = init.speeds ∧ args.2.2 = init.times ∧ init'.times = init.times ∧
      init'.missing_times = init.missing_times := by
  unfold Initializer.get_t2s_arguments at h
  split at h
  · cases h
  · simp only [Option.some.injEq, Prod.mk.injEq] at h
    obtain ⟨h1, h2⟩ := h
    subst h1 h2
    exact ⟨rfl, rfl, rfl, rfl⟩

/-- The stages of a construction that succeeds. -/
theorem AsdfSpline.construct_stages (sqrt : S → S) (length : V → S)
    (data : List (AsdfVertex S V)) (sp : AsdfSpline S V)
    (h : AsdfSpline.construct sqrt length data = some sp) :
    ∃ (init init' : Initializer S V) (args : List S × List (Option S) × List S),
      Initializer.construct data = some init ∧
      CentripetalKochanekBartelsSpline.construct sqrt length init.vertices init.tcb
        init.closed = some sp.path ∧
      init.get_t2s_arguments length sp.path = some (args, init') ∧
      MonotoneCubicSpline.construct args.1 args.2.1 args.2.2 = some sp.t2s ∧
      init'.get_grid sp.t2s = some sp.grid ∧
      sp.s_grid = sp.grid.map fun t => sp.t2s.curve.evaluate t := by
  unfold AsdfSpline.construct at h
  cases h1 : Initializer.construct data with
  | none => rw [h1] at h; cases h
  | some init =>
    rw [h1] at h
    simp only at h
    cases h2 : CentripetalKochanekBartelsSpline.construct sqrt length init.vertices init.tcb
        init.closed with
    | none => rw [h2] at h; cases h
    | some path =>
      rw [h2] at h
      simp only at h
      cases h3 : init.get_t2s_arguments length path with
      | none => rw [h3] at h; cases h
      | some r =>
        obtain ⟨args, init'⟩ := r
        rw [h3] at h
        simp only at h
        cases h4 : MonotoneCubicSpline.construct args.1 args.2.1 args.2.2 with
        | none => rw [h4] at h; cases h
        | some t2s =>
          rw [h4] at h
          simp only at h
          cases h5 : init'.get_grid t2s with
          | none => rw [h5] at h; cases h
          | some grid =>
            rw [h5] at h
            simp only [Option.some.injEq] at h
            subst h
            exact ⟨init, init', args, rfl, h2, h3, h4, h5, rfl⟩

/-- C3 (as amended): when construction succeeds, `grid()` has as many values
as there are input records, the `CLOSED` marker record included. -/
theorem grid_size_eq_records (sqrt : S → S) (length : V → S)
    (data : List (AsdfVertex S V)) (sp : AsdfSpline S V)
    (h : AsdfSpline.construct sqrt length data = some sp) :
    sp.grid.length = data.length := by
  obtain ⟨init, init', args, h1, _, h3, _, h5, _⟩ :=
    AsdfSpline.construct_stages sqrt length data sp h
  obtain ⟨_, k1, _, _, k4, k5, _⟩ := Initializer.construct_spec data init h1
  obtain ⟨_, _, e1, e2⟩ := Initializer.get_t2s_arguments_fields length init init' sp.path args h3
  exact (Initializer.get_grid_spec init' sp.t2s sp.grid data.length h5
    (by rw [e1, e2]; exact k1) (by rw [e2]; exact k4) (by rw [e2]; exact k5)).1

theorem grid_size_eq_records_witness :
    AsdfSpline.construct sqrtQ lengthQ closed_data = some closed_spline ∧
      closed_spline.grid.length = closed_data.length :=
  ⟨by decide!, grid_size_eq_records sqrtQ lengthQ closed_data closed_spline (by decide!)⟩
end

/-! ## Sorted vectors and the spline constructors -/

section
variable {S : Type} [LinearOrderedField S]

theorem has_adjacent_ge_eq_false_iff (g : List S) :
    has_adjacent_ge g = false ↔ g.Pairwise (· < ·) := by
  rw [← List.chain'_iff_pairwise]
  induction g with
  | nil => simp [has_adjacent_ge]
  | cons a t ih =>
    cases t with
    | nil => simp [has_adjacent_ge]
    | cons b rest =>
      rw [has_adjacent_ge, List.chain'_cons, ← ih]
      simp only [ge_iff_le, Bool.or_eq_false_iff, decide_eq_false_iff_not, not_le]

theorem is_sorted_iff (xs : List S) : is_sorted xs = true ↔ xs.Pairwise (· ≤ ·) := by
  rw [← List.chain'_iff_pairwise]
  induction xs with
  | nil => simp [is_sorted]
  | cons a t ih =>
    cases t with
    | nil => simp [is_sorted]
    | cons b rest =>
      rw [is_sorted, List.chain'_cons, ← ih]
      simp only [Bool.and_eq_true, Bool.not_eq_true', decide_eq_false_iff_not, not_lt]

theorem pairwise_le_getElem {xs : List S} (h : xs.Pairwise (· ≤ ·)) {i j : Nat}
    (hij : i ≤ j) (hj : j < xs.length) : xs[i] ≤ xs[j] := by
  rcases Nat.lt_or_eq_of_le hij with h1 | h1
  · exact (List.pairwise_iff_getElem.mp h) i j _ hj h1
  · subst h1; exact le_refl _

theorem pairwise_lt_getElem {xs : List S} (h : xs.Pairwise (· < ·)) {i j : Nat}
    (hij : i < j) (hj : j < xs.length) : xs[i] < xs[j] :=
  (List.pairwise_iff_getElem.mp h) i j _ hj hij

/-- In a sorted vector `std::upper_bound` is behind every element that is not
greater than the value. -/
theorem lt_upper_bound {xs : List S} (h : xs.Pairwise (· ≤ ·)) {v : S} {i : Nat}
    (hi : i < xs.length) (hv : xs[i] ≤ v) : i < upper_bound xs v := by
  unfold upper_bound
  refine List.lt_findIdx_of_not hi ?_
  intro j hj
  simp only [List.get_eq_getElem, decide_eq_true_eq, not_lt]
  exact le_trans (pairwise_le_getElem h hj hi) hv

theorem upper_bound_le {xs : List S} {v : S} {i : Nat}
    (hi : i < xs.length) (hv : v < xs[i]) : upper_bound xs v ≤ i := by
  unfold upper_bound
  by_contra hc
  push_neg at hc
  have := List.not_of_lt_findIdx hc
  simp only [decide_eq_false_iff_not] at this
  exact this hv

theorem lower_bound_le {xs : List S} {v : S} {i : Nat}
    (hi : i < xs.length) (hv : v ≤ xs[i]) : lower_bound xs v ≤ i := by
  unfold lower_bound
  by_contra hc
  push_neg at hc
  have := List.not_of_lt_findIdx hc
  simp only [decide_eq_false_iff_not, not_not, not_lt, not_le] at this
  exact absurd hv (not_le.mpr this)

theorem lt_lower_bound {xs : List S} (h : xs.Pairwise (· ≤ ·)) {v : S} {i : Nat}
    (hi : i < xs.length) (hv : xs[i] < v) : i < lower_bound xs v := by
  unfold lower_bound
  refine List.lt_findIdx_of_not hi ?_
  intro j hj
  simp only [List.get_eq_getElem, decide_eq_true_eq, not_not]
  exact lt_of_le_of_lt (pairwise_le_getElem h hj hi) hv

theorem upper_bound_le_length (xs : List S) (v : S) : upper_bound xs v ≤ xs.length :=
  List.findIdx_le_length _

theorem lower_bound_le_length (xs : List S) (v : S) : lower_bound xs v ≤ xs.length :=
  List.findIdx_le_length _

theorem getElem_le_of_lt_upper_bound {xs : List S} {v : S} {i : Nat}
    (hl : i < xs.length) (hi : i < upper_bound xs v) : xs[i] ≤ v := by
  have := List.not_of_lt_findIdx hi
  simpa using this

theorem lt_getElem_upper_bound {xs : List S} {v : S} (hi : upper_bound xs v < xs.length) :
    v < xs[upper_bound xs v] := by
  have := @List.findIdx_getElem _ (fun x => decide (v < x)) xs hi
  simpa using this

theorem le_getElem_lower_bound {xs : List S} {v : S} (hi : lower_bound xs v < xs.length) :
    v ≤ xs[lower_bound xs v] := by
  have := @List.findIdx_getElem _ (fun x => decide (¬ x < v)) xs hi
  exact not_lt.mp (of_decide_eq_true this)
end

section
variable {S V : Type} [LinearOrderedField S] [AddCommGroup V] [Module S V]

/-- What the `CubicHermiteSpline` constructor has checked and stored when it
returns. -/
theorem CubicHermiteSpline.hermite_construct_some (vertices tangents : List V) (grid : List S)
    (c : PiecewiseCubicCurve S V)
    (h : CubicHermiteSpline.construct vertices tangents grid = some c) :
    2 ≤ vertices.length ∧ tangents.length = 2 * (vertices.length - 1) ∧
    vertices.length = grid.length ∧ grid.Pairwise (· < ·) ∧ c.grid = grid ∧
    c.segments = (List.range (vertices.length - 1)).map fun i =>
      hermite_segment (vertices.getD i 0) (vertices.getD (i + 1) 0)
        (tangents.getD (2 * i) 0) (tangents.getD (2 * i + 1) 0)
        (grid.getD i 0) (grid.getD (i + 1) 0) := by
  unfold CubicHermiteSpline.construct at h
  by_cases h1 : vertices.length < 2
  · rw [if_pos h1] at h; cases h
  rw [if_neg h1] at h
  by_cases h2 : tangents.length ≠ 2 * (vertices.length - 1)
  · simp only [if_pos h2] at h; cases h
  simp only [if_neg h2] at h
  by_cases h3 : vertices.length ≠ grid.length
  · rw [if_pos h3] at h; cases h
  rw [if_neg h3] at h
  by_cases h4 : has_adjacent_ge grid = true
  · rw [if_pos h4] at h; cases h
  rw [if_neg h4] at h
  simp only [Option.some.injEq] at h
  subst h
  refine ⟨by omega, not_not.mp h2, not_not.mp h3, ?_, rfl, rfl⟩
  rw [← has_adjacent_ge_eq_false_iff]
  simpa using h4
end

section
variable {S : Type} [LinearOrderedField S]

/-- For an open curve `_init` hands the given values and grid on unchanged. -/
theorem ShapePreservingCubicSpline.init_open (values : List S) (slopes : List (Option S))
    (grid : List S) (r : List S × List S × List S)
    (h : ShapePreservingCubicSpline.init values slopes grid false = some r) :
    r.1 = values ∧ r.2.2 = grid ∧ 2 ≤ values.length ∧ values.length = grid.length ∧
      values.length = slopes.length := by
  unfold ShapePreservingCubicSpline.init at h
  simp only [Bool.false_eq_true, if_false, Bool.toNat_false, Nat.add_zero] at h
  by_cases h1 : values.length < 2
  · rw [if_pos h1] at h; cases h
  rw [if_neg h1] at h
  by_cases h2 : values.length ≠ grid.length
  · rw [if_pos h2] at h; cases h
  rw [if_neg h2] at h
  by_cases h3 : values.length ≠ slopes.length
  · rw [if_pos h3] at h; cases h
  rw [if_neg h3] at h
  refine (?_ : r.1 = values ∧ r.2.2 = grid).elim fun a b =>
    ⟨a, b, by omega, not_not.mp h2, not_not.mp h3⟩
  repeat' split at h
  all_goals cases h <;> exact ⟨rfl, rfl⟩

/-- What the `MonotoneCubicSpline` constructor has checked and stored when it
returns. -/
theorem MonotoneCubicSpline.monotone_construct_some (values : List S) (slopes : List (Option S))
    (grid : List S) (m : MonotoneCubicSpline S)
    (h : MonotoneCubicSpline.construct values slopes grid = some m) :
    m.values = values ∧ values.Pairwise (· ≤ ·) ∧
    ∃ slopes', ShapePreservingCubicSpline.init values slopes grid false
        = some (values, slopes', grid) ∧
      CubicHermiteSpline.construct values slopes' grid = some m.curve := by
  unfold MonotoneCubicSpline.construct at h
  cases hc : ShapePreservingCubicSpline.construct values slopes grid false with
  | none => rw [hc] at h; cases h
  | some c =>
    rw [hc] at h
    simp only at h
    split_ifs at h with hs
    simp only [Option.some.injEq] at h
    subst h
    refine ⟨rfl, (is_sorted_iff values).mp (by simpa using hs), ?_⟩
    unfold ShapePreservingCubicSpline.construct at hc
    cases hi : ShapePreservingCubicSpline.init values slopes grid false with
    | none => rw [hi] at hc; cases hc
    | some r =>
      rw [hi] at hc
      simp only at hc
      obtain ⟨e1, e2, _⟩ := ShapePreservingCubicSpline.init_open values slopes grid r hi
      obtain ⟨r1, r2, r3⟩ := r
      simp only at e1 e2
      subst e1 e2
      exact ⟨r2, rfl, hc⟩
end

/-! ## MonotoneCubicSpline::get_time -/

section
variable {S : Type} [LinearOrderedField S]

theorem get_time_eq_none_iff (m : MonotoneCubicSpline S) (v : S)
    (hle : lower_bound m.values v ≤ upper_bound m.values v) :
    m.get_time v = none ↔
      lower_bound m.values v + 2 ≤ upper_bound m.values v := by
  simp only [MonotoneCubicSpline.get_time]
  have hu := upper_bound_le_length m.values v
  split_ifs with e1 e2 e3 e4
  · simp only [reduceCtorEq, false_iff]; omega
  · simp only [reduceCtorEq, false_iff]; omega
  · simp only [reduceCtorEq, false_iff]; omega
  · simp only [true_iff]; omega
  · simp only [reduceCtorEq, false_iff]; omega

theorem lower_le_upper_bound (xs : List S) (v : S) :
    lower_bound xs v ≤ upper_bound xs v := by
  by_contra hc
  push_neg at hc
  have hu : upper_bound xs v < xs.length :=
    lt_of_lt_of_le hc (lower_bound_le_length xs v)
  have h1 : v < xs[upper_bound xs v] := lt_getElem_upper_bound hu
  have h2 := List.not_of_lt_findIdx hc
  simp only [decide_eq_false_iff_not, not_not] at h2
  exact absurd h1 (not_lt.mpr (le_of_lt h2))

end

/-! ## Hermite segments -/

section
variable {S : Type} [LinearOrderedField S]

/-- The derivative of a segment's cubic in the local parameter. -/
theorem Segment.eval_sub (a : Segment S) (u w : S) :
    a.eval w - a.eval u =
      (w - u) / 6 * ((u * (u * (3 * a.a3) + 2 * a.a2) + a.a1)
        + 4 * (((u + w) / 2) * (((u + w) / 2) * (3 * a.a3) + 2 * a.a2) + a.a1)
        + (w * (w * (3 * a.a3) + 2 * a.a2) + a.a1)) := by
  simp only [Segment.eval, smul_eq_mul]
  ring

theorem hermite_segment_eval_zero (x0 x1 v0 v1 t0 t1 : S) :
    (hermite_segment x0 x1 v0 v1 t0 t1).eval (0 : S) = x0 := by
  simp only [Segment.eval, hermite_segment, smul_eq_mul]
  ring

theorem hermite_segment_eval_one (x0 x1 v0 v1 t0 t1 : S) :
    (hermite_segment x0 x1 v0 v1 t0 t1).eval (1 : S) = x1 := by
  simp only [Segment.eval, hermite_segment, smul_eq_mul]
  ring

/-- The derivative of a Hermite segment is non-negative on the local interval
when both end slopes lie between zero and three times the chord slope. -/
theorem hermite_derivative_nonneg (x0 x1 v0 v1 t0 t1 u : S) (ht : t0 < t1)
    (h0 : 0 ≤ v0) (h0' : v0 ≤ 3 * ((x1 - x0) / (t1 - t0)))
    (h1 : 0 ≤ v1) (h1' : v1 ≤ 3 * ((x1 - x0) / (t1 - t0)))
    (hu0 : 0 ≤ u) (hu1 : u ≤ 1) :
    0 ≤ u * (u * (3 * (hermite_segment x0 x1 v0 v1 t0 t1).a3)
        + 2 * (hermite_segment x0 x1 v0 v1 t0 t1).a2)
        + (hermite_segment x0 x1 v0 v1 t0 t1).a1 := by
  have hd : 0 < t1 - t0 := by linarith
  set d := t1 - t0 with hd_def
  set D := x1 - x0 with hD_def
  have hα0 : 0 ≤ d * v0 := mul_nonneg (le_of_lt hd) h0
  have hβ0 : 0 ≤ d * v1 := mul_nonneg (le_of_lt hd) h1
  have hα1 : d * v0 ≤ 3 * D := by
    have := mul_le_mul_of_nonneg_left h0' (le_of_lt hd)
    calc d * v0 ≤ d * (3 * (D / d)) := this
      _ = 3 * D := by field_simp
  have hβ1 : d * v1 ≤ 3 * D := by
    have := mul_le_mul_of_nonneg_left h1' (le_of_lt hd)
    calc d * v1 ≤ d * (3 * (D / d)) := this
      _ = 3 * D := by field_simp
  have hD0 : 0 ≤ D := by linarith
  have hq : u * (u * (3 * (hermite_segment x0 x1 v0 v1 t0 t1).a3)
        + 2 * (hermite_segment x0 x1 v0 v1 t0 t1).a2)
        + (hermite_segment x0 x1 v0 v1 t0 t1).a1
      = d * v0 * ((1 - u) * (1 - 3 * u)) + d * v1 * (u * (3 * u - 2))
        + D * (6 * u * (1 - u)) := by
    simp only [hermite_segment, smul_eq_mul]
    ring
  rw [hq]
  rcases eq_or_lt_of_le hD0 with hz | hpos
  · have e1 : d * v0 = 0 := le_antisymm (by linarith) hα0
    have e2 : d * v1 = 0 := le_antisymm (by linarith) hβ0
    rw [e1, e2, ← hz]; simp
  · have key : 9 * D ^ 2 * (d * v0 * ((1 - u) * (1 - 3 * u)) + d * v1 * (u * (3 * u - 2))
        + D * (6 * u * (1 - u)))
        = (3 * D - d * v0) * (3 * D - d * v1) * (6 * D * u * (1 - u))
          + d * v0 * (3 * D - d * v1) * (3 * D * (1 - u) ^ 2)
          + (3 * D - d * v0) * (d * v1) * (3 * D * u ^ 2)
          + d * v0 * (d * v1) * (3 * D * (1 - 2 * u) ^ 2) := by ring
    have hrhs : 0 ≤ (3 * D - d * v0) * (3 * D - d * v1) * (6 * D * u * (1 - u))
          + d * v0 * (3 * D - d * v1) * (3 * D * (1 - u) ^ 2)
          + (3 * D - d * v0) * (d * v1) * (3 * D * u ^ 2)
          + d * v0 * (d * v1) * (3 * D * (1 - 2 * u) ^ 2) := by
      have a1 : 0 ≤ 3 * D - d * v0 := by linarith
      have a2 : 0 ≤ 3 * D - d * v1 := by linarith
      have a3 : 0 ≤ 1 - u := by linarith
      have t1 : 0 ≤ (3 * D - d * v0) * (3 * D - d * v1) * (6 * D * u * (1 - u)) :=
        mul_nonneg (mul_nonneg a1 a2)
          (mul_nonneg (mul_nonneg (mul_nonneg (by norm_num) hD0) hu0) a3)
      have t2 : 0 ≤ d * v0 * (3 * D - d * v1) * (3 * D * (1 - u) ^ 2) :=
        mul_nonneg (mul_nonneg hα0 a2) (mul_nonneg (by linarith) (sq_nonneg _))
      have t3 : 0 ≤ (3 * D - d * v0) * (d * v1) * (3 * D * u ^ 2) :=
        mul_nonneg (mul_nonneg a1 hβ0) (mul_nonneg (by linarith) (sq_nonneg _))
      have t4 : 0 ≤ d * v0 * (d * v1) * (3 * D * (1 - 2 * u) ^ 2) :=
        mul_nonneg (mul_nonneg hα0 hβ0) (mul_nonneg (by linarith) (sq_nonneg _))
      linarith
    rw [← key] at hrhs
    have h9 : 0 < 9 * D ^ 2 := by positivity
    exact nonneg_of_mul_nonneg_right hrhs h9

/-- A Hermite segment with both end slopes between zero and three times the
chord slope does not decrease on the local interval. -/
theorem hermite_segment_monotone (x0 x1 v0 v1 t0 t1 u w : S) (ht : t0 < t1)
    (h0 : 0 ≤ v0) (h0' : v0 ≤ 3 * ((x1 - x0) / (t1 - t0)))
    (h1 : 0 ≤ v1) (h1' : v1 ≤ 3 * ((x1 - x0) / (t1 - t0)))
    (hu0 : 0 ≤ u) (huw : u ≤ w) (hw1 : w ≤ 1) :
    (hermite_segment x0 x1 v0 v1 t0 t1).eval u ≤ (hermite_segment x0 x1 v0 v1 t0 t1).eval w := by
  have e := Segment.eval_sub (hermite_segment x0 x1 v0 v1 t0 t1) u w
  have q1 := hermite_derivative_nonneg x0 x1 v0 v1 t0 t1 u ht h0 h0' h1 h1' hu0 (by linarith)
  have q2 := hermite_derivative_nonneg x0 x1 v0 v1 t0 t1 ((u + w) / 2) ht h0 h0' h1 h1'
    (by linarith) (by linarith)
  have q3 := hermite_derivative_nonneg x0 x1 v0 v1 t0 t1 w ht h0 h0' h1 h1' (by linarith) hw1
  have : 0 ≤ (hermite_segment x0 x1 v0 v1 t0 t1).eval w
      - (hermite_segment x0 x1 v0 v1 t0 t1).eval u := by
    rw [e]
    apply mul_nonneg
    · linarith
    · linarith
  linarith
end

/-! ## Locating a query in the grid -/

section
variable {α : Type}

theorem headD_eq_getD (l : List α) (d : α) : l.headD d = l.getD 0 d := by
  cases l <;> rfl

theorem getLastD_eq_getD (l : List α) (d : α) : l.getLastD d = l.getD (l.length - 1) d := by
  rw [List.getLastD_eq_getLast?, List.getLast?_eq_getElem?, List.getD_eq_getElem?_getD]
end

section
variable {S V : Type} [LinearOrderedField S] [AddCommGroup V] [Module S V]

omit [Module S V] in
/-- Where `_get_segment_and_trim` lands: the query clamped into the grid range
and a segment whose grid interval contains it. -/
theorem PiecewiseCubicCurve.locate (c : PiecewiseCubicCurve S V)
    (hg : c.grid.Pairwise (· < ·)) (hn : 2 ≤ c.grid.length)
    (hs : c.segments.length + 1 = c.grid.length) (t : S) :
    ∃ i, i + 1 < c.grid.length ∧
      c.get_segment_and_trim t =
        (max (c.grid.getD 0 0) (min t (c.grid.getD (c.grid.length - 1) 0)),
          c.grid.getD i 0, c.grid.getD (i + 1) 0, c.segments.getD i default) ∧
      c.grid.getD i 0 ≤ max (c.grid.getD 0 0) (min t (c.grid.getD (c.grid.length - 1) 0)) ∧
      max (c.grid.getD 0 0) (min t (c.grid.getD (c.grid.length - 1) 0)) ≤ c.grid.getD (i + 1) 0 ∧
      (t < c.grid.getD 0 0 → i = 0) ∧
      (c.grid.getD (c.grid.length - 1) 0 ≤ t → i = c.grid.length - 2) ∧
      (c.grid.getD 0 0 ≤ t → t < c.grid.getD (c.grid.length - 1) 0 → t < c.grid.getD (i + 1) 0) := by
  have hle : c.grid.Pairwise (· ≤ ·) := hg.imp le_of_lt
  have h0 : 0 < c.grid.length := by omega
  have hl : c.grid.length - 1 < c.grid.length := by omega
  have hfb : c.grid.getD 0 0 < c.grid.getD (c.grid.length - 1) 0 := by
    rw [List.getD_eq_getElem _ _ h0, List.getD_eq_getElem _ _ hl]
    exact pairwise_lt_getElem hg (by omega) hl
  unfold PiecewiseCubicCurve.get_segment_and_trim
  simp only [headD_eq_getD, getLastD_eq_getD]
  by_cases c1 : t < c.grid.getD 0 0
  · refine ⟨0, by omega, ?_, ?_, ?_, fun _ => rfl, fun h => ?_, fun h => ?_⟩
    · simp only [if_pos c1]
      rw [max_eq_left (le_trans (min_le_left _ _) (le_of_lt c1))]
    · rw [max_eq_left (le_trans (min_le_left _ _) (le_of_lt c1))]
    · rw [max_eq_left (le_trans (min_le_left _ _) (le_of_lt c1))]
      rw [List.getD_eq_getElem _ _ h0, List.getD_eq_getElem _ _ (by omega : 0 + 1 < c.grid.length)]
      exact le_of_lt (pairwise_lt_getElem hg (by omega) _)
    · exact absurd (lt_of_lt_of_le hfb h) (not_lt.mpr (le_of_lt c1))
    · exact absurd c1 (not_lt.mpr h)
  · push_neg at c1
    by_cases c2 : t < c.grid.getD (c.grid.length - 1) 0
    · have hub1 : 0 < upper_bound c.grid t := by
        refine lt_upper_bound hle h0 ?_
        rw [← List.getD_eq_getElem _ 0 h0]; exact c1
      have hub2 : upper_bound c.grid t ≤ c.grid.length - 1 := by
        refine upper_bound_le hl ?_
        rw [← List.getD_eq_getElem _ 0 hl]; exact c2
      have hi1 : upper_bound c.grid t - 1 + 1 = upper_bound c.grid t := by omega
      have hm : max (c.grid.getD 0 0) (min t (c.grid.getD (c.grid.length - 1) 0)) = t := by
        rw [min_eq_left (le_of_lt c2), max_eq_right c1]
      have hlt1 : upper_bound c.grid t - 1 < upper_bound c.grid t := by omega
      have hlt2 : upper_bound c.grid t < c.grid.length := by omega
      refine ⟨upper_bound c.grid t - 1, by omega, ?_, ?_, ?_, fun h => ?_, fun h => ?_, fun _ _ => ?_⟩
      · simp only [if_neg (not_lt.mpr c1), if_pos c2, hm]
      · rw [hm, List.getD_eq_getElem _ _ (lt_trans hlt1 hlt2)]
        exact getElem_le_of_lt_upper_bound (lt_trans hlt1 hlt2) hlt1
      · rw [hm, hi1, List.getD_eq_getElem _ _ hlt2]
        exact le_of_lt (lt_getElem_upper_bound hlt2)
      · exact absurd h (not_lt.mpr c1)
      · exact absurd c2 (not_lt.mpr h)
      · rw [hi1, List.getD_eq_getElem _ _ hlt2]
        exact lt_getElem_upper_bound hlt2
    · push_neg at c2
      have hm : max (c.grid.getD 0 0) (min t (c.grid.getD (c.grid.length - 1) 0))
          = c.grid.getD (c.grid.length - 1) 0 := by
        rw [min_eq_right c2, max_eq_right (le_of_lt hfb)]
      have hidx : c.grid.length - 2 + 1 = c.grid.length - 1 := by omega
      have hseg : c.segments.length - 1 = c.grid.length - 2 := by omega
      refine ⟨c.grid.length - 2, by omega, ?_, ?_, ?_, fun h => ?_, fun _ => rfl, fun _ h => ?_⟩
      · simp only [if_neg (not_lt.mpr c1), if_neg (not_lt.mpr c2), hm, hseg]
        by_cases c3 : t = c.grid.getD (c.grid.length - 1) 0
        · simp only [if_pos c3, c3, if_true]
        · simp only [if_neg c3]
      · rw [hm, List.getD_eq_getElem _ _ (by omega : c.grid.length - 2 < c.grid.length),
          List.getD_eq_getElem _ _ hl]
        exact le_of_lt (pairwise_lt_getElem hg (by omega) hl)
      · rw [hm, hidx]
      · exact absurd h (not_lt.mpr c1)
      · exact absurd h (not_lt.mpr c2)
end

/-! ## Slopes of the shape-preserving spline -/

section
variable {S : Type} [LinearOrderedField S]

/-- Between non-negative chord slopes `_fix_slope` returns a slope between
zero and three times the smaller of them. -/
theorem fix_slope_bounds (s l r : S) (hl : 0 ≤ l) (hr : 0 ≤ r) :
    0 ≤ fix_slope s l r ∧ fix_slope s l r ≤ 3 * l ∧ fix_slope s l r ≤ 3 * r := by
  unfold fix_slope
  by_cases h1 : l * r ≤ 0
  · rw [if_pos h1]
    exact ⟨le_refl _, by linarith, by linarith⟩
  · rw [if_neg h1]
    by_cases h2 : r > 0
    · rw [if_pos h2, abs_of_nonneg hl, abs_of_nonneg hr]
      refine ⟨le_min (le_max_left _ _) (by have := le_min hl hr; linarith), ?_, ?_⟩
      · exact le_trans (min_le_right _ _) (by have := min_le_left l r; linarith)
      · exact le_trans (min_le_right _ _) (by have := min_le_right l r; linarith)
    · exfalso
      have : r = 0 := le_antisymm (not_lt.mp h2) hr
      rw [this] at h1
      simp at h1

theorem end_slope_of_nonneg (inner chord : S) (hc : 0 ≤ chord) :
    end_slope inner chord =
      if inner ≤ chord then 3 * chord - 2 * inner else (3 * chord - inner) / 2 := by
  unfold end_slope
  simp only [end_slope_depth, if_neg (not_lt.mpr hc)]
  split_ifs <;> rfl

theorem end_slope_bounds (inner chord : S) (hc : 0 ≤ chord) (h0 : 0 ≤ inner)
    (h3 : inner ≤ 3 * chord) :
    0 ≤ end_slope inner chord ∧ end_slope inner chord ≤ 3 * chord := by
  rw [end_slope_of_nonneg inner chord hc]
  split_ifs with h
  · exact ⟨by linarith, by linarith⟩
  · exact ⟨by linarith, by linarith⟩

/-- The lambda `end_slope` of `_init` returns the given outer slope, checked,
or else the derived one; both lie between zero and three times the chord slope. -/
theorem end_slope_or_given_spec (outer : Option S) (inner chord r : S)
    (h : end_slope_or_given outer inner chord = some r)
    (hc : 0 ≤ chord) (h0 : 0 ≤ inner) (h3 : inner ≤ 3 * chord) :
    0 ≤ r ∧ r ≤ 3 * chord ∧ ∀ v, outer = some v → r = v := by
  unfold end_slope_or_given at h
  cases outer with
  | none =>
    simp only [Option.some.injEq] at h
    subst h
    obtain ⟨a, b⟩ := end_slope_bounds inner chord hc h0 h3
    exact ⟨a, b, fun v hv => by cases hv⟩
  | some o =>
    simp only at h
    split_ifs at h with hf
    simp only [Option.some.injEq] at h
    subst h
    have hf2 : o = fix_slope o chord chord := not_not.mp hf
    obtain ⟨a, b, _⟩ := fix_slope_bounds o chord chord hc hc
    refine ⟨by rw [hf2]; exact a, by rw [hf2]; exact b, fun v hv => ?_⟩
    simp only [Option.some.injEq] at hv
    exact hv

theorem check_slope_spec (chord s : S) (h : check_slope chord s = true) (hc : 0 ≤ chord) :
    0 ≤ s ∧ s ≤ 3 * chord := by
  unfold check_slope at h
  have hf : s = fix_slope s chord chord := by simpa using h
  obtain ⟨a, b, _⟩ := fix_slope_bounds s chord chord hc hc
  exact ⟨by rw [hf]; exact a, by rw [hf]; exact b⟩

/-- The state of the loop over the inner values of `_init` after `k` passes:
the placeholder followed by `k` pairs of equal slopes, each a fixed slope and
equal to the given one where a slope was given. -/
theorem inner_slopes_loop (values : List S) (slopes_in : List (Option S)) (grid : List S)
    (k : Nat) (sl : List S)
    (h : (List.range k).foldlM (inner_slope_step values slopes_in grid) [0] = some sl) :
    sl.length = 2 * k + 1 ∧
    ∀ i, i < k →
      sl.getD (2 * i + 2) 0 = sl.getD (2 * i + 1) 0 ∧
      (∃ s0, sl.getD (2 * i + 1) 0 = fix_slope s0
        ((values.getD (i + 1) 0 - values.getD i 0) / (grid.getD (i + 1) 0 - grid.getD i 0))
        ((values.getD (i + 2) 0 - values.getD (i + 1) 0) /
          (grid.getD (i + 2) 0 - grid.getD (i + 1) 0))) ∧
      (∀ v, slopes_in.getD ((i + 1) % slopes_in.length) none = some v →
        sl.getD (2 * i + 1) 0 = v) := by
  refine foldlM_range_inv (inner_slope_step values slopes_in grid)
    (fun k sl => sl.length = 2 * k + 1 ∧
      ∀ i, i < k →
        sl.getD (2 * i + 2) 0 = sl.getD (2 * i + 1) 0 ∧
        (∃ s0, sl.getD (2 * i + 1) 0 = fix_slope s0
          ((values.getD (i + 1) 0 - values.getD i 0) / (grid.getD (i + 1) 0 - grid.getD i 0))
          ((values.getD (i + 2) 0 - values.getD (i + 1) 0) /
            (grid.getD (i + 2) 0 - grid.getD (i + 1) 0))) ∧
        (∀ v, slopes_in.getD ((i + 1) % slopes_in.length) none = some v →
          sl.getD (2 * i + 1) 0 = v)) [0] k ⟨rfl, fun i hi => absurd hi (Nat.not_lt_zero i)⟩
    ?_ sl h
  intro j s s' _ ⟨hlen, hinv⟩ hstep
  have key : ∃ x, s' = s ++ [x, x] ∧
      (∃ s0, x = fix_slope s0
        ((values.getD (j + 1) 0 - values.getD j 0) / (grid.getD (j + 1) 0 - grid.getD j 0))
        ((values.getD (j + 2) 0 - values.getD (j + 1) 0) /
          (grid.getD (j + 2) 0 - grid.getD (j + 1) 0))) ∧
      (∀ v, slopes_in.getD ((j + 1) % slopes_in.length) none = some v → x = v) := by
    unfold inner_slope_step at hstep
    cases hm : slopes_in.getD ((j + 1) % slopes_in.length) none with
    | none =>
      rw [hm] at hstep
      simp only [Option.some.injEq] at hstep
      exact ⟨_, hstep.symm, ⟨_, rfl⟩, fun v hv => by cases hv⟩
    | some slope =>
      rw [hm] at hstep
      simp only at hstep
      split_ifs at hstep with hf
      simp only [Option.some.injEq] at hstep
      refine ⟨slope, hstep.symm, ⟨slope, not_not.mp hf⟩, fun v hv => ?_⟩
      simp only [Option.some.injEq] at hv
      exact hv
  obtain ⟨x, hx, hfix, hgiven⟩ := key
  subst hx
  refine ⟨by simp only [List.length_append, List.length_cons, List.length_nil]; omega, ?_⟩
  intro i hi
  rcases Nat.lt_succ_iff_lt_or_eq.mp hi with hlt | heq
  · obtain ⟨a, b, c⟩ := hinv i hlt
    have e1 : (s ++ [x, x]).getD (2 * i + 1) 0 = s.getD (2 * i + 1) 0 :=
      List.getD_append _ _ _ _ (by omega)
    have e2 : (s ++ [x, x]).getD (2 * i + 2) 0 = s.getD (2 * i + 2) 0 :=
      List.getD_append _ _ _ _ (by omega)
    rw [e1, e2]
    exact ⟨a, b, c⟩
  · subst heq
    have e1 : (s ++ [x, x]).getD (2 * i + 1) 0 = x := by
      rw [List.getD_append_right _ _ _ _ (by omega)]
      have : 2 * i + 1 - s.length = 0 := by omega
      rw [this]; rfl
    have e2 : (s ++ [x, x]).getD (2 * i + 2) 0 = x := by
      rw [List.getD_append_right _ _ _ _ (by omega)]
      have : 2 * i + 2 - s.length = 1 := by omega
      rw [this]; rfl
    rw [e1, e2]
    exact ⟨rfl, hfix, hgiven⟩
end

section
variable {α : Type}

theorem getD_set_ne (l : List α) (a d : α) {i j : Nat} (h : i ≠ j) :
    (l.set i a).getD j d = l.getD j d := by
  rw [List.getD_eq_getElem?_getD, List.getD_eq_getElem?_getD, List.getElem?_set_ne h]

theorem getD_set_self (l : List α) (a d : α) {i : Nat} (h : i < l.length) :
    (l.set i a).getD i d = a := by
  rw [List.getD_eq_getElem?_getD, List.getElem?_set_self h]
  rfl

theorem getD_append_singleton_last (l : List α) (a d : α) :
    (l ++ [a]).getD l.length d = a := by
  rw [List.getD_append_right _ _ _ _ (le_refl _), Nat.sub_self]
  rfl

theorem getD_of_getElem? {l : List α} {i : Nat} {a : α} (d : α) (h : l[i]? = some a) :
    l.getD i d = a := by
  rw [List.getD_eq_getElem?_getD, h]
  rfl
end

section
variable {S : Type} [LinearOrderedField S]

theorem chord_nonneg (values grid : List S) (hv : values.Pairwise (· ≤ ·))
    (hg : grid.Pairwise (· < ·)) (hlen : values.length = grid.length) (i : Nat)
    (hi : i + 1 < values.length) :
    0 ≤ (values.getD (i + 1) 0 - values.getD i 0) / (grid.getD (i + 1) 0 - grid.getD i 0) := by
  have h1 : i < values.length := by omega
  have h2 : i + 1 < grid.length := by omega
  have h3 : i < grid.length := by omega
  rw [List.getD_eq_getElem _ _ hi, List.getD_eq_getElem _ _ h1, List.getD_eq_getElem _ _ h2,
    List.getD_eq_getElem _ _ h3]
  apply div_nonneg
  · have := pairwise_le_getElem hv (Nat.le_succ i) hi
    linarith
  · have := pairwise_lt_getElem hg (Nat.lt_succ_self i) h2
    linarith

/-- The slopes that `_init` hands to the Hermite constructor for an open
curve with non-decreasing values over an ascending grid: two per segment, each
between zero and three times the chord slope of its segment, and equal to the
slope given for the vertex where one was given. -/
theorem ShapePreservingCubicSpline.init_slopes (values : List S)
    (slopes_in : List (Option S)) (grid slopes' : List S)
    (h : ShapePreservingCubicSpline.init values slopes_in grid false
      = some (values, slopes', grid))
    (hv : values.Pairwise (· ≤ ·)) (hg : grid.Pairwise (· < ·)) :
    slopes'.length = 2 * (values.length - 1) ∧
    (∀ i, i + 1 < values.length →
      0 ≤ slopes'.getD (2 * i) 0 ∧
      slopes'.getD (2 * i) 0 ≤
        3 * ((values.getD (i + 1) 0 - values.getD i 0) / (grid.getD (i + 1) 0 - grid.getD i 0)) ∧
      0 ≤ slopes'.getD (2 * i + 1) 0 ∧
      slopes'.getD (2 * i + 1) 0 ≤
        3 * ((values.getD (i + 1) 0 - values.getD i 0) / (grid.getD (i + 1) 0 - grid.getD i 0))) ∧
    (∀ (k : Nat) (v : S), slopes_in[k]? = some (some v) →
      (k + 1 < values.length → slopes'.getD (2 * k) 0 = v) ∧
      (1 ≤ k → slopes'.getD (2 * k - 1) 0 = v)) := by
  obtain ⟨_, _, hn, hlen, hslen⟩ :=
    ShapePreservingCubicSpline.init_open values slopes_in grid _ h
  have hch := chord_nonneg values grid hv hg hlen
  unfold ShapePreservingCubicSpline.init at h
  simp only [Bool.false_eq_true, if_false, Bool.toNat_false, Nat.add_zero] at h
  rw [if_neg (by omega), if_neg (by omega), if_neg (by omega)] at h
  cases hloop : (List.range (values.length - 2)).foldlM
      (inner_slope_step values slopes_in grid) [0] with
  | none => rw [hloop] at h; cases h
  | some sl =>
    rw [hloop] at h
    simp only at h
    obtain ⟨hsl, hinv⟩ := inner_slopes_loop values slopes_in grid _ sl hloop
    by_cases h2 : slopes_in.length = 2
    · rw [if_pos h2] at h
      have hv2 : values.length = 2 := by omega
      have hc0 := hch 0 (by omega)
      simp only [Nat.zero_add] at hc0
      have hres : slopes'.length = 2 ∧
          (0 ≤ slopes'.getD 0 0 ∧ slopes'.getD 0 0 ≤
            3 * ((values.getD 1 0 - values.getD 0 0) / (grid.getD 1 0 - grid.getD 0 0)) ∧
           0 ≤ slopes'.getD 1 0 ∧ slopes'.getD 1 0 ≤
            3 * ((values.getD 1 0 - values.getD 0 0) / (grid.getD 1 0 - grid.getD 0 0))) ∧
          (∀ v, slopes_in.getD 0 none = some v → slopes'.getD 0 0 = v) ∧
          (∀ v, slopes_in.getD 1 none = some v → slopes'.getD 1 0 = v) := by
        cases h0 : slopes_in.getD 0 none with
        | none =>
          cases h1 : slopes_in.getD 1 none with
          | none =>
            rw [h0, h1] at h
            simp only [Option.some.injEq, Prod.mk.injEq, true_and, and_true] at h
            subst h
            refine ⟨rfl, ⟨hc0, ?_, hc0, ?_⟩, fun v hv => (by cases hv), fun v hv => (by cases hv)⟩
            · simp only [List.getD_cons_zero]; linarith
            · simp only [List.getD_cons_succ, List.getD_cons_zero]; linarith
          | some two =>
            rw [h0, h1] at h
            simp only at h
            split_ifs at h with hc
            simp only [Option.some.injEq, Prod.mk.injEq, true_and, and_true] at h
            subst h
            obtain ⟨a, b⟩ := check_slope_spec _ _ hc hc0
            obtain ⟨c, d⟩ := end_slope_bounds two _ hc0 a b
            exact ⟨rfl, ⟨c, d, a, b⟩, fun v hv => (by cases hv), fun v hv => (by
              simp only [Option.some.injEq] at hv; subst hv; rfl)⟩
        | some one =>
          cases h1 : slopes_in.getD 1 none with
          | none =>
            rw [h0, h1] at h
            simp only at h
            split_ifs at h with hc
            simp only [Option.some.injEq, Prod.mk.injEq, true_and, and_true] at h
            subst h
            obtain ⟨a, b⟩ := check_slope_spec _ _ hc hc0
            obtain ⟨c, d⟩ := end_slope_bounds one _ hc0 a b
            exact ⟨rfl, ⟨a, b, c, d⟩, fun v hv => (by
              simp only [Option.some.injEq] at hv; subst hv; rfl), fun v hv => (by cases hv)⟩
          | some two =>
            rw [h0, h1] at h
            simp only at h
            split_ifs at h with hc
            simp only [Option.some.injEq, Prod.mk.injEq, true_and, and_true] at h
            subst h
            simp only [Bool.and_eq_true] at hc
            obtain ⟨a, b⟩ := check_slope_spec _ _ hc.1 hc0
            obtain ⟨c, d⟩ := check_slope_spec _ _ hc.2 hc0
            exact ⟨rfl, ⟨a, b, c, d⟩, fun v hv => (by
              simp only [Option.some.injEq] at hv; subst hv; rfl), fun v hv => (by
              simp only [Option.some.injEq] at hv; subst hv; rfl)⟩
      obtain ⟨r1, r2, r3, r4⟩ := hres
      refine ⟨by rw [r1, hv2], ?_, ?_⟩
      · intro i hi
        have : i = 0 := by omega
        subst this
        simpa using r2
      · intro k v hk
        have hkl : k < slopes_in.length := (List.getElem?_eq_some_iff.mp hk).1
        have hgd : slopes_in.getD k none = some v := getD_of_getElem? none hk
        refine ⟨fun hk1 => ?_, fun hk1 => ?_⟩
        · have : k = 0 := by omega
          subst this
          exact r3 v hgd
        · have : k = 1 := by omega
          subst this
          exact r4 v hgd
    · rw [if_neg h2] at h
      have hk1 : 1 ≤ values.length - 2 := by omega
      -- the slope of vertex `i + 1`, stored at `2 * i + 1` and `2 * i + 2`
      have hin : ∀ i, i < values.length - 2 →
          0 ≤ sl.getD (2 * i + 1) 0 ∧
          sl.getD (2 * i + 1) 0 ≤ 3 * ((values.getD (i + 1) 0 - values.getD i 0) /
            (grid.getD (i + 1) 0 - grid.getD i 0)) ∧
          sl.getD (2 * i + 1) 0 ≤ 3 * ((values.getD (i + 2) 0 - values.getD (i + 1) 0) /
            (grid.getD (i + 2) 0 - grid.getD (i + 1) 0)) := by
        intro i hi
        obtain ⟨_, ⟨s0, hs0⟩, _⟩ := hinv i hi
        rw [hs0]
        exact fix_slope_bounds s0 _ _ (hch i (by omega)) (hch (i + 1) (by omega))
      cases hfirst : end_slope_or_given (slopes_in.headD none) (sl.getD 1 0)
          ((values.getD 1 0 - values.getD 0 0) / (grid.getD 1 0 - grid.getD 0 0)) with
      | none => rw [hfirst] at h; cases h
      | some first =>
        rw [hfirst] at h
        simp only at h
        cases hlast : end_slope_or_given (slopes_in.getLastD none)
            ((sl.set 0 first).getLastD 0)
            ((values.getD (values.length - 1) 0 - values.getD (values.length - 2) 0) /
              (grid.getD (grid.length - 1) 0 - grid.getD (grid.length - 2) 0)) with
        | none => rw [hlast] at h; cases h
        | some last =>
          rw [hlast] at h
          simp only [Option.some.injEq, Prod.mk.injEq, true_and, and_true] at h
          subst h
          have hc0 := hch 0 (by omega)
          simp only [Nat.zero_add] at hc0
          have hi0 := hin 0 (by omega)
          simp only [Nat.mul_zero, Nat.zero_add] at hi0
          obtain ⟨f1, f2, f3⟩ := end_slope_or_given_spec _ _ _ _ hfirst hc0 hi0.1 hi0.2.1
          have hset_len : (sl.set 0 first).length = 2 * (values.length - 2) + 1 := by
            rw [List.length_set]; exact hsl
          have hlastD : (sl.set 0 first).getLastD 0
              = sl.getD (2 * (values.length - 3) + 1) 0 := by
            rw [getLastD_eq_getD, hset_len, getD_set_ne _ _ _ (by omega)]
            have e : 2 * (values.length - 2) + 1 - 1 = 2 * (values.length - 3) + 2 := by omega
            rw [e]
            exact (hinv (values.length - 3) (by omega)).1
          have hidx1 : values.length - 1 = (values.length - 2) + 1 := by omega
          have hidx2 : grid.length - 1 = (values.length - 2) + 1 := by omega
          have hidx3 : grid.length - 2 = values.length - 2 := by omega
          have hcl := hch (values.length - 2) (by omega)
          have hil := hin (values.length - 3) (by omega)
          have e3 : values.length - 3 + 1 = values.length - 2 := by omega
          have e4 : values.length - 3 + 2 = values.length - 2 + 1 := by omega
          rw [e3, e4] at hil
          rw [hlastD, hidx1, hidx2, hidx3] at hlast
          obtain ⟨l1, l2, l3⟩ := end_slope_or_given_spec _ _ _ _ hlast hcl hil.1 hil.2.2
          -- the entries of the final vector
          have g0 : ((sl.set 0 first) ++ [last]).getD 0 0 = first := by
            rw [List.getD_append _ _ _ _ (by omega)]
            exact getD_set_self _ _ _ (by omega)
          have gmid : ∀ j, 1 ≤ j → j < 2 * (values.length - 2) + 1 →
              ((sl.set 0 first) ++ [last]).getD j 0 = sl.getD j 0 := by
            intro j hj1 hj2
            rw [List.getD_append _ _ _ _ (by omega)]
            exact getD_set_ne _ _ _ (by omega)
          have glast : ((sl.set 0 first) ++ [last]).getD (2 * (values.length - 2) + 1) 0
              = last := by
            rw [← hset_len]
            exact getD_append_singleton_last _ _ _
          refine ⟨by rw [List.length_append, hset_len, List.length_singleton]; omega, ?_, ?_⟩
          · intro i hi
            have even : 0 ≤ ((sl.set 0 first) ++ [last]).getD (2 * i) 0 ∧
                ((sl.set 0 first) ++ [last]).getD (2 * i) 0 ≤
                  3 * ((values.getD (i + 1) 0 - values.getD i 0) /
                    (grid.getD (i + 1) 0 - grid.getD i 0)) := by
              rcases Nat.eq_zero_or_pos i with hz | hp
              · subst hz
                simp only [Nat.mul_zero, Nat.zero_add]
                rw [g0]
                exact ⟨f1, f2⟩
              · rw [gmid (2 * i) (by omega) (by omega)]
                have e : 2 * i = 2 * (i - 1) + 2 := by omega
                rw [e, (hinv (i - 1) (by omega)).1]
                have := hin (i - 1) (by omega)
                have e5 : i - 1 + 1 = i := by omega
                have e6 : i - 1 + 2 = i + 1 := by omega
                rw [e5, e6] at this
                exact ⟨this.1, this.2.2⟩
            have odd : 0 ≤ ((sl.set 0 first) ++ [last]).getD (2 * i + 1) 0 ∧
                ((sl.set 0 first) ++ [last]).getD (2 * i + 1) 0 ≤
                  3 * ((values.getD (i + 1) 0 - values.getD i 0) /
                    (grid.getD (i + 1) 0 - grid.getD i 0)) := by
              by_cases hik : i = values.length - 2
              · subst hik
                rw [glast]
                exact ⟨l1, l2⟩
              · rw [gmid (2 * i + 1) (by omega) (by omega)]
                have := hin i (by omega)
                exact ⟨this.1, this.2.1⟩
            exact ⟨even.1, even.2, odd.1, odd.2⟩
          · intro k v hk
            have hkl : k < slopes_in.length := (List.getElem?_eq_some_iff.mp hk).1
            have hgd : slopes_in.getD k none = some v := getD_of_getElem? none hk
            have hinner : 1 ≤ k → k + 1 < values.length →
                sl.getD (2 * (k - 1) + 1) 0 = v := by
              intro hk1 hk2
              refine (hinv (k - 1) (by omega)).2.2 v ?_
              have e : (k - 1 + 1) % slopes_in.length = k := by
                rw [Nat.sub_add_cancel hk1]
                exact Nat.mod_eq_of_lt hkl
              rw [e]; exact hgd
            refine ⟨fun hk1 => ?_, fun hk1 => ?_⟩
            · rcases Nat.eq_zero_or_pos k with hz | hp
              · subst hz
                simp only [Nat.mul_zero]
                rw [g0]
                refine f3 v ?_
                rw [headD_eq_getD]; exact hgd
              · rw [gmid (2 * k) (by omega) (by omega)]
                have e : 2 * k = 2 * (k - 1) + 2 := by omega
                rw [e, (hinv (k - 1) (by omega)).1]
                exact hinner hp hk1
            · by_cases hkl2 : k = values.length - 1
              · have e : 2 * k - 1 = 2 * (values.length - 2) + 1 := by omega
                rw [e, glast]
                refine l3 v ?_
                rw [getLastD_eq_getD]
                have e2 : slopes_in.length - 1 = k := by omega
                rw [e2]; exact hgd
              · have e : 2 * k - 1 = 2 * (k - 1) + 1 := by omega
                rw [e, gmid _ (by omega) (by omega)]
                exact hinner hk1 (by omega)
end

/-! ## The monotone spline does not decrease -/

section
variable {S V : Type} [LinearOrderedField S] [AddCommGroup V] [Module S V]

/-- The segment with index `i` of a constructed Hermite spline. -/
theorem CubicHermiteSpline.segment_getD (vertices tangents : List V) (grid : List S)
    (c : PiecewiseCubicCurve S V)
    (h : CubicHermiteSpline.construct vertices tangents grid = some c) (i : Nat)
    (hi : i + 1 < vertices.length) :
    c.segments.getD i default =
      hermite_segment (vertices.getD i 0) (vertices.getD (i + 1) 0)
        (tangents.getD (2 * i) 0) (tangents.getD (2 * i + 1) 0)
        (grid.getD i 0) (grid.getD (i + 1) 0) := by
  obtain ⟨_, _, _, _, _, hseg⟩ := CubicHermiteSpline.hermite_construct_some vertices tangents grid c h
  have hi2 : i < vertices.length - 1 := by omega
  rw [hseg, List.getD_eq_getElem?_getD, List.getElem?_map, List.getElem?_range hi2]
  rfl

theorem CubicHermiteSpline.segments_length (vertices tangents : List V) (grid : List S)
    (c : PiecewiseCubicCurve S V)
    (h : CubicHermiteSpline.construct vertices tangents grid = some c) :
    c.segments.length + 1 = c.grid.length := by
  obtain ⟨h2, _, hl, _, hg, hseg⟩ :=
    CubicHermiteSpline.hermite_construct_some vertices tangents grid c h
  rw [hseg, hg, List.length_map, List.length_range]
  omega
end

section
variable {S : Type} [LinearOrderedField S]

/-- A scalar Hermite spline over non-decreasing values, whose slopes lie between
zero and three times the chord slope on every segment, does not decrease, and
its velocity is non-negative. -/
theorem hermite_spline_monotone (values slopes grid : List S) (c : PiecewiseCubicCurve S S)
    (h : CubicHermiteSpline.construct values slopes grid = some c)
    (hv : values.Pairwise (· ≤ ·))
    (hb : ∀ i, i + 1 < values.length →
      0 ≤ slopes.getD (2 * i) 0 ∧
      slopes.getD (2 * i) 0 ≤
        3 * ((values.getD (i + 1) 0 - values.getD i 0) / (grid.getD (i + 1) 0 - grid.getD i 0)) ∧
      0 ≤ slopes.getD (2 * i + 1) 0 ∧
      slopes.getD (2 * i + 1) 0 ≤
        3 * ((values.getD (i + 1) 0 - values.getD i 0) / (grid.getD (i + 1) 0 - grid.getD i 0))) :
    (∀ t t', t ≤ t' → c.evaluate t ≤ c.evaluate t') ∧ (∀ t, 0 ≤ c.evaluate_velocity t) := by
  obtain ⟨hn, _, hlen, hg, hcg, _⟩ := CubicHermiteSpline.hermite_construct_some values slopes grid c h
  have hsl := CubicHermiteSpline.segments_length values slopes grid c h
  have hgi : ∀ i, i + 1 < values.length → grid.getD i 0 < grid.getD (i + 1) 0 := by
    intro i hi
    rw [List.getD_eq_getElem _ _ (by omega : i < grid.length),
      List.getD_eq_getElem _ _ (by omega : i + 1 < grid.length)]
    exact pairwise_lt_getElem hg (Nat.lt_succ_self i) _
  -- values of a segment on its local interval
  have hmono : ∀ i, i + 1 < values.length → ∀ u w : S, 0 ≤ u → u ≤ w → w ≤ 1 →
      (c.segments.getD i default).eval u ≤ (c.segments.getD i default).eval w := by
    intro i hi u w hu huw hw
    rw [CubicHermiteSpline.segment_getD values slopes grid c h i hi]
    obtain ⟨b1, b2, b3, b4⟩ := hb i hi
    exact hermite_segment_monotone _ _ _ _ _ _ u w (hgi i hi) b1 b2 b3 b4 hu huw hw
  have hzero : ∀ i, i + 1 < values.length →
      (c.segments.getD i default).eval (0 : S) = values.getD i 0 := by
    intro i hi
    rw [CubicHermiteSpline.segment_getD values slopes grid c h i hi]
    exact hermite_segment_eval_zero _ _ _ _ _ _
  have hone : ∀ i, i + 1 < values.length →
      (c.segments.getD i default).eval (1 : S) = values.getD (i + 1) 0 := by
    intro i hi
    rw [CubicHermiteSpline.segment_getD values slopes grid c h i hi]
    exact hermite_segment_eval_one _ _ _ _ _ _
  have hvals : ∀ i j, i ≤ j → j < values.length → values.getD i 0 ≤ values.getD j 0 := by
    intro i j hij hj
    rw [List.getD_eq_getElem _ _ (by omega : i < values.length), List.getD_eq_getElem _ _ hj]
    exact pairwise_le_getElem hv hij hj
  have hlocal : ∀ i, i + 1 < values.length → ∀ τ : S, grid.getD i 0 ≤ τ → τ ≤ grid.getD (i + 1) 0 →
      0 ≤ (τ - grid.getD i 0) / (grid.getD (i + 1) 0 - grid.getD i 0) ∧
      (τ - grid.getD i 0) / (grid.getD (i + 1) 0 - grid.getD i 0) ≤ 1 := by
    intro i hi τ h1 h2
    have hd : 0 < grid.getD (i + 1) 0 - grid.getD i 0 := by linarith [hgi i hi]
    exact ⟨div_nonneg (by linarith) (le_of_lt hd), (div_le_one hd).mpr (by linarith)⟩
  -- two queries in two segments
  have hcross : ∀ i j, i + 1 < values.length → j + 1 < values.length → ∀ τ τ' : S,
      grid.getD i 0 ≤ τ → τ ≤ grid.getD (i + 1) 0 →
      grid.getD j 0 ≤ τ' → τ' ≤ grid.getD (j + 1) 0 → τ ≤ τ' →
      (c.segments.getD i default).eval
          ((τ - grid.getD i 0) / (grid.getD (i + 1) 0 - grid.getD i 0)) ≤
        (c.segments.getD j default).eval
          ((τ' - grid.getD j 0) / (grid.getD (j + 1) 0 - grid.getD j 0)) := by
    intro i j hi hj τ τ' a1 a2 b1 b2 hττ
    obtain ⟨u0, u1⟩ := hlocal i hi τ a1 a2
    obtain ⟨w0, w1⟩ := hlocal j hj τ' b1 b2
    rcases Nat.lt_trichotomy i j with hij | hij | hij
    · calc (c.segments.getD i default).eval _
          ≤ (c.segments.getD i default).eval (1 : S) := hmono i hi _ _ u0 u1 (le_refl _)
        _ = values.getD (i + 1) 0 := hone i hi
        _ ≤ values.getD j 0 := hvals _ _ hij (by omega)
        _ = (c.segments.getD j default).eval (0 : S) := (hzero j hj).symm
        _ ≤ (c.segments.getD j default).eval _ := hmono j hj _ _ (le_refl _) w0 w1
    · subst hij
      refine hmono i hi _ _ u0 ?_ w1
      have hd : 0 < grid.getD (i + 1) 0 - grid.getD i 0 := by linarith [hgi i hi]
      exact div_le_div_of_nonneg_right (by linarith) (le_of_lt hd)
    · have hji : grid.getD (j + 1) 0 ≤ grid.getD i 0 := by
        rw [List.getD_eq_getElem _ _ (by omega : j + 1 < grid.length),
          List.getD_eq_getElem _ _ (by omega : i < grid.length)]
        exact pairwise_le_getElem (hg.imp le_of_lt) hij (by omega)
      have e1 : τ = grid.getD i 0 := le_antisymm (by linarith) a1
      have e2 : τ' = grid.getD (j + 1) 0 := le_antisymm b2 (by linarith)
      have e3 : j + 1 = i := by
        by_contra hne
        have hlt : j + 1 < i := by omega
        have : grid.getD (j + 1) 0 < grid.getD i 0 := by
          rw [List.getD_eq_getElem _ _ (by omega : j + 1 < grid.length),
            List.getD_eq_getElem _ _ (by omega : i < grid.length)]
          exact pairwise_lt_getElem hg hlt (by omega)
        linarith
      have hd : grid.getD (j + 1) 0 - grid.getD j 0 ≠ 0 := by
        have := hgi j hj; intro hz; linarith
      rw [e1, e2, sub_self, zero_div, div_self hd, hzero i hi, hone j hj, e3]
  have hcg2 : c.grid.Pairwise (· < ·) := by rw [hcg]; exact hg
  have hcn : 2 ≤ c.grid.length := by rw [hcg]; omega
  constructor
  · intro t t' htt
    obtain ⟨i, hi, e1, l1, l2, _⟩ := c.locate hcg2 hcn hsl t
    obtain ⟨j, hj, e2, m1, m2, _⟩ := c.locate hcg2 hcn hsl t'
    unfold PiecewiseCubicCurve.evaluate
    simp only [e1, e2]
    rw [hcg] at hi hj l1 l2 m1 m2 ⊢
    exact hcross i j (by omega) (by omega) _ _ l1 l2 m1 m2
      (max_le_max (le_refl _) (min_le_min htt (le_refl _)))
  · intro t
    obtain ⟨i, hi, e1, l1, l2, _⟩ := c.locate hcg2 hcn hsl t
    unfold PiecewiseCubicCurve.evaluate_velocity
    simp only [e1]
    rw [hcg] at hi l1 l2 ⊢
    have hi' : i + 1 < values.length := by omega
    obtain ⟨u0, u1⟩ := hlocal i hi' _ l1 l2
    obtain ⟨b1, b2, b3, b4⟩ := hb i hi'
    have hq := hermite_derivative_nonneg (values.getD i 0) (values.getD (i + 1) 0)
      (slopes.getD (2 * i) 0) (slopes.getD (2 * i + 1) 0) (grid.getD i 0) (grid.getD (i + 1) 0)
      _ (hgi i hi') b1 b2 b3 b4 u0 u1
    rw [CubicHermiteSpline.segment_getD values slopes grid c h i hi']
    unfold segment_velocity
    simp only [smul_eq_mul]
    exact mul_nonneg (inv_nonneg.mpr (by linarith [hgi i hi'])) hq

/-- In exact arithmetic: a constructed `MonotoneCubicSpline` is a non-decreasing function, and
its velocity is non-negative at every time. -/
theorem monotone_spline_nondecreasing (values : List S) (slopes : List (Option S))
    (grid : List S) (m : MonotoneCubicSpline S)
    (h : MonotoneCubicSpline.construct values slopes grid = some m) :
    (∀ t t', t ≤ t' → m.curve.evaluate t ≤ m.curve.evaluate t') ∧
      (∀ t, 0 ≤ m.curve.evaluate_velocity t) := by
  obtain ⟨_, hs, slopes', hi, hc⟩ := MonotoneCubicSpline.monotone_construct_some values slopes grid m h
  obtain ⟨_, _, _, hg, _, _⟩ := CubicHermiteSpline.hermite_construct_some values slopes' grid m.curve hc
  obtain ⟨_, hb, _⟩ := ShapePreservingCubicSpline.init_slopes values slopes grid slopes' hi hs hg
  exact hermite_spline_monotone values slopes' grid m.curve hc hs hb

theorem monotone_spline_nondecreasing_witness :
    MonotoneCubicSpline.construct [0, 1, 2] [none, none, none] [0, 1, 2]
      = some sample_monotone ∧
    ((∀ t t' : ℚ, t ≤ t' → sample_monotone.curve.evaluate t ≤ sample_monotone.curve.evaluate t') ∧
      (∀ t : ℚ, 0 ≤ sample_monotone.curve.evaluate_velocity t)) :=
  ⟨by decide!, monotone_spline_nondecreasing [0, 1, 2] [none, none, none] [0, 1, 2]
    sample_monotone (by decide!)⟩
end

/-! ## Hermite splines at the grid values -/

section
variable {S V : Type} [LinearOrderedField S] [AddCommGroup V] [Module S V]

omit [Module S V] in
/-- At a grid value `_get_segment_and_trim` takes the segment that starts
there, and the last segment at the last grid value. -/
theorem PiecewiseCubicCurve.locate_grid (c : PiecewiseCubicCurve S V)
    (hg : c.grid.Pairwise (· < ·)) (hn : 2 ≤ c.grid.length)
    (hs : c.segments.length + 1 = c.grid.length) (k : Nat) (hk : k < c.grid.length) :
    c.get_segment_and_trim (c.grid.getD k 0) =
      (c.grid.getD k 0, c.grid.getD (min k (c.grid.length - 2)) 0,
        c.grid.getD (min k (c.grid.length - 2) + 1) 0,
        c.segments.getD (min k (c.grid.length - 2)) default) := by
  have hle : c.grid.Pairwise (· ≤ ·) := hg.imp le_of_lt
  have hget : ∀ a b, a ≤ b → b < c.grid.length → c.grid.getD a 0 ≤ c.grid.getD b 0 := by
    intro a b hab hb
    rw [List.getD_eq_getElem _ _ (by omega : a < c.grid.length), List.getD_eq_getElem _ _ hb]
    exact pairwise_le_getElem hle hab hb
  have hget2 : ∀ a b, a < b → b < c.grid.length → c.grid.getD a 0 < c.grid.getD b 0 := by
    intro a b hab hb
    rw [List.getD_eq_getElem _ _ (by omega : a < c.grid.length), List.getD_eq_getElem _ _ hb]
    exact pairwise_lt_getElem hg hab hb
  obtain ⟨i, hi, e, l1, l2, _, p2, p3⟩ := c.locate hg hn hs (c.grid.getD k 0)
  have hclamp : max (c.grid.getD 0 0) (min (c.grid.getD k 0) (c.grid.getD (c.grid.length - 1) 0))
      = c.grid.getD k 0 := by
    rw [min_eq_left (hget k _ (by omega) (by omega)), max_eq_right (hget 0 k (by omega) hk)]
  rw [hclamp] at e l1 l2
  have hik : i = min k (c.grid.length - 2) := by
    by_cases hlast : k + 1 < c.grid.length
    · have h3 := p3 (hget 0 k (by omega) hk) (hget2 k _ (by omega) (by omega))
      have a1 : ¬ k < i := fun hlt => absurd (hget2 k i hlt (by omega)) (not_lt.mpr l1)
      have a2 : ¬ i + 1 ≤ k := fun hle2 =>
        absurd (hget (i + 1) k hle2 hk) (not_le.mpr h3)
      rw [min_eq_left (by omega)]
      omega
    · have hk2 : k = c.grid.length - 1 := by omega
      rw [min_eq_right (by omega)]
      exact p2 (by rw [hk2])
  rw [e, hik]

/-- A Hermite spline passes through its vertices at the grid values. -/
theorem CubicHermiteSpline.evaluate_grid (vertices tangents : List V) (grid : List S)
    (c : PiecewiseCubicCurve S V)
    (h : CubicHermiteSpline.construct vertices tangents grid = some c) (k : Nat)
    (hk : k < vertices.length) : c.evaluate (grid.getD k 0) = vertices.getD k 0 := by
  obtain ⟨hn, _, hlen, hg, hcg, _⟩ :=
    CubicHermiteSpline.hermite_construct_some vertices tangents grid c h
  have hsl := CubicHermiteSpline.segments_length vertices tangents grid c h
  have hloc := c.locate_grid (by rw [hcg]; exact hg) (by rw [hcg]; omega) hsl k
    (by rw [hcg]; omega)
  rw [hcg] at hloc
  unfold PiecewiseCubicCurve.evaluate
  simp only [hloc]
  by_cases hlast : k + 1 < vertices.length
  · have hm : min k (grid.length - 2) = k := min_eq_left (by omega)
    rw [hm, CubicHermiteSpline.segment_getD vertices tangents grid c h k hlast, sub_self, zero_div]
    simp only [Segment.eval, hermite_segment, zero_smul, zero_add]
  · have hm : min k (grid.length - 2) = grid.length - 2 := min_eq_right (by omega)
    have hk2 : k = grid.length - 2 + 1 := by omega
    have hd : grid.getD (grid.length - 2 + 1) 0 - grid.getD (grid.length - 2) 0 ≠ 0 := by
      have : grid.getD (grid.length - 2) 0 < grid.getD (grid.length - 2 + 1) 0 := by
        rw [List.getD_eq_getElem _ _ (by omega : grid.length - 2 < grid.length),
          List.getD_eq_getElem _ _ (by omega : grid.length - 2 + 1 < grid.length)]
        exact pairwise_lt_getElem hg (Nat.lt_succ_self _) _
      intro hz; linarith
    rw [hm, CubicHermiteSpline.segment_getD vertices tangents grid c h _ (by omega), hk2,
      div_self hd]
    simp only [Segment.eval, hermite_segment, one_smul]
    module

/-- The velocity of a Hermite spline at a grid value is the outgoing tangent
of that vertex, and the incoming tangent at the last grid value. -/
theorem CubicHermiteSpline.evaluate_velocity_grid (vertices tangents : List V)
    (grid : List S) (c : PiecewiseCubicCurve S V)
    (h : CubicHermiteSpline.construct vertices tangents grid = some c) (k : Nat)
    (hk : k < vertices.length) :
    c.evaluate_velocity (grid.getD k 0) =
      if k + 1 < vertices.length then tangents.getD (2 * k) 0
      else tangents.getD (2 * k - 1) 0 := by
  obtain ⟨hn, _, hlen, hg, hcg, _⟩ :=
    CubicHermiteSpline.hermite_construct_some vertices tangents grid c h
  have hsl := CubicHermiteSpline.segments_length vertices tangents grid c h
  have hloc := c.locate_grid (by rw [hcg]; exact hg) (by rw [hcg]; omega) hsl k
    (by rw [hcg]; omega)
  rw [hcg] at hloc
  unfold PiecewiseCubicCurve.evaluate_velocity
  simp only [hloc]
  have hdne : ∀ i, i + 1 < grid.length → grid.getD (i + 1) 0 - grid.getD i 0 ≠ 0 := by
    intro i hi
    have : grid.getD i 0 < grid.getD (i + 1) 0 := by
      rw [List.getD_eq_getElem _ _ (by omega : i < grid.length), List.getD_eq_getElem _ _ hi]
      exact pairwise_lt_getElem hg (Nat.lt_succ_self _) _
    intro hz; linarith
  by_cases hlast : k + 1 < vertices.length
  · have hm : min k (grid.length - 2) = k := min_eq_left (by omega)
    rw [if_pos hlast, hm, CubicHermiteSpline.segment_getD vertices tangents grid c h k hlast]
    simp only [segment_velocity, hermite_segment, sub_self, zero_div, zero_smul, zero_add,
      smul_smul]
    rw [inv_mul_cancel₀ (hdne k (by omega)), one_smul]
  · have hm : min k (grid.length - 2) = grid.length - 2 := min_eq_right (by omega)
    have hk2 : k = grid.length - 2 + 1 := by omega
    have hd := hdne (grid.length - 2) (by omega)
    rw [if_neg hlast, hm, CubicHermiteSpline.segment_getD vertices tangents grid c h _ (by omega)]
    have hidx : 2 * k - 1 = 2 * (grid.length - 2) + 1 := by omega
    rw [hidx, hk2]
    simp only [segment_velocity, hermite_segment, div_self hd, one_smul]
    rw [show ((3 : S) • ((2 : S) • vertices.getD (grid.length - 2) 0
          - (2 : S) • vertices.getD (grid.length - 2 + 1) 0
          + (grid.getD (grid.length - 2 + 1) 0 - grid.getD (grid.length - 2) 0)
              • tangents.getD (2 * (grid.length - 2)) 0
          + (grid.getD (grid.length - 2 + 1) 0 - grid.getD (grid.length - 2) 0)
              • tangents.getD (2 * (grid.length - 2) + 1) 0)
        + (2 : S) • ((-3 : S) • vertices.getD (grid.length - 2) 0
          + (3 : S) • vertices.getD (grid.length - 2 + 1) 0
          - ((2 : S) * (grid.getD (grid.length - 2 + 1) 0 - grid.getD (grid.length - 2) 0))
              • tangents.getD (2 * (grid.length - 2)) 0
          - (grid.getD (grid.length - 2 + 1) 0 - grid.getD (grid.length - 2) 0)
              • tangents.getD (2 * (grid.length - 2) + 1) 0)
        + (grid.getD (grid.length - 2 + 1) 0 - grid.getD (grid.length - 2) 0)
              • tangents.getD (2 * (grid.length - 2)) 0)
        = (grid.getD (grid.length - 2 + 1) 0 - grid.getD (grid.length - 2) 0)
              • tangents.getD (2 * (grid.length - 2) + 1) 0 from by module]
    rw [smul_smul, inv_mul_cancel₀ hd, one_smul]
end

/-! ## Speed at a vertex -/

section
variable {S V : Type} [LinearOrderedField S]

/-- The time and speed of a record with a time sit at the same index of the
vectors `times` and `speeds` of the initializer. -/
theorem Initializer.construct_pairs (data : List (AsdfVertex S V)) (init : Initializer S V)
    (h : Initializer.construct data = some init) (k : Nat) (vert : AsdfVertex S V)
    (hk : data[k]? = some vert) (t : S) (ht : vert.time = some t) :
    ∃ idx : Nat, init.times[idx]? = some t ∧ init.speeds[idx]? = some vert.speed := by
  by_cases hlen : data.length < 2
  · unfold Initializer.construct at h
    rw [if_pos hlen] at h
    cases h
  rw [Initializer.construct_eq data hlen] at h
  have key := foldlM_range_inv _ (fun j (s : Initializer S V) =>
      s.speeds.length = s.times.length ∧
      ∀ k, k < j → ∀ vert, data[k]? = some vert → ∀ t, vert.time = some t →
        ∃ idx : Nat, s.times[idx]? = some t ∧ s.speeds[idx]? = some vert.speed) _ data.length
    ?_ ?_ init h
  · exact key.2 k (List.getElem?_eq_some_iff.mp hk).1 vert hk t ht
  · exact ⟨rfl, fun k hk => absurd hk (Nat.not_lt_zero k)⟩
  · intro j s s' hj ⟨i1, i2⟩ hstep
    cases hcur : data[j]? with
    | none => simp [hcur] at hstep
    | some cur =>
      simp only [hcur] at hstep
      obtain ⟨s1, s2, h1, h2, h3⟩ := Initializer.step_some hstep
      obtain ⟨_, p2, _, p4, _, _, _⟩ := Initializer.add_position_spec h1
      obtain ⟨_, _, _, _, t5⟩ := Initializer.add_time_spec h2
      obtain ⟨_, _, c3, c4, _, _, _⟩ := Initializer.add_tcb_spec h3
      rw [c3, c4]
      rcases t5 with ⟨_, e1, e2, _⟩ | ⟨e0, _, _, _, e2, e3, _⟩
      · rw [e1, e2, p2, p4]
        refine ⟨by simp only [List.length_append, List.length_singleton]; omega, ?_⟩
        intro k' hk' vert' hv' t' ht'
        rcases Nat.lt_succ_iff_lt_or_eq.mp hk' with hlt | heq
        · obtain ⟨idx, a, b⟩ := i2 k' hlt vert' hv' t' ht'
          have ha := (List.getElem?_eq_some_iff.mp a).1
          have hb := (List.getElem?_eq_some_iff.mp b).1
          exact ⟨idx, by rw [List.getElem?_append_left ha]; exact a,
            by rw [List.getElem?_append_left hb]; exact b⟩
        · subst heq
          rw [hcur] at hv'
          simp only [Option.some.injEq] at hv'
          subst hv'
          refine ⟨s.times.length, ?_, ?_⟩
          · rw [List.getElem?_append_right (le_refl _), Nat.sub_self, ht']
            rfl
          · rw [← i1, List.getElem?_append_right (le_refl _), Nat.sub_self]
            rfl
      · rw [e2, e3, p2, p4]
        refine ⟨i1, ?_⟩
        intro k' hk' vert' hv' t' ht'
        rcases Nat.lt_succ_iff_lt_or_eq.mp hk' with hlt | heq
        · exact i2 k' hlt vert' hv' t' ht'
        · subst heq
          rw [hcur] at hv'
          simp only [Option.some.injEq] at hv'
          subst hv'
          rw [e0] at ht'
          cases ht'
end

section
variable {S V : Type} [LinearOrderedField S] [AddCommGroup V] [Module S V]

/-- The time-to-length spline has the given speed as its velocity at the time
of a vertex that was given both. -/
theorem t2s_velocity_at_vertex (sqrt : S → S) (length : V → S)
    (data : List (AsdfVertex S V)) (sp : AsdfSpline S V)
    (h : AsdfSpline.construct sqrt length data = some sp)
    (k : Nat) (vert : AsdfVertex S V) (hk : data[k]? = some vert) (t v : S)
    (ht : vert.time = some t) (hv : vert.speed = some v) :
    sp.t2s.curve.evaluate_velocity t = v ∧ 0 ≤ v := by
  obtain ⟨init, init', args, h1, _, h3, h4, _, _⟩ :=
    AsdfSpline.construct_stages sqrt length data sp h
  obtain ⟨idx, ti, si⟩ := Initializer.construct_pairs data init h1 k vert hk t ht
  obtain ⟨a1, a2, _, _⟩ := Initializer.get_t2s_arguments_fields length init init' sp.path args h3
  rw [← a2] at ti
  rw [← a1, hv] at si
  obtain ⟨_, hs, slopes', hi, hc⟩ :=
    MonotoneCubicSpline.monotone_construct_some args.1 args.2.1 args.2.2 sp.t2s h4
  obtain ⟨hn, _, hlen, hg, _, _⟩ :=
    CubicHermiteSpline.hermite_construct_some args.1 slopes' args.2.2 sp.t2s.curve hc
  obtain ⟨_, hb, hgiven⟩ :=
    ShapePreservingCubicSpline.init_slopes args.1 args.2.1 args.2.2 slopes' hi hs hg
  have hidx : idx < args.2.2.length := (List.getElem?_eq_some_iff.mp ti).1
  have htd : args.2.2.getD idx 0 = t := getD_of_getElem? 0 ti
  have hvel := CubicHermiteSpline.evaluate_velocity_grid args.1 slopes' args.2.2
    sp.t2s.curve hc idx (by omega)
  rw [htd] at hvel
  rw [hvel]
  obtain ⟨g1, g2⟩ := hgiven idx v si
  by_cases hlast : idx + 1 < args.1.length
  · rw [if_pos hlast, g1 hlast]
    refine ⟨rfl, ?_⟩
    rw [← g1 hlast]
    exact (hb idx hlast).1
  · rw [if_neg hlast, g2 (by omega)]
    refine ⟨rfl, ?_⟩
    rw [← g2 (by omega)]
    have := (hb (idx - 1) (by omega)).2.2.1
    have e : 2 * (idx - 1) + 1 = 2 * idx - 1 := by omega
    rw [e] at this
    exact this

/-- In exact arithmetic: at the time of a vertex that was given a time and a
speed, the length of `evaluate_velocity` is that speed, provided the path
velocity at the evaluated point is not of length zero. -/
theorem speed_at_vertex (sqrt : S → S) (length : V → S)
    (hsmul : ∀ (a : S) (x : V), length (a • x) = |a| * length x)
    (hnonneg : ∀ x : V, 0 ≤ length x)
    (data : List (AsdfVertex S V)) (sp : AsdfSpline S V)
    (h : AsdfSpline.construct sqrt length data = some sp)
    (k : Nat) (vert : AsdfVertex S V) (hk : data[k]? = some vert) (t v : S)
    (ht : vert.time = some t) (hv : vert.speed = some v)
    (htan : length (sp.path.evaluate_velocity (sp.s2u length (sp.t2s.curve.evaluate t))) ≠ 0) :
    length (sp.evaluate_velocity length t) = v := by
  obtain ⟨e, hv0⟩ := t2s_velocity_at_vertex sqrt length data sp h k vert hk t v ht hv
  unfold AsdfSpline.evaluate_velocity
  simp only [e, if_pos htan]
  rw [hsmul, hsmul, abs_of_nonneg hv0, abs_of_nonneg (inv_nonneg.mpr (hnonneg _)),
    inv_mul_cancel₀ htan, mul_one]

theorem speed_at_vertex_witness :
    ((∀ (a : ℚ) (x : ℚ), abs_length (a • x) = |a| * abs_length x) ∧
      (∀ x : ℚ, 0 ≤ abs_length x) ∧
      AsdfSpline.construct sqrtQ abs_length line_data = some line_spline ∧
      line_data[1]? = some ⟨Position.point 1, some 1, some 1, (0, 0, 0)⟩ ∧
      abs_length (line_spline.path.evaluate_velocity
        (line_spline.s2u abs_length (line_spline.t2s.curve.evaluate 1))) ≠ 0) ∧
    abs_length (line_spline.evaluate_velocity abs_length 1) = 1 :=
  have hsmul : ∀ (a : ℚ) (x : ℚ), abs_length (a • x) = |a| * abs_length x := fun a x => by
    unfold abs_length; rw [smul_eq_mul, abs_mul]
  have hnonneg : ∀ x : ℚ, 0 ≤ abs_length x := fun x => abs_nonneg x
  ⟨⟨hsmul, hnonneg, by decide!, rfl, by decide!⟩,
    speed_at_vertex sqrtQ abs_length hsmul hnonneg line_data line_spline (by decide!) 1
      ⟨Position.point 1, some 1, some 1, (0, 0, 0)⟩ rfl 1 1 rfl rfl (by decide!)⟩
end

/-! ## Velocity where the path rests -/

section
variable {S V : Type} [LinearOrderedField S] [AddCommGroup V] [Module S V]

end

section
variable {S : Type} [LinearOrderedField S]

theorem gl_weights_pos : ∀ p ∈ List.zip (gl_times : List S) (gl_weights : List S), 0 < p.2 := by
  intro p hp
  simp only [gl_times, gl_weights, List.zip_cons_cons, List.zip_nil_right, List.mem_cons,
    List.mem_singleton, List.not_mem_nil, or_false] at hp
  rcases hp with h | h | h | h | h | h | h | h | h | h | h | h | h <;> rw [h] <;> norm_num

theorem gl_foldl_ge (g : S → S) (hg : ∀ x, 0 ≤ g x) :
    ∀ (l : List (S × S)), (∀ p ∈ l, 0 < p.2) → ∀ init : S,
      init ≤ l.foldl (fun r tw => r + tw.2 * g tw.1) init := by
  intro l
  induction l with
  | nil => intro _ init; exact le_refl _
  | cons p t ih =>
    intro hw init
    rw [List.foldl_cons]
    have h1 := ih (fun q hq => hw q (List.mem_cons_of_mem _ hq)) (init + p.2 * g p.1)
    have h2 : 0 ≤ p.2 * g p.1 := mul_nonneg (le_of_lt (hw p (List.mem_cons_self _ _))) (hg _)
    linarith

theorem gl_foldl_pos (g : S → S) (hg : ∀ x, 0 ≤ g x) :
    ∀ (l : List (S × S)), (∀ p ∈ l, 0 < p.2) → (∃ p ∈ l, 0 < g p.1) → ∀ init : S, 0 ≤ init →
      0 < l.foldl (fun r tw => r + tw.2 * g tw.1) init := by
  intro l
  induction l with
  | nil => intro _ hex; obtain ⟨p, hp, _⟩ := hex; cases hp
  | cons p t ih =>
    intro hw hex init h0
    rw [List.foldl_cons]
    have hwp := hw p (List.mem_cons_self _ _)
    obtain ⟨q, hq, hgq⟩ := hex
    rcases List.mem_cons.mp hq with h | h
    · subst h
      have h2 : 0 < q.2 * g q.1 := mul_pos hwp hgq
      exact lt_of_lt_of_le (by linarith)
        (gl_foldl_ge g hg t (fun r hr => hw r (List.mem_cons_of_mem _ hr)) _)
    · exact ih (fun r hr => hw r (List.mem_cons_of_mem _ hr)) ⟨q, h, hgq⟩ _
        (by have := mul_nonneg (le_of_lt hwp) (hg p.1); linarith)

/-- The Gauss-Legendre sum of a non-negative function over `a <= b` is
non-negative. -/
theorem gauss_legendre13_nonneg (f : S → S) (hf : ∀ x, 0 ≤ f x) (a b : S) (hab : a ≤ b) :
    0 ≤ gauss_legendre13 f a b := by
  unfold gauss_legendre13
  have := gl_foldl_ge (fun τ => f ((b - a) * τ / 2 + (a + b) / 2)) (fun x => hf _)
    (List.zip gl_times gl_weights) gl_weights_pos 0
  exact div_nonneg (mul_nonneg (by linarith) this) (by norm_num)

/-- The Gauss-Legendre sum of a non-negative function over `a < b` is positive
when the function is positive at one of the nodes. -/
theorem gauss_legendre13_pos (f : S → S) (hf : ∀ x, 0 ≤ f x) (a b : S) (hab : a < b)
    (hex : ∃ τ ∈ (gl_times : List S), 0 < f ((b - a) * τ / 2 + (a + b) / 2)) :
    0 < gauss_legendre13 f a b := by
  unfold gauss_legendre13
  obtain ⟨τ, hτ, hpos⟩ := hex
  have hmem : ∃ p ∈ List.zip (gl_times : List S) (gl_weights : List S), p.1 = τ := by
    simp only [gl_times, gl_weights, List.zip_cons_cons, List.zip_nil_right, List.mem_cons,
      List.mem_singleton, List.not_mem_nil, or_false] at hτ ⊢
    rcases hτ with h | h | h | h | h | h | h | h | h | h | h | h | h <;> subst h <;> simp
  obtain ⟨p, hp, hpτ⟩ := hmem
  have := gl_foldl_pos (fun τ => f ((b - a) * τ / 2 + (a + b) / 2)) (fun x => hf _)
    (List.zip gl_times gl_weights) gl_weights_pos ⟨p, hp, by rw [hpτ]; exact hpos⟩ 0 (le_refl _)
  exact div_pos (mul_pos (by linarith) this) (by norm_num)
end

section
variable {S V : Type} [LinearOrderedField S] [AddCommGroup V] [Module S V]

/-- A quadratic with vector coefficients that vanishes at three parameters
has no coefficient other than zero. -/
theorem quadratic_vanishes (a1 a2 a3 : V) (e : S) (he : e ≠ 0)
    (h1 : ((1 : S) / 2) • (((1 : S) / 2) • ((3 : S) • a3) + (2 : S) • a2) + a1 = 0)
    (h2 : ((1 : S) / 2 + e) • (((1 : S) / 2 + e) • ((3 : S) • a3) + (2 : S) • a2) + a1 = 0)
    (h3 : ((1 : S) / 2 - e) • (((1 : S) / 2 - e) • ((3 : S) • a3) + (2 : S) • a2) + a1 = 0) :
    a1 = 0 ∧ a2 = 0 ∧ a3 = 0 := by
  have e3 : (6 * e ^ 2) • a3 =
      (((1 : S) / 2 + e) • (((1 : S) / 2 + e) • ((3 : S) • a3) + (2 : S) • a2) + a1)
      + (((1 : S) / 2 - e) • (((1 : S) / 2 - e) • ((3 : S) • a3) + (2 : S) • a2) + a1)
      - (2 : S) • (((1 : S) / 2) • (((1 : S) / 2) • ((3 : S) • a3) + (2 : S) • a2) + a1) := by
    module
  rw [h1, h2, h3] at e3
  simp only [smul_zero, add_zero, sub_zero] at e3
  have ha3 : a3 = 0 := by
    rcases smul_eq_zero.mp e3 with h | h
    · exfalso
      have : e ^ 2 = 0 := by linarith
      exact he (pow_eq_zero_iff (by norm_num) |>.mp this)
    · exact h
  have e2 : (4 * e) • a2 =
      (((1 : S) / 2 + e) • (((1 : S) / 2 + e) • ((3 : S) • a3) + (2 : S) • a2) + a1)
      - (((1 : S) / 2 - e) • (((1 : S) / 2 - e) • ((3 : S) • a3) + (2 : S) • a2) + a1)
      - (6 * e) • a3 := by
    module
  rw [h2, h3, ha3] at e2
  simp only [smul_zero, sub_zero] at e2
  have ha2 : a2 = 0 := by
    rcases smul_eq_zero.mp e2 with h | h
    · exfalso
      have : e = 0 := by linarith
      exact he this
    · exact h
  have e1 : a1 =
      (((1 : S) / 2) • (((1 : S) / 2) • ((3 : S) • a3) + (2 : S) • a2) + a1)
      - ((3 : S) / 4) • a3 - a2 := by
    module
  rw [h1, ha3, ha2] at e1
  simp only [smul_zero, sub_zero] at e1
  exact ⟨e1, ha2, ha3⟩

/-- The length of a segment that is not constant is positive, for a length
function that is non-negative and zero on the zero vector only. -/
theorem segment_length_pos (length : V → S) (hnonneg : ∀ x, 0 ≤ length x)
    (hzero : ∀ x, length x = 0 → x = 0) (seg : Segment V) (t0 t1 : S) (ht : t0 < t1)
    (hne : ¬ (seg.a1 = 0 ∧ seg.a2 = 0 ∧ seg.a3 = 0)) :
    0 < gauss_legendre13 (fun t => length (segment_velocity t0 t1 seg t)) t0 t1 := by
  by_contra hcon
  apply hne
  have hd : t1 - t0 ≠ 0 := by intro h; linarith
  have hnode : ∀ τ ∈ (gl_times : List S),
      (τ / 2 + 1 / 2) • ((τ / 2 + 1 / 2) • ((3 : S) • seg.a3) + (2 : S) • seg.a2) + seg.a1 = 0 := by
    intro τ hτ
    by_contra hq
    apply hcon
    refine gauss_legendre13_pos _ (fun x => hnonneg _) t0 t1 ht ⟨τ, hτ, ?_⟩
    refine lt_of_le_of_ne (hnonneg _) (fun h0 => hq ?_)
    have hv := hzero _ h0.symm
    unfold segment_velocity at hv
    have hu : ((t1 - t0) * τ / 2 + (t0 + t1) / 2 - t0) / (t1 - t0) = τ / 2 + 1 / 2 := by
      field_simp
      ring
    rw [hu] at hv
    rcases smul_eq_zero.mp hv with h | h
    · exact absurd (inv_eq_zero.mp h) hd
    · exact h
  have m0 : (0 : S) ∈ (gl_times : List S) := by simp [gl_times]
  have m1 : (0.9841830547185881 : S) ∈ (gl_times : List S) := by simp [gl_times]
  have m2 : (-0.9841830547185881 : S) ∈ (gl_times : List S) := by simp [gl_times]
  have q0 := hnode 0 m0
  have q1 := hnode _ m1
  have q2 := hnode _ m2
  refine quadratic_vanishes seg.a1 seg.a2 seg.a3 ((0.9841830547185881 : S) / 2) (by norm_num)
    ?_ ?_ ?_
  · rw [show ((0 : S) / 2 + 1 / 2) = 1 / 2 by norm_num] at q0
    exact q0
  · rw [show ((0.9841830547185881 : S) / 2 + 1 / 2) = 1 / 2 + 0.9841830547185881 / 2 by ring] at q1
    exact q1
  · rw [show ((-0.9841830547185881 : S) / 2 + 1 / 2) = 1 / 2 - 0.9841830547185881 / 2 by ring] at q2
    exact q2

theorem hermite_segment_constant (x0 x1 v0 v1 : V) (t0 t1 : S)
    (h : (hermite_segment x0 x1 v0 v1 t0 t1).a1 = 0 ∧
      (hermite_segment x0 x1 v0 v1 t0 t1).a2 = 0 ∧ (hermite_segment x0 x1 v0 v1 t0 t1).a3 = 0) :
    x1 - x0 = 0 := by
  have e : x1 - x0 = (hermite_segment x0 x1 v0 v1 t0 t1).a1
      + (hermite_segment x0 x1 v0 v1 t0 t1).a2 + (hermite_segment x0 x1 v0 v1 t0 t1).a3 := by
    simp only [hermite_segment]
    module
  rw [e, h.1, h.2.1, h.2.2]
  simp
end

/-! ## Vertices of the path -/

section
variable {α : Type}

theorem foldlM_range_step_some (f : α → Nat → Option α) (init : α) (n : Nat) (s : α)
    (h : (List.range n).foldlM f init = some s) :
    ∀ i, i < n → ∃ s1 s2, f s1 i = some s2 := by
  induction n generalizing s with
  | zero => intro i hi; omega
  | succ n ih =>
    intro i hi
    rw [foldlM_range_succ] at h
    cases hprev : List.foldlM f init (List.range n) with
    | none => rw [hprev] at h; cases h
    | some s0 =>
      rw [hprev] at h
      simp only [Option.some_bind] at h
      rcases Nat.lt_succ_iff_lt_or_eq.mp hi with hlt | heq
      · exact ih s0 hprev i hlt
      · subst heq
        exact ⟨s0, s, h⟩
end

section
variable {S V : Type} [LinearOrderedField S]

/-- The vertices collected by the `Initializer` constructor are the points of
the records, the flag `closed` tells whether the last record is the marker,
and the marker is nowhere else. -/
theorem Initializer.construct_vertices (data : List (AsdfVertex S V)) (init : Initializer S V)
    (h : Initializer.construct data = some init) :
    init.vertices = data.filterMap (fun v => v.position.toOption) ∧
    init.closed = (match data.getLast? with
      | some ⟨Position.CLOSED, _, _, _⟩ => true
      | _ => false) ∧
    (∀ k vert, data[k]? = some vert → vert.position = Position.CLOSED →
      k = data.length - 1) := by
  by_cases hlen : data.length < 2
  · unfold Initializer.construct at h
    rw [if_pos hlen] at h
    cases h
  rw [Initializer.construct_eq data hlen] at h
  have key := foldlM_range_inv _ (fun j (s : Initializer S V) =>
      s.vertices = (data.take j).filterMap (fun v => v.position.toOption) ∧
      s.closed = (match data.getLast? with
        | some ⟨Position.CLOSED, _, _, _⟩ => true
        | _ => false) ∧
      ∀ k, k < j → ∀ vert, data[k]? = some vert → vert.position = Position.CLOSED →
        k = data.length - 1) _ data.length ?_ ?_ init h
  · obtain ⟨k1, k2, k3⟩ := key
    rw [List.take_length] at k1
    exact ⟨k1, k2, fun k vert hk hp => k3 k (List.getElem?_eq_some_iff.mp hk).1 vert hk hp⟩
  · exact ⟨by simp, rfl, fun k hk => absurd hk (Nat.not_lt_zero k)⟩
  · intro j s s' hj ⟨i1, i2, i3⟩ hstep
    cases hcur : data[j]? with
    | none => simp [hcur] at hstep
    | some cur =>
      simp only [hcur] at hstep
      have hcl := Initializer.step_closed hstep
      obtain ⟨s1, s2, h1, h2, h3⟩ := Initializer.step_some hstep
      obtain ⟨_, _, _, _, _, _, p7⟩ := Initializer.add_position_spec h1
      obtain ⟨_, t2, _, _, _⟩ := Initializer.add_time_spec h2
      obtain ⟨_, c2, _, _, _, _, _⟩ := Initializer.add_tcb_spec h3
      have htake : data.take (j + 1) = data.take j ++ [cur] := by
        rw [List.take_succ, hcur]; rfl
      refine ⟨?_, by rw [hcl]; exact i2, ?_⟩
      · rw [c2, t2, htake, List.filterMap_append]
        rcases p7 with ⟨v, hv, e⟩ | ⟨hc, _, e⟩
        · rw [e, i1]
          simp [hv, Position.toOption]
        · rw [e, i1]
          simp [hc, Position.toOption]
      · intro k hk vert hv hp
        rcases Nat.lt_succ_iff_lt_or_eq.mp hk with hlt | heq
        · exact i3 k hlt vert hv hp
        · subst heq
          rw [hcur] at hv
          simp only [Option.some.injEq] at hv
          subst hv
          rcases p7 with ⟨v, hv, _⟩ | ⟨_, hc, _⟩
          · rw [hp] at hv; cases hv
          · exact hc
end

section
variable {S V : Type} [LinearOrderedField S] [AddCommGroup V] [Module S V]

omit [Module S V] in
/-- The first step of a centripetal grid that was built is not zero. -/
theorem centripetal_grid_first (sqrt : S → S) (length : V → S) (vertices : List V)
    (grid : List S) (h : centripetal_grid sqrt length vertices = some grid)
    (hn : 2 ≤ vertices.length) :
    sqrt (length (vertices.getD 1 0 - vertices.getD 0 0)) ≠ 0 := by
  unfold centripetal_grid at h
  obtain ⟨s1, s2, hs⟩ := foldlM_range_step_some _ _ _ _ h 0 (by omega)
  simp only at hs
  split_ifs at hs with hz
  exact hz

/-- The vertices that `_init` hands to the Hermite constructor: the given ones,
followed by the first one for a closed curve; the first two are distinct
enough for their grid step not to be zero. -/
theorem CentripetalKochanekBartelsSpline.init_vertices (sqrt : S → S) (length : V → S)
    (vertices_in : List V) (tcb : List (S × S × S)) (closed : Bool)
    (r : List V × List V × List S)
    (h : CentripetalKochanekBartelsSpline.init sqrt length vertices_in tcb closed = some r) :
    2 ≤ vertices_in.length ∧
    r.1 = (if closed then vertices_in ++ [vertices_in.getD 0 0] else vertices_in) ∧
    sqrt (length (vertices_in.getD 1 0 - vertices_in.getD 0 0)) ≠ 0 := by
  unfold CentripetalKochanekBartelsSpline.init at h
  by_cases h1 : vertices_in.length < 2
  · rw [if_pos h1] at h; cases h
  rw [if_neg h1] at h
  cases closed with
  | false =>
    simp only [Bool.false_eq_true, if_false] at h ⊢
    split_ifs at h with h2 h3
    · cases hgrid : centripetal_grid sqrt length vertices_in with
      | none => rw [hgrid] at h; cases h
      | some grid =>
        rw [hgrid] at h
        simp only [Option.some.injEq] at h
        rw [← h]
        exact ⟨by omega, rfl, centripetal_grid_first sqrt length _ grid hgrid (by omega)⟩
    · cases hgrid : centripetal_grid sqrt length vertices_in with
      | none => rw [hgrid] at h; cases h
      | some grid =>
        rw [hgrid] at h
        simp only [Option.some.injEq] at h
        rw [← h]
        exact ⟨by omega, rfl, centripetal_grid_first sqrt length _ grid hgrid (by omega)⟩
  | true =>
    simp only [if_true] at h ⊢
    split_ifs at h with h2
    cases hgrid : centripetal_grid sqrt length
        (vertices_in ++ [vertices_in.getD 0 0, vertices_in.getD 1 0]) with
    | none => rw [hgrid] at h; cases h
    | some grid =>
      rw [hgrid] at h
      simp only [Option.some.injEq] at h
      rw [← h]
      refine ⟨by omega, ?_, ?_⟩
      · show (vertices_in ++ [vertices_in.getD 0 0, vertices_in.getD 1 0]).dropLast = _
        rw [show vertices_in ++ [vertices_in.getD 0 0, vertices_in.getD 1 0]
          = (vertices_in ++ [vertices_in.getD 0 0]) ++ [vertices_in.getD 1 0] by simp]
        exact List.dropLast_concat
      · have := centripetal_grid_first sqrt length _ grid hgrid
          (by simp only [List.length_append, List.length_cons, List.length_nil]; omega)
        rw [List.getD_append _ _ _ _ (by omega), List.getD_append _ _ _ _ (by omega)] at this
        exact this
end

/-! ## Cumulative lengths -/

section
variable {S V : Type} [LinearOrderedField S] [AddCommGroup V] [Module S V]

/-- The one-argument `segment_length` of a segment that exists. -/
theorem PiecewiseCubicCurve.segment_length_full_eq (length : V → S)
    (c : PiecewiseCubicCurve S V) (i : Nat) (hi : i + 1 < c.grid.length)
    (hs : c.segments.length + 1 = c.grid.length) :
    c.segment_length_full length i =
      some (gauss_legendre13
        (fun t => length (segment_velocity (c.grid.getD i 0) (c.grid.getD (i + 1) 0)
          (c.segments.getD i default) t))
        (c.grid.getD i 0) (c.grid.getD (i + 1) 0)) := by
  have h1 : i < c.grid.length := by omega
  have h2 : i < c.segments.length := by omega
  unfold PiecewiseCubicCurve.segment_length_full PiecewiseCubicCurve.segment_length
  simp only [List.getElem?_eq_getElem h1, List.getElem?_eq_getElem hi,
    List.getElem?_eq_getElem h2, List.getD_eq_getElem _ _ h1, List.getD_eq_getElem _ _ hi,
    List.getD_eq_getElem _ _ h2]

/-- The vector `lengths` returned by `get_t2s_arguments` starts with zero and
ends with a positive length, when no segment has a negative length, the first
one has a positive length and the first vertex is not among the missing times. -/
theorem Initializer.get_t2s_arguments_lengths (length : V → S) (init init' : Initializer S V)
    (path : PiecewiseCubicCurve S V) (args : List S × List (Option S) × List S)
    (h : init.get_t2s_arguments length path = some (args, init'))
    (hn : 2 ≤ path.grid.length)
    (hm : 0 ∉ init.missing_times)
    (hlen : ∀ i len, path.segment_length_full length i = some len → 0 ≤ len)
    (hfirst : ∀ len, path.segment_length_full length 0 = some len → 0 < len) :
    args.1.headD 0 = 0 ∧ 0 < args.1.getLastD 0 := by
  unfold Initializer.get_t2s_arguments at h
  cases hloop : (List.range (path.grid.length - 1)).foldlM (fun (st : List S × List S) i =>
      match path.segment_length_full length i with
      | none => none
      | some len =>
        if i ∈ init.missing_times then
          some (st.1.dropLast ++ [st.1.getLastD 0 + len], st.2 ++ [st.1.getLastD 0])
        else
          some (st.1 ++ [st.1.getLastD 0 + len], st.2))
      ([0], init.lengths_at_missing_times) with
  | none => rw [hloop] at h; cases h
  | some st =>
    rw [hloop] at h
    simp only [Option.some.injEq, Prod.mk.injEq] at h
    obtain ⟨h1, _⟩ := h
    have key := foldlM_range_inv _ (fun k (st : List S × List S) =>
        (k = 0 ∧ st.1 = [0]) ∨
        (1 ≤ k ∧ ∃ rest, st.1 = 0 :: rest ∧ rest ≠ [] ∧ 0 < st.1.getLastD 0)) _ _
      (Or.inl ⟨rfl, rfl⟩) ?_ st hloop
    · rcases key with ⟨k0, _⟩ | ⟨_, rest, e, _, hpos⟩
      · omega
      · rw [← h1]
        simp only
        exact ⟨by rw [e]; rfl, hpos⟩
    · intro k s s' _ hinv hstep
      cases hseg : path.segment_length_full length k with
      | none => simp only [hseg] at hstep; cases hstep
      | some len =>
        simp only [hseg] at hstep
        have hl0 := hlen k len hseg
        right
        refine ⟨by omega, ?_⟩
        rcases hinv with ⟨k0, e⟩ | ⟨k1, rest, e, hne, hpos⟩
        · subst k0
          rw [if_neg hm] at hstep
          simp only [Option.some.injEq] at hstep
          rw [← hstep, e]
          have := hfirst len hseg
          refine ⟨[0 + len], rfl, by simp, ?_⟩
          simp only [List.getLastD_cons, List.getLastD_nil, List.cons_append, List.nil_append,
            zero_add]
          exact this
        · have hlast : ∀ (l : List S) (x : S), (l ++ [x]).getLastD 0 = x := by
            intro l x
            rw [List.getLastD_eq_getLast?, List.getLast?_append]
            rfl
          split_ifs at hstep
          · simp only [Option.some.injEq] at hstep
            rw [← hstep, e]
            obtain ⟨y, ys, hy⟩ := List.exists_cons_of_ne_nil hne
            refine ⟨rest.dropLast ++ [((0 : S) :: rest).getLastD 0 + len], ?_, by simp, ?_⟩
            · rw [hy]; rfl
            · simp only
              have e2 : ((0 : S) :: rest).dropLast ++ [((0 : S) :: rest).getLastD 0 + len]
                  = (0 : S) :: rest.dropLast ++ [((0 : S) :: rest).getLastD 0 + len] := by
                rw [hy]; rfl
              rw [e2, hlast]
              rw [e] at hpos
              linarith
          · simp only [Option.some.injEq] at hstep
            rw [← hstep, e]
            refine ⟨rest ++ [((0 : S) :: rest).getLastD 0 + len], rfl, by simp, ?_⟩
            simp only
            rw [hlast]
            rw [e] at hpos
            linarith
end

/-! ## The ends of the curve -/

section
variable {S V : Type} [LinearOrderedField S] [AddCommGroup V] [Module S V]

theorem PiecewiseCubicCurve.segment_length_full_some (length : V → S)
    (c : PiecewiseCubicCurve S V) (i : Nat) (len : S)
    (h : c.segment_length_full length i = some len) : i + 1 < c.grid.length := by
  by_contra hi
  unfold PiecewiseCubicCurve.segment_length_full at h
  rw [List.getElem?_eq_none (by omega : c.grid.length ≤ i + 1)] at h
  split at h <;> simp_all

/-- What `_s2u` returns for the arc lengths of the first and of the last grid
time, when the last one is the greater. -/
theorem AsdfSpline.s2u_ends (length : V → S) (sp : AsdfSpline S V)
    (hs : sp.s_grid = sp.grid.map fun t => sp.t2s.curve.evaluate t) (hg : sp.grid ≠ [])
    (hlt : sp.t2s.curve.evaluate (sp.grid.headD 0) < sp.t2s.curve.evaluate (sp.grid.getLastD 0)) :
    sp.s2u length (sp.t2s.curve.evaluate (sp.grid.headD 0)) = sp.path.grid.headD 0 ∧
    sp.s2u length (sp.t2s.curve.evaluate (sp.grid.getLastD 0)) = sp.path.grid.getLastD 0 := by
  have e1 : sp.s_grid.headD 0 = sp.t2s.curve.evaluate (sp.grid.headD 0) := by
    rw [hs]
    obtain ⟨a, t, ha⟩ := List.exists_cons_of_ne_nil hg
    rw [ha]; rfl
  have e2 : sp.s_grid.getLastD 0 = sp.t2s.curve.evaluate (sp.grid.getLastD 0) := by
    rw [hs, List.getLastD_eq_getLast?, List.getLast?_map, List.getLastD_eq_getLast?,
      List.getLast?_eq_getLast _ hg]
    rfl
  constructor
  · unfold AsdfSpline.s2u
    simp only [e1, le_refl, if_true]
  · unfold AsdfSpline.s2u
    simp only [e1, e2, if_neg (not_le.mpr hlt), lt_irrefl, if_false]

/-- In exact arithmetic: when construction succeeds, the first record holds a point `p`,
`evaluate` at the first grid time is `p`, `evaluate` at the last grid time is
the point of the last record, and it is `p` when the last record is the
`CLOSED` marker. -/
theorem evaluate_at_grid_ends (sqrt : S → S) (length : V → S)
    (hnonneg : ∀ x : V, 0 ≤ length x) (hzero : ∀ x : V, length x = 0 ↔ x = 0)
    (hsqrt : sqrt 0 = 0)
    (data : List (AsdfVertex S V)) (sp : AsdfSpline S V)
    (h : AsdfSpline.construct sqrt length data = some sp) :
    ∃ p, data.head?.map (fun v => v.position) = some (Position.point p) ∧
      sp.evaluate length (sp.grid.headD 0) = p ∧
      (∀ q, data.getLast?.map (fun v => v.position) = some (Position.point q) →
        sp.evaluate length (sp.grid.getLastD 0) = q) ∧
      (data.getLast?.map (fun v => v.position) = some Position.CLOSED →
        sp.evaluate length (sp.grid.getLastD 0) = p) := by
  obtain ⟨init, init', args, h1, h2, h3, h4, h5, h6⟩ :=
    AsdfSpline.construct_stages sqrt length data sp h
  -- the path
  unfold CentripetalKochanekBartelsSpline.construct at h2
  cases hr : CentripetalKochanekBartelsSpline.init sqrt length init.vertices init.tcb
      init.closed with
  | none => rw [hr] at h2; cases h2
  | some r =>
  rw [hr] at h2
  simp only at h2
  obtain ⟨hvn, hr1, hd0⟩ :=
    CentripetalKochanekBartelsSpline.init_vertices sqrt length _ _ _ r hr
  obtain ⟨hrn, _, hrlen, hrg, hpg, _⟩ :=
    CubicHermiteSpline.hermite_construct_some r.1 r.2.1 r.2.2 sp.path h2
  have hpsl := CubicHermiteSpline.segments_length r.1 r.2.1 r.2.2 sp.path h2
  obtain ⟨hverts, hclosed, hmarker⟩ := Initializer.construct_vertices data init h1
  obtain ⟨hdn, k1, _, k3, k4, k5, _⟩ := Initializer.construct_spec data init h1
  -- the first record
  obtain ⟨d0, rest, hdata⟩ := List.exists_cons_of_ne_nil
    (by intro e; rw [e] at hdn; simp at hdn : data ≠ [])
  have hp : ∃ p, d0.position = Position.point p := by
    cases hpos : d0.position with
    | point p => exact ⟨p, rfl⟩
    | CLOSED =>
      exfalso
      have := hmarker 0 d0 (by rw [hdata]; simp) hpos
      omega
  obtain ⟨p, hp⟩ := hp
  have hv0 : init.vertices.getD 0 0 = p := by
    rw [hverts, hdata, List.filterMap_cons, hp]
    rfl
  have hr0 : ∀ j, j < 2 → r.1.getD j 0 = init.vertices.getD j 0 := by
    intro j hj
    rw [hr1]
    split_ifs
    · exact List.getD_append _ _ _ _ (by omega)
    · rfl
  -- the time-to-length spline
  have hseg_nonneg : ∀ i len, sp.path.segment_length_full length i = some len → 0 ≤ len := by
    intro i len hl
    have hi := PiecewiseCubicCurve.segment_length_full_some length sp.path i len hl
    rw [PiecewiseCubicCurve.segment_length_full_eq length sp.path i hi hpsl] at hl
    simp only [Option.some.injEq] at hl
    rw [← hl]
    refine gauss_legendre13_nonneg _ (fun x => hnonneg _) _ _ ?_
    rw [hpg] at hi ⊢
    rw [List.getD_eq_getElem _ _ (by omega : i < r.2.2.length), List.getD_eq_getElem _ _ hi]
    exact le_of_lt (pairwise_lt_getElem hrg (Nat.lt_succ_self i) hi)
  have hseg_first : ∀ len, sp.path.segment_length_full length 0 = some len → 0 < len := by
    intro len hl
    have hi := PiecewiseCubicCurve.segment_length_full_some length sp.path 0 len hl
    rw [PiecewiseCubicCurve.segment_length_full_eq length sp.path 0 hi hpsl] at hl
    simp only [Option.some.injEq] at hl
    rw [← hl]
    refine segment_length_pos length hnonneg (fun x hx => (hzero x).mp hx) _ _ _ ?_ ?_
    · rw [hpg] at hi ⊢
      rw [List.getD_eq_getElem _ _ (by omega : 0 < r.2.2.length), List.getD_eq_getElem _ _ hi]
      exact pairwise_lt_getElem hrg (Nat.lt_succ_self 0) hi
    · rw [CubicHermiteSpline.segment_getD r.1 r.2.1 r.2.2 sp.path h2 0 (by omega)]
      intro hconst
      have := hermite_segment_constant _ _ _ _ _ _ hconst
      rw [hr0 0 (by omega), hr0 1 (by omega)] at this
      apply hd0
      rw [this, (hzero 0).mpr rfl, hsqrt]
  obtain ⟨hl0, hlpos⟩ := Initializer.get_t2s_arguments_lengths length init init' sp.path args h3
    (by rw [hpg]; omega) (fun hmem => by have := (k4 0 hmem).1; omega) hseg_nonneg hseg_first
  obtain ⟨_, a2, a3, a4⟩ :=
    Initializer.get_t2s_arguments_fields length init init' sp.path args h3
  obtain ⟨_, _, slopes', _, hc⟩ :=
    MonotoneCubicSpline.monotone_construct_some args.1 args.2.1 args.2.2 sp.t2s h4
  obtain ⟨hln, _, hllen, _, _, _⟩ :=
    CubicHermiteSpline.hermite_construct_some args.1 slopes' args.2.2 sp.t2s.curve hc
  obtain ⟨hgl, hgh, hgla⟩ := Initializer.get_grid_spec init' sp.t2s sp.grid data.length h5
    (by rw [a3, a4]; exact k1) (by rw [a4]; exact k4) (by rw [a4]; exact k5)
  rw [a3, ← a2] at hgh hgla
  have hgne : sp.grid ≠ [] := by
    intro e; rw [e] at hgl; simp at hgl; omega
  have hA : sp.grid.headD 0 = args.2.2.getD 0 0 := by
    rw [List.headD_eq_head?_getD, hgh, ← List.headD_eq_head?_getD, headD_eq_getD]
  have hB : sp.grid.getLastD 0 = args.2.2.getD (args.1.length - 1) 0 := by
    rw [List.getLastD_eq_getLast?, hgla, ← List.getLastD_eq_getLast?, getLastD_eq_getD, hllen]
  have evA : sp.t2s.curve.evaluate (sp.grid.headD 0) = 0 := by
    rw [hA, CubicHermiteSpline.evaluate_grid args.1 slopes' args.2.2 sp.t2s.curve hc 0
      (by omega), ← headD_eq_getD]
    exact hl0
  have evB : 0 < sp.t2s.curve.evaluate (sp.grid.getLastD 0) := by
    rw [hB, CubicHermiteSpline.evaluate_grid args.1 slopes' args.2.2 sp.t2s.curve hc _
      (by omega), ← getLastD_eq_getD]
    exact hlpos
  obtain ⟨sA, sB⟩ := AsdfSpline.s2u_ends length sp h6 hgne (by rw [evA]; exact evB)
  -- the two ends of the path
  have pA : sp.path.evaluate (sp.path.grid.headD 0) = p := by
    rw [hpg, headD_eq_getD, CubicHermiteSpline.evaluate_grid r.1 r.2.1 r.2.2 sp.path h2 0
      (by omega), hr0 0 (by omega)]
    exact hv0
  have pB : sp.path.evaluate (sp.path.grid.getLastD 0) = r.1.getD (r.1.length - 1) 0 := by
    rw [hpg, getLastD_eq_getD, ← hrlen]
    exact CubicHermiteSpline.evaluate_grid r.1 r.2.1 r.2.2 sp.path h2 _ (by omega)
  refine ⟨p, by rw [hdata]; simp [hp], ?_, ?_, ?_⟩
  · unfold AsdfSpline.evaluate
    rw [sA]; exact pA
  · intro q hq
    unfold AsdfSpline.evaluate
    rw [sB, pB]
    obtain ⟨dl, hdl, hql⟩ := Option.map_eq_some'.mp hq
    have hopen : init.closed = false := by
      rw [hclosed, hdl]
      rcases dl with ⟨pos, t, s, tcb⟩
      simp only at hql
      subst hql
      rfl
    rw [hr1, hopen]
    simp only [Bool.false_eq_true, if_false]
    obtain ⟨front, hfront⟩ : ∃ front, data = front ++ [dl] := by
      have hne : data ≠ [] := by intro e; rw [e] at hdl; cases hdl
      refine ⟨data.dropLast, ?_⟩
      have := List.dropLast_append_getLast hne
      rw [List.getLast?_eq_getLast _ hne] at hdl
      simp only [Option.some.injEq] at hdl
      rw [hdl] at this
      exact this.symm
    have hvq : init.vertices = front.filterMap (fun v => v.position.toOption) ++ [q] := by
      rw [hverts, hfront, List.filterMap_append]
      simp [hql, Position.toOption]
    rw [hvq, List.length_append, List.length_singleton, Nat.add_sub_cancel]
    exact getD_append_singleton_last _ _ _
  · intro hq
    unfold AsdfSpline.evaluate
    rw [sB, pB]
    obtain ⟨dl, hdl, hql⟩ := Option.map_eq_some'.mp hq
    have hcl : init.closed = true := by
      rw [hclosed, hdl]
      rcases dl with ⟨pos, t, s, tcb⟩
      simp only at hql
      subst hql
      rfl
    rw [hr1, hcl]
    simp only [if_true]
    rw [List.length_append, List.length_singleton, Nat.add_sub_cancel,
      getD_append_singleton_last]
    exact hv0

theorem evaluate_at_grid_ends_witness :
    ((∀ x : ℚ, 0 ≤ abs_length x) ∧ (∀ x : ℚ, abs_length x = 0 ↔ x = 0) ∧ sqrtQ 0 = 0 ∧
      AsdfSpline.construct sqrtQ abs_length line_data = some line_spline) ∧
    ∃ p, line_data.head?.map (fun v => v.position) = some (Position.point p) ∧
      line_spline.evaluate abs_length (line_spline.grid.headD 0) = p ∧
      (∀ q, line_data.getLast?.map (fun v => v.position) = some (Position.point q) →
        line_spline.evaluate abs_length (line_spline.grid.getLastD 0) = q) ∧
      (line_data.getLast?.map (fun v => v.position) = some Position.CLOSED →
        line_spline.evaluate abs_length (line_spline.grid.getLastD 0) = p) :=
  have hnonneg : ∀ x : ℚ, 0 ≤ abs_length x := fun x => abs_nonneg x
  have hzero : ∀ x : ℚ, abs_length x = 0 ↔ x = 0 := fun _ => abs_eq_zero
  ⟨⟨hnonneg, hzero, by decide!, by decide!⟩,
    evaluate_at_grid_ends sqrtQ abs_length hnonneg hzero (by decide!) line_data line_spline
      (by decide!)⟩
end

/-! ## The exact square root on rationals -/

theorem sqrt_search_spec (n : Nat) : ∀ (fuel lo hi : Nat), lo * lo ≤ n → n < hi * hi →
    hi ≤ lo + fuel + 1 →
    sqrt_search n fuel lo hi * sqrt_search n fuel lo hi ≤ n ∧
      n < (sqrt_search n fuel lo hi + 1) * (sqrt_search n fuel lo hi + 1) := by
  intro fuel
  induction fuel with
  | zero =>
    intro lo hi h1 h2 h3
    have hlt : lo < hi := by
      by_contra hc
      have : hi * hi ≤ lo * lo := Nat.mul_le_mul (by omega) (by omega)
      omega
    have : hi = lo + 1 := by omega
    subst this
    exact ⟨h1, h2⟩
  | succ fuel ih =>
    intro lo hi h1 h2 h3
    have hlt : lo < hi := by
      by_contra hc
      have : hi * hi ≤ lo * lo := Nat.mul_le_mul (by omega) (by omega)
      omega
    rw [sqrt_search]
    by_cases hc : hi ≤ lo + 1
    · rw [if_pos hc]
      have : hi = lo + 1 := by omega
      subst this
      exact ⟨h1, h2⟩
    · rw [if_neg hc]
      simp only
      by_cases hm : (lo + hi) / 2 * ((lo + hi) / 2) ≤ n
      · rw [if_pos hm]
        exact ih _ _ hm h2 (by omega)
      · rw [if_neg hm]
        exact ih _ _ h1 (by omega) (by omega)

/-- The search finds the integer square root. -/
theorem natSqrt_eq_sqrt (n : Nat) : natSqrt n = Nat.sqrt n := by
  have h := sqrt_search_spec n n 0 (n + 1) (by omega) (by nlinarith) (by omega)
  exact Nat.eq_sqrt.mpr h

theorem sqrtQ_eq_sqrt (q : ℚ) : sqrtQ q = Rat.sqrt q := by
  unfold sqrtQ Rat.sqrt Int.sqrt
  rw [natSqrt_eq_sqrt, natSqrt_eq_sqrt]

/-- The square root is exact on the square of a rational. -/
theorem sqrtQ_mul_self (q : ℚ) : sqrtQ (q * q) = |q| := by
  rw [sqrtQ_eq_sqrt, Rat.sqrt_eq]

/-- The length of a vector on the first axis is exact. -/
theorem lengthQ_axis (x : ℚ) : lengthQ (x, 0, 0) = |x| := by
  unfold lengthQ
  simp only [mul_zero, add_zero]
  exact sqrtQ_mul_self x


/-! ## bisect: range and number of evaluations -/

section
variable {S : Type} [LinearOrderedField S]

/-- The loop of `bisect` returns a point of the bracket it was entered with. -/
theorem bisect_loop_range (f : S → S) (xtol lo hi : S) :
    ∀ (n calls : Nat) (xmin xmax fmin fmax : S), lo ≤ xmin → xmin ≤ xmax → xmax ≤ hi →
      lo ≤ (bisect_loop f xtol n calls xmin xmax fmin fmax).result ∧
      (bisect_loop f xtol n calls xmin xmax fmin fmax).result ≤ hi := by
  intro n
  induction n with
  | zero =>
    intro calls xmin xmax fmin fmax h1 h2 h3
    rw [bisect_loop]
    by_cases hc : |fmin| < |fmax|
    · simp only [if_pos hc]
      exact ⟨h1, by linarith⟩
    · simp only [if_neg hc]
      exact ⟨by linarith, h3⟩
  | succ n ih =>
    intro calls xmin xmax fmin fmax h1 h2 h3
    have hm1 : xmin ≤ (xmin + xmax) / 2 := by linarith
    have hm2 : (xmin + xmax) / 2 ≤ xmax := by linarith
    rw [bisect_loop]
    by_cases hw : xmax - xmin > xtol
    · rw [if_pos hw]
      simp only
      by_cases hmid : (xmin + xmax) / 2 = xmin ∨ (xmin + xmax) / 2 = xmax
      · rw [if_pos hmid]
        exact ⟨by simp only; linarith, by simp only; linarith⟩
      · rw [if_neg hmid]
        by_cases hz : f ((xmin + xmax) / 2) = 0
        · rw [if_pos hz]
          exact ⟨by simp only; linarith, by simp only; linarith⟩
        · rw [if_neg hz]
          by_cases hs : fmin * f ((xmin + xmax) / 2) < 0
          · rw [if_pos hs]
            exact ih (calls + 1) xmin ((xmin + xmax) / 2) fmin
              (f ((xmin + xmax) / 2)) h1 hm1 (by linarith)
          · rw [if_neg hs]
            exact ih (calls + 1) ((xmin + xmax) / 2) xmax
              (f ((xmin + xmax) / 2)) fmax (by linarith) hm2 h3
    · rw [if_neg hw]
      by_cases hc : |fmin| < |fmax|
      · simp only [if_pos hc]
        exact ⟨h1, by linarith⟩
      · simp only [if_neg hc]
        exact ⟨by linarith, h3⟩

/-- The loop of `bisect` makes at most as many evaluations as the unsigned
difference `max_calls - calls` it was entered with. -/
theorem bisect_loop_calls (f : S → S) (xtol : S) :
    ∀ (n calls : Nat) (xmin xmax fmin fmax : S),
      calls ≤ (bisect_loop f xtol n calls xmin xmax fmin fmax).calls ∧
      (bisect_loop f xtol n calls xmin xmax fmin fmax).calls ≤ calls + n := by
  intro n
  induction n with
  | zero =>
    intro calls xmin xmax fmin fmax
    rw [bisect_loop]
    exact ⟨le_refl _, le_refl _⟩
  | succ n ih =>
    intro calls xmin xmax fmin fmax
    rw [bisect_loop]
    by_cases hw : xmax - xmin > xtol
    · rw [if_pos hw]
      simp only
      by_cases hmid : (xmin + xmax) / 2 = xmin ∨ (xmin + xmax) / 2 = xmax
      · rw [if_pos hmid]
        exact ⟨le_refl _, by simp only; omega⟩
      · rw [if_neg hmid]
        by_cases hz : f ((xmin + xmax) / 2) = 0
        · rw [if_pos hz]
          exact ⟨by simp only; omega, by simp only; omega⟩
        · rw [if_neg hz]
          by_cases hs : fmin * f ((xmin + xmax) / 2) < 0
          · rw [if_pos hs]
            obtain ⟨c, d⟩ := ih (calls + 1) xmin ((xmin + xmax) / 2) fmin
              (f ((xmin + xmax) / 2))
            exact ⟨by omega, by omega⟩
          · rw [if_neg hs]
            obtain ⟨c, d⟩ := ih (calls + 1) ((xmin + xmax) / 2) xmax
              (f ((xmin + xmax) / 2)) fmax
            exact ⟨by omega, by omega⟩
    · rw [if_neg hw]
      exact ⟨le_refl _, by simp only; omega⟩

/-- In exact arithmetic, where the sum `xmin + xmax` does not overflow: for
`lo <= hi`, whatever the function, tolerance and budget, `bisect`
returns a value between `lo` and `hi`. -/
theorem bisect_in_bracket (f : S → S) (lo hi xtol : S) (max_calls : Nat) (hle : lo ≤ hi) :
    lo ≤ bisect f lo hi xtol max_calls ∧ bisect f lo hi xtol max_calls ≤ hi := by
  unfold bisect bisect_run
  simp only
  by_cases h1 : f lo = 0
  · rw [if_pos h1]
    exact ⟨le_refl _, hle⟩
  · rw [if_neg h1]
    by_cases h2 : f hi = 0
    · rw [if_pos h2]
      exact ⟨hle, le_refl _⟩
    · rw [if_neg h2]
      by_cases h3 : f lo * f hi < 0
      · rw [if_pos h3]
        exact bisect_loop_range f xtol lo hi
          ((max_calls + 2 ^ 64 - 2) % 2 ^ 64) 2 lo hi (f lo) (f hi) (le_refl _) hle (le_refl _)
      · rw [if_neg h3]
        by_cases hc : |f lo| < |f hi|
        · simp only [if_pos hc]
          exact ⟨le_refl _, hle⟩
        · simp only [if_neg hc]
          exact ⟨hle, le_refl _⟩

theorem bisect_in_bracket_witness :
    (0 : ℚ) ≤ 1 ∧
      ((0 : ℚ) ≤ bisect zigzag 0 1 (1 / 4) 0 ∧ bisect zigzag 0 1 (1 / 4) 0 ≤ 1) :=
  ⟨by norm_num, bisect_in_bracket zigzag 0 1 (1 / 4) 0 (by norm_num)⟩

/-- C12 (as amended): with a budget `max_calls` of at least two, `bisect`
makes at least one and at most `max_calls` evaluations of `f`. -/
theorem bisect_calls_le (f : S → S) (lo hi xtol : S) (max_calls : Nat)
    (h2 : 2 ≤ max_calls) (hb : max_calls < 2 ^ 64) :
    1 ≤ (bisect_run f lo hi xtol max_calls).calls ∧
      (bisect_run f lo hi xtol max_calls).calls ≤ max_calls := by
  unfold bisect_run
  simp only
  by_cases h1 : f lo = 0
  · rw [if_pos h1]
    exact ⟨le_refl _, by simp only; omega⟩
  · rw [if_neg h1]
    by_cases h2' : f hi = 0
    · rw [if_pos h2']
      exact ⟨by simp, h2⟩
    · rw [if_neg h2']
      by_cases h3 : f lo * f hi < 0
      · rw [if_pos h3]
        obtain ⟨c, d⟩ := bisect_loop_calls f xtol
          ((max_calls + 2 ^ 64 - 2) % 2 ^ 64) 2 lo hi (f lo) (f hi)
        refine ⟨by omega, le_trans d ?_⟩
        norm_num at hb ⊢
        omega
      · rw [if_neg h3]
        exact ⟨by simp, h2⟩

theorem bisect_calls_le_witness :
    (2 ≤ 500 ∧ 500 < 2 ^ 64) ∧
      (1 ≤ (bisect_run third_line 0 1 (1 / 10000) 500).calls ∧
        (bisect_run third_line 0 1 (1 / 10000) 500).calls ≤ 500) :=
  ⟨⟨by norm_num, by norm_num⟩,
    bisect_calls_le third_line 0 1 (1 / 10000) 500 (by norm_num) (by norm_num)⟩

/-- C12 (as stated) fails: with a budget of one evaluation `bisect` makes
sixteen on `third_line`, and with a budget of zero it makes one on `half_line`
shifted to have its root at the lower bound. -/
theorem bisect_calls_counterexample :
    (bisect_run third_line 0 1 (1 / 10000) 1).calls = 16 ∧
      (bisect_run half_line (1 / 2) 1 (1 / 10000) 0).calls = 1 := by
  decide!
end

/-! ## CubicHermiteSpline: constructor checks and interpolation -/

section
variable {S : Type} [LinearOrderedField S]

theorem has_adjacent_ge_iff (g : List S) :
    has_adjacent_ge g = true ↔ ∃ i, i + 1 < g.length ∧ g.getD (i + 1) 0 ≤ g.getD i 0 := by
  induction g with
  | nil => simp [has_adjacent_ge]
  | cons a t ih =>
    cases t with
    | nil => simp [has_adjacent_ge]
    | cons b rest =>
      rw [has_adjacent_ge, Bool.or_eq_true, ih]
      simp only [ge_iff_le, decide_eq_true_eq]
      constructor
      · rintro (h | ⟨i, hi, hle⟩)
        · exact ⟨0, by simp, by simpa using h⟩
        · exact ⟨i + 1, by simpa using hi, by simpa using hle⟩
      · rintro ⟨i, hi, hle⟩
        cases i with
        | zero => left; simpa using hle
        | succ i =>
          right
          exact ⟨i, by simpa using hi, by simpa using hle⟩
end

section
variable {S V : Type} [LinearOrderedField S] [AddCommGroup V] [Module S V]

/-- When the `CubicHermiteSpline` constructor throws. -/
theorem CubicHermiteSpline.hermite_construct_none_iff (vertices tangents : List V)
    (grid : List S) :
    CubicHermiteSpline.construct vertices tangents grid = none ↔
      (vertices.length < 2 ∨ tangents.length ≠ 2 * (vertices.length - 1) ∨
        grid.length ≠ vertices.length ∨
        ∃ i, i + 1 < grid.length ∧ grid.getD (i + 1) 0 ≤ grid.getD i 0) := by
  unfold CubicHermiteSpline.construct
  by_cases h1 : vertices.length < 2
  · simp only [if_pos h1, true_iff]
    exact Or.inl h1
  rw [if_neg h1]
  by_cases h2 : tangents.length ≠ 2 * (vertices.length - 1)
  · simp only [if_pos h2, true_iff]
    exact Or.inr (Or.inl h2)
  simp only [if_neg h2]
  by_cases h3 : vertices.length ≠ grid.length
  · simp only [if_pos h3, true_iff]
    exact Or.inr (Or.inr (Or.inl (Ne.symm h3)))
  rw [if_neg h3]
  by_cases h4 : has_adjacent_ge grid = true
  · simp only [if_pos h4, true_iff]
    exact Or.inr (Or.inr (Or.inr ((has_adjacent_ge_iff grid).mp h4)))
  rw [if_neg h4]
  simp only [reduceCtorEq, false_iff]
  rintro (h | h | h | h)
  · exact h1 h
  · exact h2 h
  · exact h3 (Ne.symm h)
  · exact h4 ((has_adjacent_ge_iff grid).mpr h)

/-- C15: the `CubicHermiteSpline` constructor throws exactly when there are
fewer than two vertices, or the number of tangents is not twice the number of
segments, or the grid has another length than the vertices, or some grid value
is not smaller than its successor; otherwise the curve has one segment less
than there are vertices, and the given grid. -/
theorem hermite_construct_fails_iff (vertices tangents : List V) (grid : List S) :
    (CubicHermiteSpline.construct vertices tangents grid = none ↔
      (vertices.length < 2 ∨ tangents.length ≠ 2 * (vertices.length - 1) ∨
        grid.length ≠ vertices.length ∨
        ∃ i, i + 1 < grid.length ∧ grid.getD (i + 1) 0 ≤ grid.getD i 0)) ∧
    (∀ c, CubicHermiteSpline.construct vertices tangents grid = some c →
      c.segments.length = vertices.length - 1 ∧ c.grid = grid) := by
  constructor
  · exact CubicHermiteSpline.hermite_construct_none_iff vertices tangents grid
  · intro c hc
    obtain ⟨_, _, _, _, hg, hseg⟩ :=
      CubicHermiteSpline.hermite_construct_some vertices tangents grid c hc
    rw [hseg, List.length_map, List.length_range]
    exact ⟨rfl, hg⟩

theorem hermite_segment_ends (x0 x1 v0 v1 : V) (t0 t1 : S) :
    (hermite_segment x0 x1 v0 v1 t0 t1).eval (0 : S) = x0 ∧
      (hermite_segment x0 x1 v0 v1 t0 t1).eval (1 : S) = x1 := by
  constructor
  · simp only [Segment.eval, hermite_segment, zero_smul, zero_add]
  · simp only [Segment.eval, hermite_segment, one_smul]
    module

/-- In exact arithmetic: a constructed Hermite spline passes through `vertices[i]` at
`grid[i]`, its velocity there is the outgoing tangent `tangents[2 i]`, at the
last grid value the incoming tangent `tangents[2 (n - 1) - 1]`, and every
segment starts at its left vertex and ends at its right vertex, so that
consecutive segments meet. -/
theorem hermite_interpolates (vertices tangents : List V) (grid : List S)
    (c : PiecewiseCubicCurve S V)
    (h : CubicHermiteSpline.construct vertices tangents grid = some c) :
    (∀ i, i < vertices.length → c.evaluate (grid.getD i 0) = vertices.getD i 0) ∧
    (∀ i, i + 1 < vertices.length →
      c.evaluate_velocity (grid.getD i 0) = tangents.getD (2 * i) 0) ∧
    c.evaluate_velocity (grid.getD (vertices.length - 1) 0)
      = tangents.getD (2 * (vertices.length - 1) - 1) 0 ∧
    (∀ i, i + 1 < vertices.length →
      (c.segments.getD i default).eval (0 : S) = vertices.getD i 0 ∧
      (c.segments.getD i default).eval (1 : S) = vertices.getD (i + 1) 0) := by
  obtain ⟨hn, _, _, _, _, _⟩ :=
    CubicHermiteSpline.hermite_construct_some vertices tangents grid c h
  refine ⟨fun i hi => CubicHermiteSpline.evaluate_grid vertices tangents grid c h i hi,
    fun i hi => ?_, ?_, fun i hi => ?_⟩
  · rw [CubicHermiteSpline.evaluate_velocity_grid vertices tangents grid c h i (by omega),
      if_pos hi]
  · rw [CubicHermiteSpline.evaluate_velocity_grid vertices tangents grid c h _ (by omega),
      if_neg (by omega)]
  · rw [CubicHermiteSpline.segment_getD vertices tangents grid c h i hi]
    exact hermite_segment_ends _ _ _ _ _ _

theorem hermite_interpolates_witness :
    CubicHermiteSpline.construct [(0 : ℚ), 1, 3] [1, 2, 2, 0] [(0 : ℚ), 1, 2]
      = some sample_hermite ∧
    ((∀ i, i < [(0 : ℚ), 1, 3].length →
        sample_hermite.evaluate ([(0 : ℚ), 1, 2].getD i 0) = [(0 : ℚ), 1, 3].getD i 0) ∧
    (∀ i, i + 1 < [(0 : ℚ), 1, 3].length →
      sample_hermite.evaluate_velocity ([(0 : ℚ), 1, 2].getD i 0)
        = [(1 : ℚ), 2, 2, 0].getD (2 * i) 0) ∧
    sample_hermite.evaluate_velocity ([(0 : ℚ), 1, 2].getD ([(0 : ℚ), 1, 3].length - 1) 0)
      = [(1 : ℚ), 2, 2, 0].getD (2 * ([(0 : ℚ), 1, 3].length - 1) - 1) 0 ∧
    (∀ i, i + 1 < [(0 : ℚ), 1, 3].length →
      (sample_hermite.segments.getD i default).eval (0 : ℚ) = [(0 : ℚ), 1, 3].getD i 0 ∧
      (sample_hermite.segments.getD i default).eval (1 : ℚ) = [(0 : ℚ), 1, 3].getD (i + 1) 0)) :=
  ⟨by decide!, hermite_interpolates [(0 : ℚ), 1, 3] [1, 2, 2, 0] [(0 : ℚ), 1, 2]
    sample_hermite (by decide!)⟩
end

/-! ## PiecewiseCubicCurve: queries are clamped into the grid -/

section
variable {S V : Type} [LinearOrderedField S] [AddCommGroup V] [Module S V]

omit [Module S V] in
/-- The values `_get_segment_and_trim` returns are the ones at its index. -/
theorem PiecewiseCubicCurve.get_segment_and_trim_index (c : PiecewiseCubicCurve S V) (t : S) :
    (c.get_segment_and_trim t).2 =
      (c.grid.getD (c.get_segment_index t) 0, c.grid.getD (c.get_segment_index t + 1) 0,
        c.segments.getD (c.get_segment_index t) default) := by
  unfold PiecewiseCubicCurve.get_segment_and_trim PiecewiseCubicCurve.get_segment_index
  by_cases c1 : t < c.grid.headD 0
  · simp only [if_pos c1]
  · simp only [if_neg c1]
    by_cases c2 : t < c.grid.getLastD 0
    · simp only [if_pos c2]
    · simp only [if_neg c2]
      by_cases c3 : t = c.grid.getLastD 0
      · simp only [if_pos c3]
      · simp only [if_neg c3]

end

/-! ## Segment lengths over adjacent intervals -/

section
variable {S : Type} [LinearOrderedField S]

theorem gl_times_range :
    ∀ p ∈ List.zip (gl_times : List S) (gl_weights : List S), -1 ≤ p.1 ∧ p.1 ≤ 1 := by
  intro p hp
  simp only [gl_times, gl_weights, List.zip_cons_cons, List.zip_nil_right, List.mem_cons,
    List.mem_singleton, List.not_mem_nil, or_false] at hp
  rcases hp with h | h | h | h | h | h | h | h | h | h | h | h | h <;> rw [h] <;>
    constructor <;> norm_num

theorem gl_foldl_congr (g h : S → S) :
    ∀ (l : List (S × S)), (∀ p ∈ l, g p.1 = h p.1) → ∀ init : S,
      l.foldl (fun r tw => r + tw.2 * g tw.1) init
        = l.foldl (fun r tw => r + tw.2 * h tw.1) init := by
  intro l
  induction l with
  | nil => intro _ _; rfl
  | cons p t ih =>
    intro hw init
    rw [List.foldl_cons, List.foldl_cons, hw p (List.mem_cons_self _ _)]
    exact ih (fun q hq => hw q (List.mem_cons_of_mem _ hq)) _

/-- The Gauss-Legendre sum over `a <= b` only looks at the function between
`a` and `b`. -/
theorem gauss_legendre13_congr (f g : S → S) (a b : S) (hab : a ≤ b)
    (h : ∀ t, a ≤ t → t ≤ b → f t = g t) :
    gauss_legendre13 f a b = gauss_legendre13 g a b := by
  unfold gauss_legendre13
  have := gl_foldl_congr (fun τ => f ((b - a) * τ / 2 + (a + b) / 2))
    (fun τ => g ((b - a) * τ / 2 + (a + b) / 2)) (List.zip gl_times gl_weights)
    (fun p hp => by
      obtain ⟨h1, h2⟩ := gl_times_range p hp
      have hd : 0 ≤ b - a := sub_nonneg.mpr hab
      have e1 : 0 ≤ (b - a) * (p.1 + 1) := mul_nonneg hd (by linarith)
      have e2 : 0 ≤ (b - a) * (1 - p.1) := mul_nonneg hd (by linarith)
      exact h _ (by linarith) (by linarith)) 0
  simp only at this
  rw [this]

/-- The Gauss-Legendre sums of an affine function over adjacent intervals add
up. -/
theorem gauss_legendre13_affine_add (α β a b c : S) :
    gauss_legendre13 (fun t => α + β * t) a b + gauss_legendre13 (fun t => α + β * t) b c
      = gauss_legendre13 (fun t => α + β * t) a c := by
  simp only [gauss_legendre13, gl_times, gl_weights, List.zip_cons_cons, List.zip_nil_right,
    List.foldl_cons, List.foldl_nil]
  ring
end

section
variable {S V : Type} [LinearOrderedField S] [AddCommGroup V] [Module S V]

/-- In exact arithmetic: when the speed on segment `i` is an affine function of
`t` between `t0` and `t2` (a constant speed, for one), then for
`t0 <= t1 <= t2` the sums `segment_length(i, t0, t1)` and
`segment_length(i, t1, t2)` add up to `segment_length(i, t0, t2)`. -/
theorem segment_length_additive (length : V → S) (c : PiecewiseCubicCurve S V) (i : Nat)
    (coeffs : Segment V) (g0 g1 t0 t1 t2 α β : S)
    (hseg : c.segments[i]? = some coeffs) (hg0 : c.grid[i]? = some g0)
    (hg1 : c.grid[i + 1]? = some g1) (h01 : t0 ≤ t1) (h12 : t1 ≤ t2)
    (haff : ∀ t, t0 ≤ t → t ≤ t2 → length (segment_velocity g0 g1 coeffs t) = α + β * t) :
    ∃ l01 l12 l02 : S, c.segment_length length i t0 t1 = some l01 ∧
      c.segment_length length i t1 t2 = some l12 ∧
      c.segment_length length i t0 t2 = some l02 ∧ l01 + l12 = l02 := by
  refine ⟨gauss_legendre13 (fun t => length (segment_velocity g0 g1 coeffs t)) t0 t1,
    gauss_legendre13 (fun t => length (segment_velocity g0 g1 coeffs t)) t1 t2,
    gauss_legendre13 (fun t => length (segment_velocity g0 g1 coeffs t)) t0 t2, ?_, ?_, ?_, ?_⟩
  · simp only [PiecewiseCubicCurve.segment_length, hseg, hg0, hg1]
  · simp only [PiecewiseCubicCurve.segment_length, hseg, hg0, hg1]
  · simp only [PiecewiseCubicCurve.segment_length, hseg, hg0, hg1]
  · rw [gauss_legendre13_congr _ (fun t => α + β * t) t0 t1 h01
        (fun t h1 h2 => haff t h1 (le_trans h2 h12)),
      gauss_legendre13_congr _ (fun t => α + β * t) t1 t2 h12
        (fun t h1 h2 => haff t (le_trans h01 h1) h2),
      gauss_legendre13_congr _ (fun t => α + β * t) t0 t2 (le_trans h01 h12) haff]
    exact gauss_legendre13_affine_add α β t0 t1 t2

theorem segment_length_additive_witness :
    (kink_curve.segments[0]? = some ⟨0, -1, 1, 0⟩ ∧ kink_curve.grid[0]? = some 0 ∧
      kink_curve.grid[0 + 1]? = some 1 ∧ (1 / 2 : ℚ) ≤ 3 / 4 ∧ (3 / 4 : ℚ) ≤ 1 ∧
      ∀ t : ℚ, 1 / 2 ≤ t → t ≤ 1 →
        abs_length (segment_velocity 0 1 (⟨0, -1, 1, 0⟩ : Segment ℚ) t) = -1 + 2 * t) ∧
    ∃ l01 l12 l02 : ℚ, kink_curve.segment_length abs_length 0 (1 / 2) (3 / 4) = some l01 ∧
      kink_curve.segment_length abs_length 0 (3 / 4) 1 = some l12 ∧
      kink_curve.segment_length abs_length 0 (1 / 2) 1 = some l02 ∧ l01 + l12 = l02 :=
  have haff : ∀ t : ℚ, 1 / 2 ≤ t → t ≤ 1 →
      abs_length (segment_velocity 0 1 (⟨0, -1, 1, 0⟩ : Segment ℚ) t) = -1 + 2 * t := by
    intro t h1 _
    simp only [abs_length, segment_velocity, smul_eq_mul]
    rw [abs_of_nonneg (by norm_num; linarith)]
    norm_num
    ring
  ⟨⟨by decide!, by decide!, by decide!, by norm_num, by norm_num, haff⟩,
    segment_length_additive abs_length kink_curve 0 ⟨0, -1, 1, 0⟩ 0 1 (1 / 2) (3 / 4) 1 (-1) 2
      (by decide!) (by decide!) (by decide!) (by norm_num) (by norm_num) haff⟩

end

section
variable {α : Type}

/-- A loop whose steps all succeed on states satisfying the invariant returns a
state that satisfies it. -/
theorem foldlM_range_some (f : α → Nat → Option α) (Inv : Nat → α → Prop) (init : α)
    (n : Nat) (h0 : Inv 0 init)
    (hstep : ∀ k s, k < n → Inv k s → ∃ s', f s k = some s' ∧ Inv (k + 1) s') :
    ∃ s, (List.range n).foldlM f init = some s ∧ Inv n s := by
  induction n with
  | zero => exact ⟨init, by simp [List.foldlM], h0⟩
  | succ n ih =>
    obtain ⟨s0, hs0, hinv⟩ := ih (fun k s hk => hstep k s (Nat.lt_succ_of_lt hk))
    obtain ⟨s', hs', hinv'⟩ := hstep n s0 (Nat.lt_succ_self n) hinv
    refine ⟨s', ?_, hinv'⟩
    rw [foldlM_range_succ, hs0]
    exact hs'

/-- An invariant of a loop that cannot throw. -/
theorem foldl_range_inv (f : α → Nat → α) (Inv : Nat → α → Prop) (init : α)
    (n : Nat) (h0 : Inv 0 init)
    (hstep : ∀ k s, k < n → Inv k s → Inv (k + 1) (f s k)) :
    Inv n ((List.range n).foldl f init) := by
  induction n with
  | zero => exact h0
  | succ n ih =>
    rw [List.range_succ, List.foldl_append]
    exact hstep n _ (Nat.lt_succ_self n) (ih (fun k s hk => hstep k s (Nat.lt_succ_of_lt hk)))

theorem getD_append_left_of_lt (l m : List α) (d : α) {i : Nat} (h : i < l.length) :
    (l ++ m).getD i d = l.getD i d := by
  rw [List.getD_eq_getElem?_getD, List.getD_eq_getElem?_getD, List.getElem?_append_left h]

theorem getD_dropLast_of_lt (l : List α) (d : α) {i : Nat} (h : i + 1 < l.length) :
    l.dropLast.getD i d = l.getD i d := by
  rw [List.getD_eq_getElem?_getD, List.getD_eq_getElem?_getD, List.dropLast_eq_take,
    List.getElem?_take_of_lt (by omega)]
end

section
variable {S V : Type} [LinearOrderedField S] [AddCommGroup V] [Module S V]

omit [Module S V] in
/-- The grid loop of `_init` succeeds when no step is zero; the grid it returns. -/
theorem centripetal_grid_inv (sqrt : S → S) (length : V → S) (vertices : List V) :
    (∀ i, i + 1 < vertices.length →
      sqrt (length (vertices.getD (i + 1) 0 - vertices.getD i 0)) ≠ 0) →
    ∃ grid, centripetal_grid sqrt length vertices = some grid ∧
      grid.length = vertices.length - 1 + 1 ∧ grid.getD 0 0 = 0 ∧
      ∀ j, j < vertices.length - 1 → grid.getD (j + 1) 0
        = grid.getD j 0 + sqrt (length (vertices.getD (j + 1) 0 - vertices.getD j 0)) := by
  intro hne
  unfold centripetal_grid
  refine foldlM_range_some _
    (fun k grid => grid.length = k + 1 ∧ grid.getD 0 0 = 0 ∧
      ∀ j, j < k → grid.getD (j + 1) 0
        = grid.getD j 0 + sqrt (length (vertices.getD (j + 1) 0 - vertices.getD j 0)))
    [0] _ ⟨rfl, rfl, fun j hj => absurd hj (Nat.not_lt_zero j)⟩ ?_
  intro k s hk ⟨hlen, h0, hrel⟩
  simp only [if_neg (hne k (by omega))]
  refine ⟨_, rfl, ?_, ?_, ?_⟩
  · rw [List.length_append, hlen]; rfl
  · rw [getD_append_left_of_lt _ _ _ (by omega)]; exact h0
  · intro j hj
    rcases Nat.lt_succ_iff_lt_or_eq.mp hj with hlt | heq
    · rw [getD_append_left_of_lt _ _ _ (by omega), getD_append_left_of_lt _ _ _ (by omega)]
      exact hrel j hlt
    · subst heq
      have e : j + 1 = s.length := hlen.symm
      rw [e, getD_append_singleton_last, getD_append_left_of_lt _ _ _ (by omega),
        getLastD_eq_getD, hlen, Nat.add_sub_cancel]

omit [Module S V] in
/-- The grid loop of `_init` throws when a step is zero. -/
theorem centripetal_grid_none (sqrt : S → S) (length : V → S) (vertices : List V) (i : Nat)
    (hi : i + 1 < vertices.length)
    (hz : sqrt (length (vertices.getD (i + 1) 0 - vertices.getD i 0)) = 0) :
    centripetal_grid sqrt length vertices = none := by
  unfold centripetal_grid
  refine foldlM_range_none _ (fun _ _ => True) [0] _ i (by omega) trivial
    (fun _ _ _ _ _ _ => trivial) (fun s _ => ?_)
  simp only [if_pos hz]

/-- The tangents after the loop of `_init` over the inner vertices: the
placeholder, then an incoming and an outgoing tangent per inner vertex. -/
theorem inner_tangents_spec (vertices : List V) (grid : List S) (tcb : List (S × S × S))
    (closed : Bool) :
    (inner_tangents vertices grid tcb closed).length = 1 + 2 * (vertices.length - 2) ∧
    ∀ j, j < vertices.length - 2 →
      (inner_tangents vertices grid tcb closed).getD (2 * j + 1) 0
        = (calculate_tangents (vertices.getD j 0) (vertices.getD (j + 1) 0)
            (vertices.getD (j + 2) 0) (grid.getD j 0) (grid.getD (j + 1) 0)
            (grid.getD (j + 2) 0) (tcb.getD ((j + closed.toNat) % tcb.length) (0, 0, 0))).1 ∧
      (inner_tangents vertices grid tcb closed).getD (2 * j + 2) 0
        = (calculate_tangents (vertices.getD j 0) (vertices.getD (j + 1) 0)
            (vertices.getD (j + 2) 0) (grid.getD j 0) (grid.getD (j + 1) 0)
            (grid.getD (j + 2) 0) (tcb.getD ((j + closed.toNat) % tcb.length) (0, 0, 0))).2 := by
  unfold inner_tangents
  refine foldl_range_inv _
    (fun k (tangents : List V) => tangents.length = 1 + 2 * k ∧
      ∀ j, j < k →
        tangents.getD (2 * j + 1) 0
          = (calculate_tangents (vertices.getD j 0) (vertices.getD (j + 1) 0)
              (vertices.getD (j + 2) 0) (grid.getD j 0) (grid.getD (j + 1) 0)
              (grid.getD (j + 2) 0) (tcb.getD ((j + closed.toNat) % tcb.length) (0, 0, 0))).1 ∧
        tangents.getD (2 * j + 2) 0
          = (calculate_tangents (vertices.getD j 0) (vertices.getD (j + 1) 0)
              (vertices.getD (j + 2) 0) (grid.getD j 0) (grid.getD (j + 1) 0)
              (grid.getD (j + 2) 0) (tcb.getD ((j + closed.toNat) % tcb.length) (0, 0, 0))).2)
    [0] _ ⟨rfl, fun j hj => absurd hj (Nat.not_lt_zero j)⟩ ?_
  intro k s hk ⟨hlen, hrel⟩
  refine ⟨?_, ?_⟩
  · rw [List.length_append, hlen]; simp only [List.length_cons, List.length_nil]; omega
  · intro j hj
    rcases Nat.lt_succ_iff_lt_or_eq.mp hj with hlt | heq
    · rw [getD_append_left_of_lt _ _ _ (by omega), getD_append_left_of_lt _ _ _ (by omega)]
      exact hrel j hlt
    · subst heq
      have e1 : 2 * j + 1 = s.length := by omega
      have e2 : 2 * j + 2 = s.length + 1 := by omega
      constructor
      · rw [e1, List.getD_append_right _ _ _ _ (le_refl _), Nat.sub_self]
        rfl
      · rw [e2, List.getD_append_right _ _ _ _ (by omega), Nat.add_sub_cancel_left]
        rfl
end
section
variable {S V : Type} [LinearOrderedField S] [AddCommGroup V] [Module S V]

omit [Module S V] in
/-- When the grid loop of `_init` throws. -/
theorem centripetal_grid_eq_none_iff (sqrt : S → S) (length : V → S) (vertices : List V) :
    centripetal_grid sqrt length vertices = none ↔
      ∃ i, i + 1 < vertices.length ∧
        sqrt (length (vertices.getD (i + 1) 0 - vertices.getD i 0)) = 0 := by
  constructor
  · intro h
    by_contra hc
    push_neg at hc
    obtain ⟨g, hg, _⟩ := centripetal_grid_inv sqrt length vertices hc
    rw [h] at hg
    cases hg
  · rintro ⟨i, hi, hz⟩
    exact centripetal_grid_none sqrt length vertices i hi hz

omit [Module S V] in
/-- The grid that the loop of `_init` returns. -/
theorem centripetal_grid_some (sqrt : S → S) (length : V → S) (vertices : List V)
    (grid : List S) (h : centripetal_grid sqrt length vertices = some grid) :
    (∀ i, i + 1 < vertices.length →
      sqrt (length (vertices.getD (i + 1) 0 - vertices.getD i 0)) ≠ 0) ∧
    grid.length = vertices.length - 1 + 1 ∧ grid.getD 0 0 = 0 ∧
    ∀ j, j < vertices.length - 1 → grid.getD (j + 1) 0
      = grid.getD j 0 + sqrt (length (vertices.getD (j + 1) 0 - vertices.getD j 0)) := by
  have hne : ∀ i, i + 1 < vertices.length →
      sqrt (length (vertices.getD (i + 1) 0 - vertices.getD i 0)) ≠ 0 := by
    intro i hi hz
    rw [centripetal_grid_none sqrt length vertices i hi hz] at h
    cases h
  obtain ⟨g, hg, hrest⟩ := centripetal_grid_inv sqrt length vertices hne
  rw [h] at hg
  cases hg
  exact ⟨hne, hrest⟩

/-- What `_init` of a closed curve returns when the grid loop does not throw. -/
theorem CentripetalKochanekBartelsSpline.ckb_init_closed (sqrt : S → S) (length : V → S)
    (vin : List V) (tcb : List (S × S × S)) (h2 : 2 ≤ vin.length)
    (htcb : tcb.length = vin.length) :
    CentripetalKochanekBartelsSpline.init sqrt length vin tcb true =
      (centripetal_grid sqrt length (vin ++ [vin.getD 0 0, vin.getD 1 0])).map fun grid =>
        (vin ++ [vin.getD 0 0],
          ((inner_tangents (vin ++ [vin.getD 0 0, vin.getD 1 0]) grid tcb true).set 0
            ((inner_tangents (vin ++ [vin.getD 0 0, vin.getD 1 0]) grid tcb true).getLastD
              0)).dropLast,
          grid.dropLast) := by
  unfold CentripetalKochanekBartelsSpline.init
  have hd : (vin ++ [vin.getD 0 0, vin.getD 1 0]).dropLast = vin ++ [vin.getD 0 0] := by
    rw [show vin ++ [vin.getD 0 0, vin.getD 1 0] = (vin ++ [vin.getD 0 0]) ++ [vin.getD 1 0] by
      simp, List.dropLast_concat]
  rw [if_neg (by omega)]
  simp only [if_true]
  rw [if_neg (by simp only [List.length_append, List.length_cons, List.length_nil]; omega)]
  cases centripetal_grid sqrt length (vin ++ [vin.getD 0 0, vin.getD 1 0]) with
  | none => rfl
  | some grid => simp only [Option.map_some', hd]

/-- What `_init` of an open curve returns when the grid loop does not throw. -/
theorem CentripetalKochanekBartelsSpline.ckb_init_open (sqrt : S → S) (length : V → S)
    (vin : List V) (tcb : List (S × S × S)) (h2 : 2 ≤ vin.length)
    (htcb : tcb.length + 2 = vin.length) :
    CentripetalKochanekBartelsSpline.init sqrt length vin tcb false =
      (centripetal_grid sqrt length vin).map fun grid =>
        if vin.length = 2 then
          (vin, [(grid.getD 1 0 - grid.getD 0 0)⁻¹ • (vin.getD 1 0 - vin.getD 0 0),
            (grid.getD 1 0 - grid.getD 0 0)⁻¹ • (vin.getD 1 0 - vin.getD 0 0)], grid)
        else
          (vin,
            (inner_tangents vin grid tcb false).set 0
                (end_tangent (vin.getD 0 0) (vin.getD 1 0) (grid.getD 0 0) (grid.getD 1 0)
                  ((inner_tangents vin grid tcb false).getD 1 0)) ++
              [end_tangent (vin.getD (vin.length - 1 - 1) 0) (vin.getD (vin.length - 1) 0)
                (grid.getD (vin.length - 1 - 1) 0) (grid.getD (vin.length - 1) 0)
                (((inner_tangents vin grid tcb false).set 0
                  (end_tangent (vin.getD 0 0) (vin.getD 1 0) (grid.getD 0 0) (grid.getD 1 0)
                    ((inner_tangents vin grid tcb false).getD 1 0))).getD
                  (((inner_tangents vin grid tcb false).set 0
                    (end_tangent (vin.getD 0 0) (vin.getD 1 0) (grid.getD 0 0) (grid.getD 1 0)
                      ((inner_tangents vin grid tcb false).getD 1 0))).length - 1) 0)],
            grid) := by
  unfold CentripetalKochanekBartelsSpline.init
  rw [if_neg (by omega)]
  simp only [Bool.false_eq_true, if_false]
  rw [if_neg (by omega)]
  cases centripetal_grid sqrt length vin with
  | none => rfl
  | some grid =>
    simp only [Option.map_some']
    by_cases h : vin.length = 2
    · simp only [if_pos h]
    · simp only [if_neg h]

/-- When `_init` throws. -/
theorem CentripetalKochanekBartelsSpline.init_eq_none_iff (sqrt : S → S) (length : V → S)
    (vin : List V) (tcb : List (S × S × S)) (closed : Bool) :
    CentripetalKochanekBartelsSpline.init sqrt length vin tcb closed = none ↔
      (vin.length < 2 ∨ tcb.length ≠ (if closed then vin.length else vin.length - 2) ∨
        centripetal_grid sqrt length
          (if closed then vin ++ [vin.getD 0 0, vin.getD 1 0] else vin) = none) := by
  by_cases h2 : vin.length < 2
  · unfold CentripetalKochanekBartelsSpline.init
    simp only [if_pos h2, true_iff]
    exact Or.inl h2
  cases closed with
  | true =>
    simp only [if_true]
    by_cases ht : tcb.length = vin.length
    · rw [CentripetalKochanekBartelsSpline.ckb_init_closed sqrt length vin tcb (by omega) ht,
        Option.map_eq_none']
      constructor
      · intro h; exact Or.inr (Or.inr h)
      · rintro (h | h | h)
        · exact absurd h h2
        · exact absurd ht h
        · exact h
    · unfold CentripetalKochanekBartelsSpline.init
      rw [if_neg h2]
      simp only [if_true]
      rw [if_pos (by simp only [List.length_append, List.length_cons, List.length_nil]; omega)]
      simp only [true_iff]
      exact Or.inr (Or.inl ht)
  | false =>
    simp only [Bool.false_eq_true, if_false]
    by_cases ht : tcb.length + 2 = vin.length
    · rw [CentripetalKochanekBartelsSpline.ckb_init_open sqrt length vin tcb (by omega) ht,
        Option.map_eq_none']
      constructor
      · intro h; exact Or.inr (Or.inr h)
      · rintro (h | h | h)
        · exact absurd h h2
        · omega
        · exact h
    · unfold CentripetalKochanekBartelsSpline.init
      rw [if_neg h2]
      simp only [Bool.false_eq_true, if_false]
      rw [if_pos ht]
      simp only [true_iff]
      exact Or.inr (Or.inl (by omega))
end

/-! ## CentripetalKochanekBartelsSpline: natural end conditions -/

section
variable {S V : Type} [LinearOrderedField S] [AddCommGroup V] [Module S V]

/-- With the end tangent of `_end_tangent` at the start of a segment, the
coefficient `a2` of the segment is zero. -/
theorem hermite_segment_natural_start (x0 x1 v1 : V) (t0 t1 : S) (h : t1 - t0 ≠ 0) :
    (hermite_segment x0 x1 (end_tangent x0 x1 t0 t1 v1) v1 t0 t1).a2 = 0 := by
  simp only [hermite_segment, end_tangent]
  rw [smul_smul, mul_inv_cancel₀ (mul_ne_zero two_ne_zero h), one_smul]
  module

/-- With the end tangent of `_end_tangent` at the end of a segment, the second
derivative `2 a2 + 6 a3` at the end of the segment is zero. -/
theorem hermite_segment_natural_end (x0 x1 v0 : V) (t0 t1 : S) (h : t1 - t0 ≠ 0) :
    (2 : S) • (hermite_segment x0 x1 v0 (end_tangent x0 x1 t0 t1 v0) t0 t1).a2
      + (6 : S) • (hermite_segment x0 x1 v0 (end_tangent x0 x1 t0 t1 v0) t0 t1).a3 = 0 := by
  simp only [hermite_segment, end_tangent]
  have e : (t1 - t0) • ((2 * (t1 - t0))⁻¹ • ((3 : S) • x1 - (3 : S) • x0 - (t1 - t0) • v0))
      = (2 : S)⁻¹ • ((3 : S) • x1 - (3 : S) • x0 - (t1 - t0) • v0) := by
    rw [smul_smul, mul_inv, ← mul_assoc, mul_comm (t1 - t0), mul_assoc, mul_inv_cancel₀ h,
      mul_one]
  rw [e]
  module

/-- In exact arithmetic: in an open Kochanek-Bartels spline of at least three vertices the
end tangents of `_end_tangent` give natural end conditions: the coefficient
`a2` of the first segment is zero, and `2 a2 + 6 a3` of the last segment is
zero. -/
theorem natural_end_conditions (sqrt : S → S) (length : V → S) (vin : List V)
    (tcb : List (S × S × S)) (c : PiecewiseCubicCurve S V) (h3 : 3 ≤ vin.length)
    (h : CentripetalKochanekBartelsSpline.construct sqrt length vin tcb false = some c) :
    (c.segments.getD 0 default).a2 = 0 ∧
      (2 : S) • (c.segments.getD (c.segments.length - 1) default).a2
        + (6 : S) • (c.segments.getD (c.segments.length - 1) default).a3 = 0 := by
  unfold CentripetalKochanekBartelsSpline.construct at h
  cases hi : CentripetalKochanekBartelsSpline.init sqrt length vin tcb false with
  | none => rw [hi] at h; cases h
  | some r =>
    rw [hi] at h
    simp only at h
    have htcb : tcb.length + 2 = vin.length := by
      by_contra hc
      have := (CentripetalKochanekBartelsSpline.init_eq_none_iff sqrt length vin tcb false).mpr
        (Or.inr (Or.inl (by simp only [Bool.false_eq_true, if_false]; omega)))
      rw [this] at hi
      cases hi
    rw [CentripetalKochanekBartelsSpline.ckb_init_open sqrt length vin tcb (by omega) htcb] at hi
    cases hg : centripetal_grid sqrt length vin with
    | none => rw [hg] at hi; cases hi
    | some grid =>
      rw [hg, Option.map_some', if_neg (by omega)] at hi
      injection hi with hi
      subst hi
      simp only at h
      obtain ⟨_, _, hlen, hpw, hcg, _⟩ := CubicHermiteSpline.hermite_construct_some _ _ _ c h
      have hsl := CubicHermiteSpline.segments_length _ _ _ c h
      rw [hcg] at hsl
      obtain ⟨hT, _⟩ := inner_tangents_spec vin grid tcb false
      have hd : ∀ i, i + 1 < grid.length → grid.getD (i + 1) 0 - grid.getD i 0 ≠ 0 := by
        intro i hi
        rw [List.getD_eq_getElem _ _ hi, List.getD_eq_getElem _ _ (by omega : i < grid.length)]
        exact ne_of_gt (sub_pos.mpr (pairwise_lt_getElem hpw (by omega) hi))
      constructor
      · rw [CubicHermiteSpline.segment_getD _ _ _ c h 0 (by omega)]
        have e0 : 2 * 0 = 0 := rfl
        rw [e0, getD_append_left_of_lt _ _ _ (by rw [List.length_set]; omega),
          getD_append_left_of_lt _ _ _ (by rw [List.length_set]; omega),
          getD_set_self _ _ _ (by omega), getD_set_ne _ _ _ (by omega : 0 ≠ 0 + 1)]
        exact hermite_segment_natural_start _ _ _ _ _ (hd 0 (by omega))
      · have hs1 : c.segments.length - 1 = vin.length - 2 := by omega
        rw [hs1, CubicHermiteSpline.segment_getD _ _ _ c h (vin.length - 2) (by omega)]
        have e1 : vin.length - 2 + 1 = vin.length - 1 := by omega
        have e2 : vin.length - 1 - 1 = vin.length - 2 := by omega
        have e3 : 2 * (vin.length - 2) + 1
            = ((inner_tangents vin grid tcb false).set 0
                (end_tangent (vin.getD 0 0) (vin.getD 1 0) (grid.getD 0 0) (grid.getD 1 0)
                  ((inner_tangents vin grid tcb false).getD 1 0))).length := by
          rw [List.length_set]; omega
        have e4 : 2 * (vin.length - 2)
            = ((inner_tangents vin grid tcb false).set 0
                (end_tangent (vin.getD 0 0) (vin.getD 1 0) (grid.getD 0 0) (grid.getD 1 0)
                  ((inner_tangents vin grid tcb false).getD 1 0))).length - 1 := by
          rw [List.length_set]; omega
        rw [e1, e3, getD_append_singleton_last, ← e3, e4,
          getD_append_left_of_lt _ _ _ (by rw [List.length_set]; omega), e2]
        have := hd (vin.length - 2) (by omega)
        rw [e1] at this
        exact hermite_segment_natural_end _ _ _ _ _ this

theorem natural_end_conditions_witness :
    (3 ≤ [(0 : ℚ), 1, 5].length ∧
      CentripetalKochanekBartelsSpline.construct sqrtQ abs_length [(0 : ℚ), 1, 5] [(0, 0, 0)]
        false = some open_ckb) ∧
    ((open_ckb.segments.getD 0 default).a2 = 0 ∧
      (2 : ℚ) • (open_ckb.segments.getD (open_ckb.segments.length - 1) default).a2
        + (6 : ℚ) • (open_ckb.segments.getD (open_ckb.segments.length - 1) default).a3 = 0) :=
  ⟨⟨by decide, by decide!⟩,
    natural_end_conditions sqrtQ abs_length [(0 : ℚ), 1, 5] [(0, 0, 0)] open_ckb (by decide)
      (by decide!)⟩
end

/-! ## CentripetalKochanekBartelsSpline: tangents at the closing point -/

section
variable {S V : Type} [LinearOrderedField S] [AddCommGroup V] [Module S V]

/-- With the continuity parameter zero the incoming and the outgoing tangent of
`_calculate_tangents` are the same. -/
theorem calculate_tangents_continuous (x_1 x0 x1 : V) (t_1 t0 t1 : S) (tcb : S × S × S)
    (hC : tcb.2.1 = 0) :
    (calculate_tangents x_1 x0 x1 t_1 t0 t1 tcb).1
      = (calculate_tangents x_1 x0 x1 t_1 t0 t1 tcb).2 := by
  simp only [calculate_tangents, hC, add_zero, sub_zero, mul_one]

/-- In exact arithmetic: in a closed Kochanek-Bartels spline whose first TCB
triple, the one of the closing vertex, has the continuity parameter zero, the
velocity at the last grid value equals the velocity at the first grid value. -/
theorem closed_tangents_match (sqrt : S → S) (length : V → S) (vin : List V)
    (tcb : List (S × S × S)) (c : PiecewiseCubicCurve S V)
    (h : CentripetalKochanekBartelsSpline.construct sqrt length vin tcb true = some c)
    (hC : (tcb.getD 0 (0, 0, 0)).2.1 = 0) :
    c.evaluate_velocity (c.grid.getLastD 0) = c.evaluate_velocity (c.grid.headD 0) := by
  unfold CentripetalKochanekBartelsSpline.construct at h
  cases hi : CentripetalKochanekBartelsSpline.init sqrt length vin tcb true with
  | none => rw [hi] at h; cases h
  | some r =>
    rw [hi] at h
    simp only at h
    have h2 : 2 ≤ vin.length := by
      by_contra hc
      have := (CentripetalKochanekBartelsSpline.init_eq_none_iff sqrt length vin tcb true).mpr
        (Or.inl (by omega))
      rw [this] at hi
      cases hi
    have htcb : tcb.length = vin.length := by
      by_contra hc
      have := (CentripetalKochanekBartelsSpline.init_eq_none_iff sqrt length vin tcb true).mpr
        (Or.inr (Or.inl (by simp only [if_true]; exact hc)))
      rw [this] at hi
      cases hi
    rw [CentripetalKochanekBartelsSpline.ckb_init_closed sqrt length vin tcb h2 htcb] at hi
    cases hg : centripetal_grid sqrt length (vin ++ [vin.getD 0 0, vin.getD 1 0]) with
    | none => rw [hg] at hi; cases hi
    | some grid =>
      rw [hg, Option.map_some'] at hi
      injection hi with hi
      subst hi
      simp only at h
      obtain ⟨_, _, hlen, _, hcg, _⟩ := CubicHermiteSpline.hermite_construct_some _ _ _ c h
      obtain ⟨hT, hio⟩ := inner_tangents_spec (vin ++ [vin.getD 0 0, vin.getD 1 0]) grid tcb true
      have hvl : (vin ++ [vin.getD 0 0]).length = vin.length + 1 := by
        rw [List.length_append]; rfl
      have hel : (vin ++ [vin.getD 0 0, vin.getD 1 0]).length = vin.length + 2 := by
        rw [List.length_append]; rfl
      rw [hel] at hT hio
      rw [hvl] at hlen
      have hTl : (inner_tangents (vin ++ [vin.getD 0 0, vin.getD 1 0]) grid tcb true).length
          = 1 + 2 * vin.length := by rw [hT]; omega
      have hfirst := CubicHermiteSpline.evaluate_velocity_grid _ _ _ c h 0 (by rw [hvl]; omega)
      have hlast := CubicHermiteSpline.evaluate_velocity_grid _ _ _ c h vin.length
        (by rw [hvl]; omega)
      rw [if_pos (by rw [hvl]; omega)] at hfirst
      rw [if_neg (by rw [hvl]; omega)] at hlast
      rw [headD_eq_getD, getLastD_eq_getD, hcg, ← hlen, Nat.add_sub_cancel, hfirst, hlast]
      have e0 : 2 * 0 = 0 := rfl
      have e1 : 2 * vin.length - 1 = 2 * (vin.length - 1) + 1 := by omega
      have e2 : 1 + 2 * vin.length - 1 = 2 * (vin.length - 1) + 2 := by omega
      have e3 : (vin.length - 1 + true.toNat) % tcb.length = 0 := by
        rw [htcb, Bool.toNat_true, Nat.sub_add_cancel (by omega), Nat.mod_self]
      rw [e0, getD_dropLast_of_lt _ _ (by rw [List.length_set]; omega),
        getD_dropLast_of_lt _ _ (by rw [List.length_set]; omega),
        getD_set_self _ _ _ (by omega), getD_set_ne _ _ _ (by omega : 0 ≠ 2 * vin.length - 1),
        getLastD_eq_getD, hTl, e1, e2, (hio (vin.length - 1) (by omega)).1,
        (hio (vin.length - 1) (by omega)).2, e3]
      exact calculate_tangents_continuous _ _ _ _ _ _ _ hC

theorem closed_tangents_match_witness :
    (CentripetalKochanekBartelsSpline.construct sqrtQ abs_length [(0 : ℚ), 1]
        [(1 / 2, 0, 1 / 3), (0, 1, 0)] true = some smooth_ckb ∧
      (([(1 / 2, 0, 1 / 3), (0, 1, 0)] : List (ℚ × ℚ × ℚ)).getD 0 (0, 0, 0)).2.1 = 0) ∧
    smooth_ckb.evaluate_velocity (smooth_ckb.grid.getLastD 0)
      = smooth_ckb.evaluate_velocity (smooth_ckb.grid.headD 0) :=
  ⟨⟨by decide!, by decide!⟩,
    closed_tangents_match sqrtQ abs_length [(0 : ℚ), 1] [(1 / 2, 0, 1 / 3), (0, 1, 0)]
      smooth_ckb (by decide!) (by decide!)⟩

/-- With the tension parameter one the incoming and the outgoing tangent of
`_calculate_tangents` are both zero. -/
theorem calculate_tangents_tense (x_1 x0 x1 : V) (t_1 t0 t1 : S) (tcb : S × S × S)
    (hT : tcb.1 = 1) :
    (calculate_tangents x_1 x0 x1 t_1 t0 t1 tcb).1 = 0 ∧
      (calculate_tangents x_1 x0 x1 t_1 t0 t1 tcb).2 = 0 := by
  simp only [calculate_tangents, hT, sub_self, zero_mul, zero_smul, add_zero, smul_zero,
    and_self]

/-- C19 (as amended): in a closed Kochanek-Bartels spline whose first TCB
triple, the one of the closing vertex, has the continuity parameter zero or
the tension parameter one, the last of the tangents that `_init` hands to the
Hermite constructor, the incoming tangent at the closing point, equals the
first of them, the outgoing tangent at the first vertex. -/
theorem closing_tangents_equal (sqrt : S → S) (length : V → S) (vin : List V)
    (tcb : List (S × S × S)) (r : List V × List V × List S)
    (h : CentripetalKochanekBartelsSpline.init sqrt length vin tcb true = some r)
    (hC : (tcb.getD 0 (0, 0, 0)).2.1 = 0 ∨ (tcb.getD 0 (0, 0, 0)).1 = 1) :
    r.2.1.length = 2 * vin.length ∧
      r.2.1.getD (2 * vin.length - 1) 0 = r.2.1.getD 0 0 := by
  have h2 : 2 ≤ vin.length := by
    by_contra hc
    have := (CentripetalKochanekBartelsSpline.init_eq_none_iff sqrt length vin tcb true).mpr
      (Or.inl (by omega))
    rw [this] at h
    cases h
  have htcb : tcb.length = vin.length := by
    by_contra hc
    have := (CentripetalKochanekBartelsSpline.init_eq_none_iff sqrt length vin tcb true).mpr
      (Or.inr (Or.inl (by simp only [if_true]; exact hc)))
    rw [this] at h
    cases h
  rw [CentripetalKochanekBartelsSpline.ckb_init_closed sqrt length vin tcb h2 htcb] at h
  cases hg : centripetal_grid sqrt length (vin ++ [vin.getD 0 0, vin.getD 1 0]) with
  | none => rw [hg] at h; cases h
  | some grid =>
    rw [hg, Option.map_some'] at h
    injection h with h
    subst h
    obtain ⟨hT, hio⟩ := inner_tangents_spec (vin ++ [vin.getD 0 0, vin.getD 1 0]) grid tcb true
    have hel : (vin ++ [vin.getD 0 0, vin.getD 1 0]).length = vin.length + 2 := by
      rw [List.length_append]; rfl
    rw [hel] at hT hio
    have hTl : (inner_tangents (vin ++ [vin.getD 0 0, vin.getD 1 0]) grid tcb true).length
        = 1 + 2 * vin.length := by rw [hT]; omega
    have e1 : 2 * vin.length - 1 = 2 * (vin.length - 1) + 1 := by omega
    have e2 : 1 + 2 * vin.length - 1 = 2 * (vin.length - 1) + 2 := by omega
    have e3 : (vin.length - 1 + true.toNat) % tcb.length = 0 := by
      rw [htcb, Bool.toNat_true, Nat.sub_add_cancel (by omega), Nat.mod_self]
    constructor
    · simp only [List.length_dropLast, List.length_set, hTl]
      omega
    · simp only
      rw [getD_dropLast_of_lt _ _ (by rw [List.length_set]; omega),
        getD_dropLast_of_lt _ _ (by rw [List.length_set]; omega),
        getD_set_self _ _ _ (by omega), getD_set_ne _ _ _ (by omega : 0 ≠ 2 * vin.length - 1),
        getLastD_eq_getD, hTl, e1, e2, (hio (vin.length - 1) (by omega)).1,
        (hio (vin.length - 1) (by omega)).2, e3]
      rcases hC with hC | hC
      · exact calculate_tangents_continuous _ _ _ _ _ _ _ hC
      · rw [(calculate_tangents_tense _ _ _ _ _ _ _ hC).1,
          (calculate_tangents_tense _ _ _ _ _ _ _ hC).2]

theorem closing_tangents_equal_witness :
    (CentripetalKochanekBartelsSpline.init sqrtQ abs_length [(0 : ℚ), 1]
        [(1 / 2, 0, 1 / 3), (0, 1, 0)] true = some smooth_init ∧
      ((([(1 / 2, 0, 1 / 3), (0, 1, 0)] : List (ℚ × ℚ × ℚ)).getD 0 (0, 0, 0)).2.1 = 0 ∨
        (([(1 / 2, 0, 1 / 3), (0, 1, 0)] : List (ℚ × ℚ × ℚ)).getD 0 (0, 0, 0)).1 = 1)) ∧
    (smooth_init.2.1.length = 2 * [(0 : ℚ), 1].length ∧
      smooth_init.2.1.getD (2 * [(0 : ℚ), 1].length - 1) 0 = smooth_init.2.1.getD 0 0) :=
  ⟨⟨by decide!, Or.inl (by decide!)⟩,
    closing_tangents_equal sqrtQ abs_length [(0 : ℚ), 1] [(1 / 2, 0, 1 / 3), (0, 1, 0)]
      smooth_init (by decide!) (Or.inl (by decide!))⟩

/-- C19 (as stated) fails: the closed spline through 0 and 1 whose closing
vertex has the continuity parameter 1 arrives at the closing point with the
velocity 1 and leaves the first vertex with the velocity -1. -/
theorem closed_tangents_counterexample :
    CentripetalKochanekBartelsSpline.construct sqrtQ abs_length [(0 : ℚ), 1]
        [(0, 1, 0), (0, 0, 0)] true = some corner_ckb ∧
      corner_ckb.grid = [0, 1, 2] ∧
      corner_ckb.evaluate_velocity (corner_ckb.grid.getLastD 0) = 1 ∧
      corner_ckb.evaluate_velocity (corner_ckb.grid.headD 0) = -1 := by
  decide!
end

/-! ## CentripetalKochanekBartelsSpline: when the constructor throws -/

section
variable {S V : Type} [LinearOrderedField S] [AddCommGroup V] [Module S V]

omit [LinearOrderedField S] [Module S V] in
theorem closing_vertices_getD (vin : List V) (a b : V) :
    (∀ k, k < vin.length + 1 → (vin ++ [a, b]).getD k 0 = (vin ++ [a]).getD k 0) ∧
    (vin ++ [a, b]).getD (vin.length + 1) 0 = b ∧ (vin ++ [a]).getD vin.length 0 = a ∧
    (vin ++ [a, b]).length = vin.length + 2 ∧ (vin ++ [a]).length = vin.length + 1 := by
  have e : vin ++ [a, b] = (vin ++ [a]) ++ [b] := by simp
  have hl : (vin ++ [a]).length = vin.length + 1 := by rw [List.length_append]; rfl
  refine ⟨fun k hk => ?_, ?_, getD_append_singleton_last vin a 0, ?_, hl⟩
  · rw [e, getD_append_left_of_lt _ _ _ (by omega)]
  · rw [e, ← hl, getD_append_singleton_last]
  · rw [List.length_append]; rfl

/-- What `_init` hands to the Hermite constructor: the vertices (with the first
one repeated for a closed curve), two tangents per segment, and a grid that
starts at zero and steps by the square root of the distance of the vertices. -/
theorem CentripetalKochanekBartelsSpline.init_spec (sqrt : S → S) (length : V → S)
    (vin : List V) (tcb : List (S × S × S)) (closed : Bool) (r : List V × List V × List S)
    (h : CentripetalKochanekBartelsSpline.init sqrt length vin tcb closed = some r) :
    2 ≤ vin.length ∧ r.1 = (if closed then vin ++ [vin.getD 0 0] else vin) ∧
    r.2.1.length = 2 * (r.1.length - 1) ∧ r.2.2.length = r.1.length ∧ r.2.2.getD 0 0 = 0 ∧
    ∀ i, i + 1 < r.1.length →
      sqrt (length (r.1.getD (i + 1) 0 - r.1.getD i 0)) ≠ 0 ∧
      r.2.2.getD (i + 1) 0
        = r.2.2.getD i 0 + sqrt (length (r.1.getD (i + 1) 0 - r.1.getD i 0)) := by
  have hnn := (CentripetalKochanekBartelsSpline.init_eq_none_iff sqrt length vin tcb closed).not.mp
    (by rw [h]; exact Option.some_ne_none r)
  push_neg at hnn
  obtain ⟨h2, htcb, _⟩ := hnn
  refine ⟨h2, ?_⟩
  cases closed with
  | true =>
    simp only [if_true] at htcb ⊢
    rw [CentripetalKochanekBartelsSpline.ckb_init_closed sqrt length vin tcb h2 htcb] at h
    cases hg : centripetal_grid sqrt length (vin ++ [vin.getD 0 0, vin.getD 1 0]) with
    | none => rw [hg] at h; cases h
    | some grid =>
      rw [hg, Option.map_some'] at h
      injection h with h
      subst h
      obtain ⟨hne, hgl, h0, hrel⟩ := centripetal_grid_some sqrt length _ grid hg
      obtain ⟨hT, _⟩ := inner_tangents_spec (vin ++ [vin.getD 0 0, vin.getD 1 0]) grid tcb true
      obtain ⟨hE, _, _, hel, hvl⟩ := closing_vertices_getD vin (vin.getD 0 0) (vin.getD 1 0)
      rw [hel] at hT hgl hrel hne
      simp only
      refine ⟨trivial, ?_, ?_, ?_, ?_⟩
      · rw [List.length_dropLast, List.length_set, hT, hvl]; omega
      · rw [List.length_dropLast, hgl, hvl]; omega
      · rw [getD_dropLast_of_lt _ _ (by omega)]; exact h0
      · intro i hi
        rw [hvl] at hi
        rw [getD_dropLast_of_lt _ _ (by omega), getD_dropLast_of_lt _ _ (by omega),
          ← hE (i + 1) (by omega), ← hE i (by omega)]
        exact ⟨hne i (by omega), hrel i (by omega)⟩
  | false =>
    simp only [Bool.false_eq_true, if_false] at htcb ⊢
    rw [CentripetalKochanekBartelsSpline.ckb_init_open sqrt length vin tcb h2 (by omega)] at h
    cases hg : centripetal_grid sqrt length vin with
    | none => rw [hg] at h; cases h
    | some grid =>
      rw [hg, Option.map_some'] at h
      obtain ⟨hne, hgl, h0, hrel⟩ := centripetal_grid_some sqrt length _ grid hg
      obtain ⟨hT, _⟩ := inner_tangents_spec vin grid tcb false
      by_cases hv : vin.length = 2
      · rw [if_pos hv] at h
        injection h with h
        subst h
        simp only
        refine ⟨trivial, ?_, ?_, h0, fun i hi => ⟨hne i hi, hrel i (by omega)⟩⟩
        · rw [hv]; rfl
        · rw [hgl]; omega
      · rw [if_neg hv] at h
        injection h with h
        subst h
        simp only
        refine ⟨trivial, ?_, ?_, h0, fun i hi => ⟨hne i hi, hrel i (by omega)⟩⟩
        · rw [List.length_append, List.length_set, hT]
          simp only [List.length_cons, List.length_nil]
          omega
        · rw [hgl]; omega

/-- The vertices, tangents and grid of `_init` pass the checks of the Hermite
constructor when square roots are not negative. -/
theorem CentripetalKochanekBartelsSpline.init_hermite (sqrt : S → S) (length : V → S)
    (vin : List V) (tcb : List (S × S × S)) (closed : Bool) (r : List V × List V × List S)
    (hsqrt : ∀ x, 0 ≤ sqrt x)
    (h : CentripetalKochanekBartelsSpline.init sqrt length vin tcb closed = some r) :
    CubicHermiteSpline.construct r.1 r.2.1 r.2.2 ≠ none := by
  obtain ⟨h2, hv, htl, hgl, _, hstep⟩ :=
    CentripetalKochanekBartelsSpline.init_spec sqrt length vin tcb closed r h
  have hrl : 2 ≤ r.1.length := by
    rw [hv]
    cases closed with
    | true => simp only [if_true, List.length_append]; omega
    | false => simpa using h2
  rw [Ne, CubicHermiteSpline.hermite_construct_none_iff]
  rintro (hc | hc | hc | ⟨i, hi, hle⟩)
  · omega
  · exact hc htl
  · exact hc hgl
  · obtain ⟨hne, hrel⟩ := hstep i (by omega)
    have := lt_of_le_of_ne (hsqrt (length (r.1.getD (i + 1) 0 - r.1.getD i 0))) (Ne.symm hne)
    linarith
end
theorem sqrtQ_nonneg (q : ℚ) : 0 ≤ sqrtQ q := by
  rw [sqrtQ_eq_sqrt]
  exact Rat.sqrt_nonneg q

theorem sqrtQ_eq_zero_iff (q : ℚ) (hq : 0 ≤ q) : sqrtQ q = 0 ↔ q = 0 := by
  unfold sqrtQ
  rw [natSqrt_eq_sqrt, natSqrt_eq_sqrt,
    Rat.mkRat_eq_zero (Nat.pos_iff_ne_zero.mp (Nat.sqrt_pos.mpr q.den_pos))]
  have hn : 0 ≤ q.num := Rat.num_nonneg.mpr hq
  constructor
  · intro h
    have h1 : Nat.sqrt q.num.toNat = 0 := by exact_mod_cast h
    rw [Nat.sqrt_eq_zero] at h1
    have h2 : q.num = 0 := by omega
    exact Rat.num_eq_zero.mp h2
  · intro h
    rw [h]
    rfl

section
variable {S V : Type} [LinearOrderedField S] [AddCommGroup V] [Module S V]

omit [Module S V] in
/-- A grid step is zero exactly when the two vertices coincide. -/
theorem zero_step_iff (sqrt : S → S) (length : V → S)
    (hsqrt0 : ∀ x, 0 ≤ x → (sqrt x = 0 ↔ x = 0)) (hlen : ∀ v, 0 ≤ length v)
    (hlen0 : ∀ v, length v = 0 ↔ v = 0) (a b : V) :
    sqrt (length (b - a)) = 0 ↔ a = b := by
  rw [hsqrt0 _ (hlen _), hlen0, sub_eq_zero]
  exact eq_comm

/-- In exact arithmetic: with at least two vertices and a TCB list of the required size, and
with a square root and a length that are zero only at zero, the constructor of
`CentripetalKochanekBartelsSpline` throws exactly when two consecutive vertices
coincide (the last and the first one included for a closed curve); otherwise
the grid starts at 0, every step of it is the square root of the distance of
the two vertices, and whatever `_init` returns passes the checks of the
Hermite constructor. -/
theorem ckb_construct_fails_iff (sqrt : S → S) (length : V → S) (vin : List V)
    (tcb : List (S × S × S)) (closed : Bool)
    (hsqrt : ∀ x, 0 ≤ sqrt x) (hsqrt0 : ∀ x, 0 ≤ x → (sqrt x = 0 ↔ x = 0))
    (hlen : ∀ v, 0 ≤ length v) (hlen0 : ∀ v, length v = 0 ↔ v = 0)
    (h2 : 2 ≤ vin.length)
    (htcb : tcb.length = if closed then vin.length else vin.length - 2) :
    (CentripetalKochanekBartelsSpline.construct sqrt length vin tcb closed = none ↔
      ∃ i, i + 1 < (if closed then vin ++ [vin.getD 0 0] else vin).length ∧
        (if closed then vin ++ [vin.getD 0 0] else vin).getD i 0
          = (if closed then vin ++ [vin.getD 0 0] else vin).getD (i + 1) 0) ∧
    (∀ c, CentripetalKochanekBartelsSpline.construct sqrt length vin tcb closed = some c →
      c.grid.length = (if closed then vin ++ [vin.getD 0 0] else vin).length ∧
      c.grid.getD 0 0 = 0 ∧
      ∀ i, i + 1 < c.grid.length →
        c.grid.getD (i + 1) 0 - c.grid.getD i 0
          = sqrt (length ((if closed then vin ++ [vin.getD 0 0] else vin).getD (i + 1) 0
              - (if closed then vin ++ [vin.getD 0 0] else vin).getD i 0))) ∧
    (∀ r, CentripetalKochanekBartelsSpline.init sqrt length vin tcb closed = some r →
      (CubicHermiteSpline.construct r.1 r.2.1 r.2.2).isSome = true) := by
  have hherm : ∀ r, CentripetalKochanekBartelsSpline.init sqrt length vin tcb closed = some r →
      CubicHermiteSpline.construct r.1 r.2.1 r.2.2 ≠ none := fun r hr =>
    CentripetalKochanekBartelsSpline.init_hermite sqrt length vin tcb closed r hsqrt hr
  have hz := zero_step_iff sqrt length hsqrt0 hlen hlen0
  refine ⟨?_, ?_, fun r hr => Option.isSome_iff_ne_none.mpr (hherm r hr)⟩
  · have hci : CentripetalKochanekBartelsSpline.construct sqrt length vin tcb closed = none ↔
        CentripetalKochanekBartelsSpline.init sqrt length vin tcb closed = none := by
      unfold CentripetalKochanekBartelsSpline.construct
      cases hi : CentripetalKochanekBartelsSpline.init sqrt length vin tcb closed with
      | none => simp only
      | some r =>
        simp only [reduceCtorEq, iff_false]
        exact hherm r hi
    rw [hci, CentripetalKochanekBartelsSpline.init_eq_none_iff, centripetal_grid_eq_none_iff]
    cases closed with
    | true =>
      simp only [if_true] at htcb ⊢
      obtain ⟨hE, hb, ha, hel, hvl⟩ := closing_vertices_getD vin (vin.getD 0 0) (vin.getD 1 0)
      rw [hel, hvl]
      constructor
      · rintro (h | h | ⟨i, hi, hzero⟩)
        · omega
        · exact absurd htcb h
        · rcases Nat.lt_succ_iff_lt_or_eq.mp (by omega : i < vin.length + 1) with hlt | heq
          · refine ⟨i, by omega, ?_⟩
            rw [hE (i + 1) (by omega), hE i (by omega)] at hzero
            exact (hz _ _).mp hzero
          · subst heq
            rw [hb, hE _ (by omega), ha] at hzero
            refine ⟨0, by omega, ?_⟩
            rw [getD_append_left_of_lt _ _ _ (by omega), getD_append_left_of_lt _ _ _ (by omega)]
            exact (hz _ _).mp hzero
      · rintro ⟨i, hi, heq⟩
        refine Or.inr (Or.inr ⟨i, by omega, ?_⟩)
        rw [hE (i + 1) (by omega), hE i (by omega)]
        exact (hz _ _).mpr heq
    | false =>
      simp only [Bool.false_eq_true, if_false] at htcb ⊢
      constructor
      · rintro (h | h | ⟨i, hi, hzero⟩)
        · omega
        · exact absurd htcb h
        · exact ⟨i, hi, (hz _ _).mp hzero⟩
      · rintro ⟨i, hi, heq⟩
        exact Or.inr (Or.inr ⟨i, hi, (hz _ _).mpr heq⟩)
  · intro c hc
    unfold CentripetalKochanekBartelsSpline.construct at hc
    cases hi : CentripetalKochanekBartelsSpline.init sqrt length vin tcb closed with
    | none => rw [hi] at hc; cases hc
    | some r =>
      rw [hi] at hc
      simp only at hc
      obtain ⟨_, _, _, _, hcg, _⟩ := CubicHermiteSpline.hermite_construct_some _ _ _ c hc
      obtain ⟨_, hv, _, hgl, h0, hstep⟩ :=
        CentripetalKochanekBartelsSpline.init_spec sqrt length vin tcb closed r hi
      rw [hcg, ← hv]
      refine ⟨hgl, h0, fun i hi2 => ?_⟩
      rw [(hstep i (by omega)).2]
      ring

theorem ckb_construct_fails_iff_witness :
    ((∀ x : ℚ, 0 ≤ sqrtQ x) ∧ (∀ x : ℚ, 0 ≤ x → (sqrtQ x = 0 ↔ x = 0)) ∧
      (∀ v : ℚ, 0 ≤ abs_length v) ∧ (∀ v : ℚ, abs_length v = 0 ↔ v = 0) ∧
      2 ≤ [(0 : ℚ), 1, 5].length ∧
      ([(0, 0, 1), (0, 0, 0), (1 / 2, 0, 0)] : List (ℚ × ℚ × ℚ)).length
        = if true then [(0 : ℚ), 1, 5].length else [(0 : ℚ), 1, 5].length - 2) ∧
    ((CentripetalKochanekBartelsSpline.construct sqrtQ abs_length [(0 : ℚ), 1, 5]
        [(0, 0, 1), (0, 0, 0), (1 / 2, 0, 0)] true = none ↔
      ∃ i, i + 1 < (if true then [(0 : ℚ), 1, 5] ++ [[(0 : ℚ), 1, 5].getD 0 0]
            else [(0 : ℚ), 1, 5]).length ∧
        (if true then [(0 : ℚ), 1, 5] ++ [[(0 : ℚ), 1, 5].getD 0 0]
            else [(0 : ℚ), 1, 5]).getD i 0
          = (if true then [(0 : ℚ), 1, 5] ++ [[(0 : ℚ), 1, 5].getD 0 0]
            else [(0 : ℚ), 1, 5]).getD (i + 1) 0) ∧
    (∀ c, CentripetalKochanekBartelsSpline.construct sqrtQ abs_length [(0 : ℚ), 1, 5]
        [(0, 0, 1), (0, 0, 0), (1 / 2, 0, 0)] true = some c →
      c.grid.length = (if true then [(0 : ℚ), 1, 5] ++ [[(0 : ℚ), 1, 5].getD 0 0]
            else [(0 : ℚ), 1, 5]).length ∧
      c.grid.getD 0 0 = 0 ∧
      ∀ i, i + 1 < c.grid.length →
        c.grid.getD (i + 1) 0 - c.grid.getD i 0
          = sqrtQ (abs_length ((if true then [(0 : ℚ), 1, 5] ++ [[(0 : ℚ), 1, 5].getD 0 0]
                else [(0 : ℚ), 1, 5]).getD (i + 1) 0
              - (if true then [(0 : ℚ), 1, 5] ++ [[(0 : ℚ), 1, 5].getD 0 0]
                else [(0 : ℚ), 1, 5]).getD i 0))) ∧
    (∀ r, CentripetalKochanekBartelsSpline.init sqrtQ abs_length [(0 : ℚ), 1, 5]
        [(0, 0, 1), (0, 0, 0), (1 / 2, 0, 0)] true = some r →
      (CubicHermiteSpline.construct r.1 r.2.1 r.2.2).isSome = true)) :=
  ⟨⟨sqrtQ_nonneg, sqrtQ_eq_zero_iff, fun v => abs_nonneg v, fun _ => abs_eq_zero, by decide,
      by decide⟩,
    ckb_construct_fails_iff sqrtQ abs_length [(0 : ℚ), 1, 5]
      [(0, 0, 1), (0, 0, 0), (1 / 2, 0, 0)] true sqrtQ_nonneg sqrtQ_eq_zero_iff
      (fun v => abs_nonneg v) (fun _ => abs_eq_zero) (by decide) (by decide)⟩
end

/-! ## ShapePreservingCubicSpline: when the constructor throws -/

section
variable {S : Type} [LinearOrderedField S]

/-- A slope of the wrong sign, or steeper than three times the smaller chord
slope, is changed by `_fix_slope`. -/
theorem fix_slope_rejects (s l r : S)
    (h : s * l < 0 ∨ s * r < 0 ∨ 3 * min |l| |r| < |s|) : s ≠ fix_slope s l r := by
  have hm : 0 ≤ min |l| |r| := le_min (abs_nonneg l) (abs_nonneg r)
  unfold fix_slope
  by_cases h1 : l * r ≤ 0
  · rw [if_pos h1]
    rcases h with h | h | h
    · intro hs; rw [hs] at h; simp at h
    · intro hs; rw [hs] at h; simp at h
    · intro hs; rw [hs] at h; simp only [abs_zero] at h; linarith
  · rw [if_neg h1]
    push_neg at h1
    by_cases h2 : r > 0
    · rw [if_pos h2]
      have hl : 0 < l := by
        by_contra hc
        push_neg at hc
        have := mul_nonpos_of_nonpos_of_nonneg hc (le_of_lt h2)
        linarith
      have hneg : s < 0 → s ≠ min (max 0 s) (3 * min |l| |r|) := by
        intro hs he
        have : 0 ≤ min (max 0 s) (3 * min |l| |r|) := le_min (le_max_left _ _) (by linarith)
        linarith
      rcases h with h | h | h
      · exact hneg (by by_contra hc; push_neg at hc; nlinarith)
      · exact hneg (by by_contra hc; push_neg at hc; nlinarith)
      · intro he
        have h3 : s ≤ 3 * min |l| |r| := by rw [he]; exact min_le_right _ _
        have h4 : 0 ≤ s := by rw [he]; exact le_min (le_max_left _ _) (by linarith)
        rw [abs_of_nonneg h4] at h
        linarith
    · rw [if_neg h2]
      push_neg at h2
      have hr : r < 0 := lt_of_le_of_ne h2 (by rintro rfl; simp at h1)
      have hl : l < 0 := by
        by_contra hc
        push_neg at hc
        have := mul_nonpos_of_nonneg_of_nonpos hc h2
        linarith
      have hpos : 0 < s → s ≠ max (min 0 s) (-3 * min |l| |r|) := by
        intro hs he
        have : max (min 0 s) (-3 * min |l| |r|) ≤ 0 := max_le (min_le_left _ _) (by linarith)
        linarith
      rcases h with h | h | h
      · exact hpos (by by_contra hc; push_neg at hc; nlinarith)
      · exact hpos (by by_contra hc; push_neg at hc; nlinarith)
      · intro he
        have h3 : -3 * min |l| |r| ≤ s := by rw [he]; exact le_max_right _ _
        have h4 : s ≤ 0 := by rw [he]; exact max_le (min_le_left _ _) (by linarith)
        rw [abs_of_nonpos h4] at h
        linarith

/-- The loop over the inner values of `_init` throws exactly when a slope
given for an inner vertex is changed by `_fix_slope`. -/
theorem inner_slopes_loop_none_iff (values : List S) (slopes_in : List (Option S))
    (grid : List S) (k : Nat) :
    (List.range k).foldlM (inner_slope_step values slopes_in grid) [0] = none ↔
      ∃ i, i < k ∧ ∃ s, slopes_in.getD ((i + 1) % slopes_in.length) none = some s ∧
        s ≠ fix_slope s (chord_slope values grid i) (chord_slope values grid (i + 1)) := by
  constructor
  · intro h
    by_contra hc
    push_neg at hc
    obtain ⟨sl, hsl, _⟩ := foldlM_range_some (inner_slope_step values slopes_in grid)
      (fun _ _ => True) [0] k trivial (fun i s hi _ => by
        unfold inner_slope_step
        cases hm : slopes_in.getD ((i + 1) % slopes_in.length) none with
        | none => simp only [hm]; exact ⟨_, rfl, trivial⟩
        | some v =>
          have := hc i hi v hm
          simp only [chord_slope] at this
          simp only [hm]
          rw [if_neg (not_not.mpr this)]
          exact ⟨_, rfl, trivial⟩)
    rw [h] at hsl
    cases hsl
  · rintro ⟨i, hi, s, hs, hne⟩
    refine foldlM_range_none _ (fun _ _ => True) [0] k i hi trivial
      (fun _ _ _ _ _ _ => trivial) (fun sl _ => ?_)
    unfold inner_slope_step
    simp only [chord_slope] at hne
    simp only [hs]
    rw [if_pos hne]

/-- The lambda `end_slope` of `_init` throws exactly when the given slope is
changed by `_fix_slope`. -/
theorem end_slope_or_given_none_iff (outer : Option S) (inner chord : S) :
    end_slope_or_given outer inner chord = none ↔
      ∃ s, outer = some s ∧ s ≠ fix_slope s chord chord := by
  unfold end_slope_or_given
  cases outer with
  | none => simp
  | some o =>
    by_cases h : o ≠ fix_slope o chord chord
    · simp only [if_pos h, true_iff]
      exact ⟨o, rfl, h⟩
    · simp only [if_neg h, reduceCtorEq, false_iff]
      rintro ⟨s, hs, hne⟩
      simp only [Option.some.injEq] at hs
      subst hs
      exact h hne
end
section
variable {S : Type} [LinearOrderedField S]

/-- A given slope that `_fix_slope` changes belongs to the first vertex, to the
last vertex or to an inner vertex. -/
theorem slope_violation_cases (values grid : List S) (slopes_in : List (Option S))
    (h2 : 2 ≤ values.length) :
    (∃ k s, k < values.length ∧ slopes_in.getD k none = some s ∧
      s ≠ fix_slope s (left_chord values grid k) (right_chord values grid k)) ↔
    ((∃ s, slopes_in.getD 0 none = some s ∧
        s ≠ fix_slope s (chord_slope values grid 0) (chord_slope values grid 0)) ∨
      (∃ s, slopes_in.getD (values.length - 1) none = some s ∧
        s ≠ fix_slope s (chord_slope values grid (values.length - 2))
          (chord_slope values grid (values.length - 2))) ∨
      ∃ i, i < values.length - 2 ∧ ∃ s, slopes_in.getD (i + 1) none = some s ∧
        s ≠ fix_slope s (chord_slope values grid i) (chord_slope values grid (i + 1))) := by
  have hl0 : left_chord values grid 0 = chord_slope values grid 0 := by
    unfold left_chord; rw [if_pos rfl]
  have hr0 : right_chord values grid 0 = chord_slope values grid 0 := by
    unfold right_chord; rw [if_neg (by omega)]
  have hll : left_chord values grid (values.length - 1)
      = chord_slope values grid (values.length - 2) := by
    unfold left_chord
    by_cases h : values.length - 1 = 0
    · rw [if_pos h]; congr 1; omega
    · rw [if_neg h]; congr 1
  have hrl : right_chord values grid (values.length - 1)
      = chord_slope values grid (values.length - 2) := by
    unfold right_chord; rw [if_pos (by omega)]; congr 1
  have hli : ∀ i, left_chord values grid (i + 1) = chord_slope values grid i := by
    intro i; unfold left_chord; rw [if_neg (by omega)]; congr 1
  have hri : ∀ i, i < values.length - 2 →
      right_chord values grid (i + 1) = chord_slope values grid (i + 1) := by
    intro i hi; unfold right_chord; rw [if_neg (by omega)]
  constructor
  · rintro ⟨k, s, hk, hs, hne⟩
    by_cases hk0 : k = 0
    · subst hk0
      rw [hl0, hr0] at hne
      exact Or.inl ⟨s, hs, hne⟩
    by_cases hkl : k = values.length - 1
    · subst hkl
      rw [hll, hrl] at hne
      exact Or.inr (Or.inl ⟨s, hs, hne⟩)
    · obtain ⟨i, rfl⟩ : ∃ i, k = i + 1 := ⟨k - 1, by omega⟩
      rw [hli, hri i (by omega)] at hne
      exact Or.inr (Or.inr ⟨i, by omega, s, hs, hne⟩)
  · rintro (⟨s, hs, hne⟩ | ⟨s, hs, hne⟩ | ⟨i, hi, s, hs, hne⟩)
    · exact ⟨0, s, by omega, hs, by rw [hl0, hr0]; exact hne⟩
    · exact ⟨values.length - 1, s, by omega, hs, by rw [hll, hrl]; exact hne⟩
    · exact ⟨i + 1, s, by omega, hs, by rw [hli, hri i hi]; exact hne⟩

/-- For an open curve with matching sizes `_init` throws exactly when a given
slope is changed by `_fix_slope` between the chord slopes at its vertex. -/
theorem ShapePreservingCubicSpline.init_open_none_iff (values : List S)
    (slopes_in : List (Option S)) (grid : List S) (h2 : 2 ≤ values.length)
    (hg : grid.length = values.length) (hs : slopes_in.length = values.length) :
    ShapePreservingCubicSpline.init values slopes_in grid false = none ↔
      ∃ k s, k < values.length ∧ slopes_in.getD k none = some s ∧
        s ≠ fix_slope s (left_chord values grid k) (right_chord values grid k) := by
  rw [slope_violation_cases values grid slopes_in h2]
  have hloop := inner_slopes_loop_none_iff values slopes_in grid (values.length - 2)
  have hmod : ∀ i, i < values.length - 2 → (i + 1) % slopes_in.length = i + 1 :=
    fun i hi => Nat.mod_eq_of_lt (by omega)
  have hinner : (List.range (values.length - 2)).foldlM
        (inner_slope_step values slopes_in grid) [0] = none ↔
      ∃ i, i < values.length - 2 ∧ ∃ s, slopes_in.getD (i + 1) none = some s ∧
        s ≠ fix_slope s (chord_slope values grid i) (chord_slope values grid (i + 1)) := by
    rw [hloop]
    constructor
    · rintro ⟨i, hi, s, hs', hne⟩
      rw [hmod i hi] at hs'
      exact ⟨i, hi, s, hs', hne⟩
    · rintro ⟨i, hi, s, hs', hne⟩
      exact ⟨i, hi, s, by rw [hmod i hi]; exact hs', hne⟩
  have hc0 : (values.getD 1 0 - values.getD 0 0) / (grid.getD 1 0 - grid.getD 0 0)
      = chord_slope values grid 0 := rfl
  have hcl : (values.getD (values.length - 1) 0 - values.getD (values.length - 2) 0) /
        (grid.getD (grid.length - 1) 0 - grid.getD (grid.length - 2) 0)
      = chord_slope values grid (values.length - 2) := by
    unfold chord_slope
    rw [hg, show values.length - 2 + 1 = values.length - 1 by omega]
  unfold ShapePreservingCubicSpline.init
  simp only [Bool.false_eq_true, if_false, Bool.toNat_false, Nat.add_zero]
  rw [if_neg (by omega), if_neg (by omega), if_neg (by omega)]
  cases hl : (List.range (values.length - 2)).foldlM
      (inner_slope_step values slopes_in grid) [0] with
  | none =>
    simp only [true_iff]
    exact Or.inr (Or.inr (hinner.mp hl))
  | some sl =>
    have hno := hinner.not.mp (by rw [hl]; exact Option.some_ne_none sl)
    simp only
    by_cases hn2 : slopes_in.length = 2
    · rw [if_pos hn2, hc0]
      have e1 : values.length - 1 = 1 := by omega
      have e2 : values.length - 2 = 0 := by omega
      rw [e1, e2]
      rw [e2] at hno
      cases h0 : slopes_in.getD 0 none with
      | none =>
        cases h1 : slopes_in.getD 1 none with
        | none => simp [hno]
        | some two =>
          by_cases hc : two = fix_slope two (chord_slope values grid 0) (chord_slope values grid 0)
          · have : check_slope (chord_slope values grid 0) two = true := by
              unfold check_slope; exact decide_eq_true hc
            simp only [this, if_true, reduceCtorEq, false_iff]
            rintro (⟨s, hs', _⟩ | ⟨s, hs', hne⟩ | h)
            · cases hs'
            · simp only [Option.some.injEq] at hs'; subst hs'; exact hne hc
            · exact hno h
          · have : check_slope (chord_slope values grid 0) two = false := by
              unfold check_slope; exact decide_eq_false hc
            simp only [this, Bool.false_eq_true, if_false, true_iff]
            exact Or.inr (Or.inl ⟨two, rfl, hc⟩)
      | some one =>
        cases h1 : slopes_in.getD 1 none with
        | none =>
          by_cases hc : one = fix_slope one (chord_slope values grid 0) (chord_slope values grid 0)
          · have : check_slope (chord_slope values grid 0) one = true := by
              unfold check_slope; exact decide_eq_true hc
            simp only [this, if_true, reduceCtorEq, false_iff]
            rintro (⟨s, hs', hne⟩ | ⟨s, hs', _⟩ | h)
            · simp only [Option.some.injEq] at hs'; subst hs'; exact hne hc
            · cases hs'
            · exact hno h
          · have : check_slope (chord_slope values grid 0) one = false := by
              unfold check_slope; exact decide_eq_false hc
            simp only [this, Bool.false_eq_true, if_false, true_iff]
            exact Or.inl ⟨one, rfl, hc⟩
        | some two =>
          by_cases hc : one = fix_slope one (chord_slope values grid 0) (chord_slope values grid 0)
          · have c1 : check_slope (chord_slope values grid 0) one = true := by
              unfold check_slope; exact decide_eq_true hc
            by_cases hd : two
                = fix_slope two (chord_slope values grid 0) (chord_slope values grid 0)
            · have c2 : check_slope (chord_slope values grid 0) two = true := by
                unfold check_slope; exact decide_eq_true hd
              simp only [c1, c2, Bool.and_self, if_true, reduceCtorEq, false_iff]
              rintro (⟨s, hs', hne⟩ | ⟨s, hs', hne⟩ | h)
              · simp only [Option.some.injEq] at hs'; subst hs'; exact hne hc
              · simp only [Option.some.injEq] at hs'; subst hs'; exact hne hd
              · exact hno h
            · have c2 : check_slope (chord_slope values grid 0) two = false := by
                unfold check_slope; exact decide_eq_false hd
              simp only [c1, c2, Bool.and_false, Bool.false_eq_true, if_false, true_iff]
              exact Or.inr (Or.inl ⟨two, rfl, hd⟩)
          · have c1 : check_slope (chord_slope values grid 0) one = false := by
              unfold check_slope; exact decide_eq_false hc
            simp only [c1, Bool.false_and, Bool.false_eq_true, if_false, true_iff]
            exact Or.inl ⟨one, rfl, hc⟩
    · rw [if_neg hn2, hc0, hcl, headD_eq_getD, getLastD_eq_getD, hs]
      cases hf : end_slope_or_given (slopes_in.getD 0 none) (sl.getD 1 0)
          (chord_slope values grid 0) with
      | none =>
        simp only [true_iff]
        exact Or.inl ((end_slope_or_given_none_iff _ _ _).mp hf)
      | some first =>
        have hnf := (end_slope_or_given_none_iff _ _ _).not.mp
          (by rw [hf]; exact Option.some_ne_none first)
        simp only
        cases hla : end_slope_or_given (slopes_in.getD (values.length - 1) none)
            ((sl.set 0 first).getLastD 0) (chord_slope values grid (values.length - 2)) with
        | none =>
          simp only [true_iff]
          exact Or.inr (Or.inl ((end_slope_or_given_none_iff _ _ _).mp hla))
        | some last =>
          have hnl := (end_slope_or_given_none_iff _ _ _).not.mp
            (by rw [hla]; exact Option.some_ne_none last)
          simp only [reduceCtorEq, false_iff]
          rintro (h | h | h)
          · exact hnf h
          · exact hnl h
          · exact hno h
end
section
variable {S : Type} [LinearOrderedField S]

/-- For an open curve `_init` returns two slopes per segment. -/
theorem ShapePreservingCubicSpline.init_open_length (values : List S)
    (slopes_in : List (Option S)) (grid : List S) (r : List S × List S × List S)
    (h : ShapePreservingCubicSpline.init values slopes_in grid false = some r) :
    r.2.1.length = 2 * (values.length - 1) := by
  obtain ⟨_, _, hn, hlen, hslen⟩ := ShapePreservingCubicSpline.init_open values slopes_in grid r h
  unfold ShapePreservingCubicSpline.init at h
  simp only [Bool.false_eq_true, if_false, Bool.toNat_false, Nat.add_zero] at h
  rw [if_neg (by omega), if_neg (by omega), if_neg (by omega)] at h
  cases hloop : (List.range (values.length - 2)).foldlM
      (inner_slope_step values slopes_in grid) [0] with
  | none => rw [hloop] at h; cases h
  | some sl =>
    rw [hloop] at h
    simp only at h
    obtain ⟨hsl, _⟩ := inner_slopes_loop values slopes_in grid _ sl hloop
    by_cases h2 : slopes_in.length = 2
    · rw [if_pos h2] at h
      have hv2 : values.length = 2 := by omega
      rw [hv2]
      repeat' split at h
      all_goals cases h
      all_goals rfl
    · rw [if_neg h2] at h
      repeat' split at h
      all_goals cases h
      simp only [List.length_append, List.length_set, List.length_cons, List.length_nil, hsl]
      omega

/-- The value of `_fix_slope`: zero between chord slopes of different sign,
else the slope clamped between zero and three times the smaller chord slope,
with the sign of the chord on the right. -/
theorem fix_slope_eq (s l r : S) :
    fix_slope s l r =
      if l * r ≤ 0 then 0
      else if 0 < r then min (max 0 s) (3 * min |l| |r|)
      else -(min (max 0 (-s)) (3 * min |l| |r|)) := by
  unfold fix_slope
  by_cases h1 : l * r ≤ 0
  · rw [if_pos h1, if_pos h1]
  · rw [if_neg h1, if_neg h1]
    by_cases h2 : r > 0
    · rw [if_pos h2, if_pos h2]
    · rw [if_neg h2, if_neg h2, ← max_neg_neg, ← min_neg_neg, neg_zero, neg_neg, neg_mul]

/-- In exact arithmetic: for an open `ShapePreservingCubicSpline` with at least two values,
as many grid values and slopes as values, and a strictly ascending grid, the
constructor throws exactly when some given slope differs from what
`_fix_slope` makes of it between the chord slopes on the left and on the right
of its vertex (both the slope of the only adjacent chord at the first and at
the last vertex); `_fix_slope` returns zero when the chord slopes differ in
sign, else the slope clamped between zero and three times the smaller chord
slope, with the sign of the right chord; so a given slope of the wrong sign, or
steeper than three times the smaller chord slope, is always rejected. -/
theorem shape_preserving_fails_iff (values : List S) (slopes_in : List (Option S))
    (grid : List S) (h2 : 2 ≤ values.length) (hg : grid.length = values.length)
    (hs : slopes_in.length = values.length) (hasc : grid.Pairwise (· < ·)) :
    (ShapePreservingCubicSpline.construct values slopes_in grid false = none ↔
      ∃ k s, k < values.length ∧ slopes_in.getD k none = some s ∧
        s ≠ fix_slope s (left_chord values grid k) (right_chord values grid k)) ∧
    (∀ s l r : S, fix_slope s l r =
      if l * r ≤ 0 then 0
      else if 0 < r then min (max 0 s) (3 * min |l| |r|)
      else -(min (max 0 (-s)) (3 * min |l| |r|))) ∧
    (∀ k s, k < values.length → slopes_in.getD k none = some s →
      (s * left_chord values grid k < 0 ∨ s * right_chord values grid k < 0 ∨
        3 * min |left_chord values grid k| |right_chord values grid k| < |s|) →
      ShapePreservingCubicSpline.construct values slopes_in grid false = none) := by
  have hiff : ShapePreservingCubicSpline.construct values slopes_in grid false = none ↔
      ∃ k s, k < values.length ∧ slopes_in.getD k none = some s ∧
        s ≠ fix_slope s (left_chord values grid k) (right_chord values grid k) := by
    rw [← ShapePreservingCubicSpline.init_open_none_iff values slopes_in grid h2 hg hs]
    unfold ShapePreservingCubicSpline.construct
    cases hi : ShapePreservingCubicSpline.init values slopes_in grid false with
    | none => simp only
    | some r =>
      simp only [reduceCtorEq, iff_false]
      obtain ⟨hv, hgr, _, _, _⟩ := ShapePreservingCubicSpline.init_open values slopes_in grid r hi
      have hl := ShapePreservingCubicSpline.init_open_length values slopes_in grid r hi
      rw [CubicHermiteSpline.hermite_construct_none_iff, hv, hgr]
      rintro (hc | hc | hc | ⟨i, hi2, hle⟩)
      · omega
      · exact hc hl
      · exact hc hg
      · rw [List.getD_eq_getElem _ _ hi2,
          List.getD_eq_getElem _ _ (by omega : i < grid.length)] at hle
        exact absurd (pairwise_lt_getElem hasc (Nat.lt_succ_self i) hi2) (not_lt.mpr hle)
  exact ⟨hiff, fix_slope_eq, fun k s hk hsk hbad =>
    hiff.mpr ⟨k, s, hk, hsk, fix_slope_rejects s _ _ hbad⟩⟩

theorem shape_preserving_fails_iff_witness :
    (2 ≤ [(0 : ℚ), 1, 3].length ∧ [(0 : ℚ), 1, 2].length = [(0 : ℚ), 1, 3].length ∧
      [none, some (10 : ℚ), none].length = [(0 : ℚ), 1, 3].length ∧
      [(0 : ℚ), 1, 2].Pairwise (· < ·)) ∧
    ((ShapePreservingCubicSpline.construct [(0 : ℚ), 1, 3] [none, some (10 : ℚ), none]
        [(0 : ℚ), 1, 2] false = none ↔
      ∃ k s, k < [(0 : ℚ), 1, 3].length ∧ [none, some (10 : ℚ), none].getD k none = some s ∧
        s ≠ fix_slope s (left_chord [(0 : ℚ), 1, 3] [(0 : ℚ), 1, 2] k)
          (right_chord [(0 : ℚ), 1, 3] [(0 : ℚ), 1, 2] k)) ∧
    (∀ s l r : ℚ, fix_slope s l r =
      if l * r ≤ 0 then 0
      else if 0 < r then min (max 0 s) (3 * min |l| |r|)
      else -(min (max 0 (-s)) (3 * min |l| |r|))) ∧
    (∀ k s, k < [(0 : ℚ), 1, 3].length → [none, some (10 : ℚ), none].getD k none = some s →
      (s * left_chord [(0 : ℚ), 1, 3] [(0 : ℚ), 1, 2] k < 0 ∨
        s * right_chord [(0 : ℚ), 1, 3] [(0 : ℚ), 1, 2] k < 0 ∨
        3 * min |left_chord [(0 : ℚ), 1, 3] [(0 : ℚ), 1, 2] k|
          |right_chord [(0 : ℚ), 1, 3] [(0 : ℚ), 1, 2] k| < |s|) →
      ShapePreservingCubicSpline.construct [(0 : ℚ), 1, 3] [none, some (10 : ℚ), none]
        [(0 : ℚ), 1, 2] false = none)) :=
  ⟨⟨by decide, by decide, by decide, by decide!⟩,
    shape_preserving_fails_iff [(0 : ℚ), 1, 3] [none, some (10 : ℚ), none] [(0 : ℚ), 1, 2]
      (by decide) (by decide) (by decide) (by decide!)⟩
end

/-! ## bisect at the end points; the size test of a closed shape-preserving spline -/

section
variable {S : Type} [LinearOrderedField S]

/-- C22: when `f(lo)` and `f(hi)` are both non-zero and of the same sign,
`bisect` returns `lo` if `|f(lo)| < |f(hi)|` and `hi` otherwise, after exactly
two evaluations of `f`; when `f(lo) = 0` it returns `lo` (after one
evaluation), and when `f(lo) != 0` and `f(hi) = 0` it returns `hi` (after
two). -/
theorem bisect_endpoints (f : S → S) (lo hi xtol : S) (max_calls : Nat) :
    (0 < f lo * f hi →
      bisect f lo hi xtol max_calls = (if |f lo| < |f hi| then lo else hi) ∧
      (bisect_run f lo hi xtol max_calls).calls = 2) ∧
    (f lo = 0 →
      bisect f lo hi xtol max_calls = lo ∧ (bisect_run f lo hi xtol max_calls).calls = 1) ∧
    (f lo ≠ 0 → f hi = 0 →
      bisect f lo hi xtol max_calls = hi ∧ (bisect_run f lo hi xtol max_calls).calls = 2) := by
  refine ⟨fun h => ?_, fun h => ?_, fun h1 h2 => ?_⟩
  · have h1 : f lo ≠ 0 := by intro h0; rw [h0] at h; simp at h
    have h2 : f hi ≠ 0 := by intro h0; rw [h0] at h; simp at h
    unfold bisect bisect_run
    simp only [if_neg h1, if_neg h2, if_neg (not_lt.mpr (le_of_lt h)), and_self]
  · unfold bisect bisect_run
    simp only [if_pos h, and_self]
  · unfold bisect bisect_run
    simp only [if_neg h1, if_pos h2, and_self]

/-- With `closed = true` the size test of `_init` rejects every input whose
grid has one value more than there are values, such as three values over the
grid `[0, 1, 2, 3]`; what it lets through has one grid value fewer than
values. -/
theorem closed_size_check_rejects_one_more :
    ShapePreservingCubicSpline.init [(0 : ℚ), 1, 0] [none, none, none] [0, 1, 2, 3] true = none ∧
    (∀ (values : List S) (slopes : List (Option S)) (grid : List S),
      grid.length = values.length + 1 →
        ShapePreservingCubicSpline.init values slopes grid true = none) ∧
    (∀ (values : List S) (slopes : List (Option S)) (grid : List S),
      ShapePreservingCubicSpline.init values slopes grid true ≠ none →
        values.length = grid.length + 1) := by
  refine ⟨by decide!, fun values slopes grid h => ?_, fun values slopes grid h => ?_⟩
  · unfold ShapePreservingCubicSpline.init
    by_cases h1 : values.length < 2
    · rw [if_pos h1]
    · rw [if_neg h1, if_pos (by simp only [Bool.toNat_true]; omega)]
  · by_contra hc
    apply h
    unfold ShapePreservingCubicSpline.init
    by_cases h1 : values.length < 2
    · rw [if_pos h1]
    · rw [if_neg h1, if_pos (by simp only [Bool.toNat_true]; exact hc)]
end

/-! ## The slopes at the ends of a shape-preserving spline -/

section
variable {S : Type} [LinearOrderedField S]

end
section
variable {S : Type} [LinearOrderedField S]

end

/-! ## MonotoneCubicSpline: inversion by bisection -/

section
variable {S : Type} [LinearOrderedField S]

/-- The loop of `bisect` entered with a bracket no wider than `2 ^ j` times
the tolerance makes at most `j` evaluations. -/
theorem bisect_loop_calls_width (f : S → S) (xtol : S) :
    ∀ (j n calls : Nat) (xmin xmax fmin fmax : S), xmax - xmin ≤ 2 ^ j * xtol →
      (bisect_loop f xtol n calls xmin xmax fmin fmax).calls ≤ calls + j := by
  intro j
  induction j with
  | zero =>
    intro n calls xmin xmax fmin fmax hw
    simp only [pow_zero, one_mul] at hw
    cases n with
    | zero => rw [bisect_loop]; exact le_refl _
    | succ n =>
      rw [bisect_loop, if_neg (not_lt.mpr hw)]
      exact le_refl _
  | succ j ih =>
    intro n calls xmin xmax fmin fmax hw
    cases n with
    | zero => rw [bisect_loop]; simp only; omega
    | succ n =>
      rw [bisect_loop]
      by_cases hwd : xmax - xmin > xtol
      · rw [if_pos hwd]
        simp only
        by_cases hmid : (xmin + xmax) / 2 = xmin ∨ (xmin + xmax) / 2 = xmax
        · rw [if_pos hmid]; simp only; omega
        · rw [if_neg hmid]
          by_cases hz : f ((xmin + xmax) / 2) = 0
          · rw [if_pos hz]; simp only; omega
          · rw [if_neg hz]
            have hpow : (2 : S) ^ (j + 1) * xtol = 2 * (2 ^ j * xtol) := by rw [pow_succ]; ring
            rw [hpow] at hw
            by_cases hs : fmin * f ((xmin + xmax) / 2) < 0
            · rw [if_pos hs]
              have := ih n (calls + 1) xmin ((xmin + xmax) / 2) fmin (f ((xmin + xmax) / 2))
                (by linarith)
              omega
            · rw [if_neg hs]
              have := ih n (calls + 1) ((xmin + xmax) / 2) xmax (f ((xmin + xmax) / 2)) fmax
                (by linarith)
              omega
      · rw [if_neg hwd]; simp only; omega

/-- The value returned by `bisect` lies in the bracket. -/
theorem bisect_run_range (f : S → S) (lo hi xtol : S) (max_calls : Nat) (hle : lo ≤ hi) :
    lo ≤ (bisect_run f lo hi xtol max_calls).result ∧
      (bisect_run f lo hi xtol max_calls).result ≤ hi := by
  unfold bisect_run
  by_cases h1 : f lo = 0
  · simp only [if_pos h1]; exact ⟨le_refl _, hle⟩
  simp only [if_neg h1]
  by_cases h2 : f hi = 0
  · simp only [if_pos h2]; exact ⟨hle, le_refl _⟩
  simp only [if_neg h2]
  by_cases h3 : f lo * f hi < 0
  · simp only [if_pos h3]
    exact bisect_loop_range f xtol lo hi _ _ lo hi _ _ (le_refl _) hle (le_refl _)
  · simp only [if_neg h3]
    by_cases h4 : |f lo| < |f hi|
    · simp only [if_pos h4]; exact ⟨le_refl _, hle⟩
    · simp only [if_neg h4]; exact ⟨hle, le_refl _⟩

/-- With a sign change over `[0, 1]`, the tolerance `0.0001` and a budget of
500, `bisect` stops after at most 16 evaluations on a root of `f` or on a
bound of a bracket with a sign change that is no wider than the tolerance. -/
theorem bisect_unit_interval (f : S → S) (hsign : f 0 * f 1 < 0) :
    (bisect_run f 0 1 0.0001 500).calls ≤ 16 ∧
    0 ≤ (bisect_run f 0 1 0.0001 500).result ∧ (bisect_run f 0 1 0.0001 500).result ≤ 1 ∧
    (f (bisect_run f 0 1 0.0001 500).result = 0 ∨
      (((bisect_run f 0 1 0.0001 500).result = (bisect_run f 0 1 0.0001 500).xmin ∨
          (bisect_run f 0 1 0.0001 500).result = (bisect_run f 0 1 0.0001 500).xmax) ∧
        0 ≤ (bisect_run f 0 1 0.0001 500).xmin ∧
        (bisect_run f 0 1 0.0001 500).xmin < (bisect_run f 0 1 0.0001 500).xmax ∧
        (bisect_run f 0 1 0.0001 500).xmax ≤ 1 ∧
        f (bisect_run f 0 1 0.0001 500).xmin * f (bisect_run f 0 1 0.0001 500).xmax < 0 ∧
        (bisect_run f 0 1 0.0001 500).xmax - (bisect_run f 0 1 0.0001 500).xmin ≤ 0.0001)) := by
  have hcalls : (bisect_run f 0 1 0.0001 500).calls ≤ 16 := by
    have h1 : f 0 ≠ 0 := by intro h; rw [h] at hsign; simp at hsign
    have h2 : f 1 ≠ 0 := by intro h; rw [h] at hsign; simp at hsign
    unfold bisect_run
    simp only [if_neg h1, if_neg h2, if_pos hsign]
    exact bisect_loop_calls_width f 0.0001 14 _ 2 0 1 _ _ (by norm_num)
  obtain ⟨hr0, hr1⟩ := bisect_run_range f 0 1 0.0001 500 zero_le_one
  refine ⟨hcalls, hr0, hr1, ?_⟩
  have hpost := bisect_run_sign_change f 0 1 0.0001 500 (by norm_num) zero_le_one hsign
    (fun _ _ => True) trivial (fun _ _ _ _ _ _ _ => ⟨fun _ => trivial, fun _ => trivial⟩)
  unfold BisectPost at hpost
  rcases hpost with h | ⟨hres, a, b, c, d, _, e⟩
  · exact Or.inl h
  · right
    refine ⟨?_, a, b, c, d, ?_⟩
    · rw [hres]
      by_cases hc : |f (bisect_run f 0 1 0.0001 500).xmin| < |f (bisect_run f 0 1 0.0001 500).xmax|
      · rw [if_pos hc]; exact Or.inl rfl
      · rw [if_neg hc]; exact Or.inr rfl
    · rcases e with e | e
      · exact e
      · omega
end
section
variable {S : Type} [LinearOrderedField S]

/-- The last branch of `get_time`: the value lies strictly between two stored
values, and the time is found by bisection on the segment between them. -/
theorem get_time_bisect (m : MonotoneCubicSpline S) (v : S) (i : Nat)
    (h1 : upper_bound m.values v = i + 1) (h2 : lower_bound m.values v = i + 1)
    (h3 : i + 1 < m.values.length) :
    m.get_time v = some
      (bisect (fun t : S => (((m.curve.segments.getD i default).a3 * t
          + (m.curve.segments.getD i default).a2) * t
          + (m.curve.segments.getD i default).a1) * t
          + ((m.curve.segments.getD i default).a0 - v)) 0 1 0.0001 500
        * (m.curve.grid.getD (i + 1) 0 - m.curve.grid.getD i 0) + m.curve.grid.getD i 0) := by
  have e1 : upper_bound m.values v ≠ 0 := by omega
  have e2 : lower_bound m.values v ≠ m.values.length := by omega
  have e3 : ¬ (((upper_bound m.values v : Nat) : Int) - ((lower_bound m.values v : Nat) : Int) = 1) := by
    omega
  have e4 : ¬ (((upper_bound m.values v : Nat) : Int) - ((lower_bound m.values v : Nat) : Int) > 1) := by
    omega
  simp only [MonotoneCubicSpline.get_time, if_neg e1, if_neg e2, if_neg e3, if_neg e4]
  rw [h1]
  simp only [Nat.add_sub_cancel]

/-- The two searches of `get_time` for a value strictly between two
consecutive stored values. -/
theorem bounds_between (values : List S) (hv : values.Pairwise (· ≤ ·)) (v : S) (i : Nat)
    (hi : i + 1 < values.length) (hlo : values.getD i 0 < v) (hhi : v < values.getD (i + 1) 0) :
    upper_bound values v = i + 1 ∧ lower_bound values v = i + 1 := by
  have hi0 : i < values.length := by omega
  rw [List.getD_eq_getElem _ _ hi0] at hlo
  rw [List.getD_eq_getElem _ _ hi] at hhi
  have a := lt_upper_bound hv hi0 (le_of_lt hlo)
  have b := upper_bound_le hi hhi
  have c := lt_lower_bound hv hi0 hlo
  have d := lower_bound_le hi (le_of_lt hhi)
  omega

/-- The cubic that `get_time` hands to `bisect` for a value strictly between
the stored values `i` and `i + 1`: it is negative at 0 and positive at 1, and
at a root `r` strictly between 0 and 1 the spline has that value at the time
`r (grid[i+1] - grid[i]) + grid[i]`. -/
theorem get_time_cubic (values : List S) (slopes : List (Option S)) (grid : List S)
    (m : MonotoneCubicSpline S)
    (h : MonotoneCubicSpline.construct values slopes grid = some m) (v : S) (i : Nat)
    (hi : i + 1 < values.length) (hlo : values.getD i 0 < v) (hhi : v < values.getD (i + 1) 0) :
    (((m.curve.segments.getD i default).a3 * 0 + (m.curve.segments.getD i default).a2) * 0
        + (m.curve.segments.getD i default).a1) * 0
        + ((m.curve.segments.getD i default).a0 - v) < 0 ∧
    0 < (((m.curve.segments.getD i default).a3 * 1 + (m.curve.segments.getD i default).a2) * 1
        + (m.curve.segments.getD i default).a1) * 1
        + ((m.curve.segments.getD i default).a0 - v) ∧
    grid.getD i 0 < grid.getD (i + 1) 0 ∧ m.curve.grid = grid ∧
    ∀ r : S, 0 < r → r < 1 →
      (((m.curve.segments.getD i default).a3 * r + (m.curve.segments.getD i default).a2) * r
        + (m.curve.segments.getD i default).a1) * r
        + ((m.curve.segments.getD i default).a0 - v) = 0 →
      m.curve.evaluate (r * (grid.getD (i + 1) 0 - grid.getD i 0) + grid.getD i 0) = v := by
  obtain ⟨_, _, slopes', _, hc⟩ := MonotoneCubicSpline.monotone_construct_some values slopes grid m h
  obtain ⟨hn, _, hlen, hpw, hcg, _⟩ :=
    CubicHermiteSpline.hermite_construct_some values slopes' grid m.curve hc
  have hsl := CubicHermiteSpline.segments_length values slopes' grid m.curve hc
  have hseg := CubicHermiteSpline.segment_getD values slopes' grid m.curve hc i hi
  have he0 := hermite_segment_eval_zero (values.getD i 0) (values.getD (i + 1) 0)
    (slopes'.getD (2 * i) 0) (slopes'.getD (2 * i + 1) 0) (grid.getD i 0) (grid.getD (i + 1) 0)
  have he1 := hermite_segment_eval_one (values.getD i 0) (values.getD (i + 1) 0)
    (slopes'.getD (2 * i) 0) (slopes'.getD (2 * i + 1) 0) (grid.getD i 0) (grid.getD (i + 1) 0)
  rw [← hseg] at he0 he1
  simp only [Segment.eval, smul_eq_mul] at he0 he1
  have hgl : ∀ a b, a < b → b < grid.length → grid.getD a 0 < grid.getD b 0 := by
    intro a b hab hb
    rw [List.getD_eq_getElem _ _ (by omega : a < grid.length), List.getD_eq_getElem _ _ hb]
    exact pairwise_lt_getElem hpw hab hb
  have hgi := hgl i (i + 1) (Nat.lt_succ_self i) (by omega)
  refine ⟨by linarith, by linarith, hgi, hcg, fun r hr0 hr1 hroot => ?_⟩
  have hd : 0 < grid.getD (i + 1) 0 - grid.getD i 0 := sub_pos.mpr hgi
  have ht0 : grid.getD i 0 < r * (grid.getD (i + 1) 0 - grid.getD i 0) + grid.getD i 0 := by
    have := mul_pos hr0 hd
    linarith
  have ht1 : r * (grid.getD (i + 1) 0 - grid.getD i 0) + grid.getD i 0 < grid.getD (i + 1) 0 := by
    have := mul_lt_mul_of_pos_right hr1 hd
    linarith
  obtain ⟨j, hj, e, l1, _, _, _, p3⟩ := m.curve.locate (by rw [hcg]; exact hpw)
    (by rw [hcg]; omega) hsl (r * (grid.getD (i + 1) 0 - grid.getD i 0) + grid.getD i 0)
  rw [hcg] at hj e l1 p3
  have hfront : grid.getD 0 0 ≤ grid.getD i 0 := by
    rcases Nat.eq_zero_or_pos i with h0 | h0
    · rw [h0]
    · exact le_of_lt (hgl 0 i h0 (by omega))
  have hback : grid.getD (i + 1) 0 ≤ grid.getD (grid.length - 1) 0 := by
    rcases Nat.lt_or_ge (i + 1) (grid.length - 1) with h0 | h0
    · exact le_of_lt (hgl _ _ h0 (by omega))
    · have : i + 1 = grid.length - 1 := by omega
      rw [this]
  have hclamp : max (grid.getD 0 0)
      (min (r * (grid.getD (i + 1) 0 - grid.getD i 0) + grid.getD i 0)
        (grid.getD (grid.length - 1) 0))
      = r * (grid.getD (i + 1) 0 - grid.getD i 0) + grid.getD i 0 := by
    rw [min_eq_left (by linarith), max_eq_right (by linarith)]
  rw [hclamp] at e l1
  have p3' := p3 (by linarith) (by linarith)
  have hji : j = i := by
    rcases Nat.lt_trichotomy j i with hlt | heq | hgt
    · have : grid.getD (j + 1) 0 ≤ grid.getD i 0 := by
        rcases Nat.lt_or_ge (j + 1) i with h0 | h0
        · exact le_of_lt (hgl _ _ h0 (by omega))
        · have : j + 1 = i := by omega
          rw [this]
      linarith
    · exact heq
    · have : grid.getD (i + 1) 0 ≤ grid.getD j 0 := by
        rcases Nat.lt_or_ge (i + 1) j with h0 | h0
        · exact le_of_lt (hgl _ _ h0 (by omega))
        · have : i + 1 = j := by omega
          rw [this]
      linarith
  subst hji
  unfold PiecewiseCubicCurve.evaluate
  simp only [e, Segment.eval, smul_eq_mul]
  have hu : (r * (grid.getD (j + 1) 0 - grid.getD j 0) + grid.getD j 0 - grid.getD j 0) /
      (grid.getD (j + 1) 0 - grid.getD j 0) = r := by
    rw [add_sub_cancel_right, mul_div_assoc, div_self (ne_of_gt hd), mul_one]
  rw [hu]
  linarith
end
/-- A cubic with a sign change between `a` and `b` has a root between them. -/
theorem cubic_root_between (a3 a2 a1 a0 a b : ℝ) (hab : a ≤ b)
    (hs : (((a3 * a + a2) * a + a1) * a + a0) * (((a3 * b + a2) * b + a1) * b + a0) < 0) :
    ∃ r, a ≤ r ∧ r ≤ b ∧ ((a3 * r + a2) * r + a1) * r + a0 = 0 := by
  have hc : Continuous (fun t : ℝ => ((a3 * t + a2) * t + a1) * t + a0) := by fun_prop
  rcases lt_or_le (((a3 * a + a2) * a + a1) * a + a0) 0 with hneg | hpos
  · have hb : 0 < ((a3 * b + a2) * b + a1) * b + a0 := by
      by_contra hc2
      push_neg at hc2
      have := mul_nonneg_of_nonpos_of_nonpos (le_of_lt hneg) hc2
      linarith
    obtain ⟨r, hr, hr0⟩ := intermediate_value_Icc hab hc.continuousOn
      (Set.mem_Icc.mpr ⟨le_of_lt hneg, le_of_lt hb⟩)
    exact ⟨r, hr.1, hr.2, hr0⟩
  · have hb : ((a3 * b + a2) * b + a1) * b + a0 ≤ 0 := by
      by_contra hc2
      push_neg at hc2
      have := mul_nonneg hpos (le_of_lt hc2)
      linarith
    obtain ⟨r, hr, hr0⟩ := intermediate_value_Icc' hab hc.continuousOn
      (Set.mem_Icc.mpr ⟨hb, hpos⟩)
    exact ⟨r, hr.1, hr.2, hr0⟩

/-- In exact arithmetic, over the real numbers: for a constructed `MonotoneCubicSpline` and a
value `v` strictly between the stored values `i` and `i + 1`, `get_time(v)`
returns a time `t` between `grid[i]` and `grid[i + 1]`, and there is a time
`tstar` in the same interval at which the spline has exactly the value `v` and
which is no further from `t` than `0.0001 (grid[i + 1] - grid[i])`; the
bisection makes at most 16 of its 500 evaluations, and it stops on a root or
on a bracket no wider than the tolerance. -/
theorem get_time_between (values : List ℝ) (slopes : List (Option ℝ)) (grid : List ℝ)
    (m : MonotoneCubicSpline ℝ)
    (h : MonotoneCubicSpline.construct values slopes grid = some m) (v : ℝ) (i : Nat)
    (hi : i + 1 < values.length) (hlo : values.getD i 0 < v) (hhi : v < values.getD (i + 1) 0) :
    (∃ t tstar : ℝ, m.get_time v = some t ∧
      grid.getD i 0 ≤ t ∧ t ≤ grid.getD (i + 1) 0 ∧
      grid.getD i 0 ≤ tstar ∧ tstar ≤ grid.getD (i + 1) 0 ∧
      m.curve.evaluate tstar = v ∧
      |t - tstar| ≤ 0.0001 * (grid.getD (i + 1) 0 - grid.getD i 0)) ∧
    (bisect_run (fun t : ℝ => (((m.curve.segments.getD i default).a3 * t
          + (m.curve.segments.getD i default).a2) * t
          + (m.curve.segments.getD i default).a1) * t
          + ((m.curve.segments.getD i default).a0 - v)) 0 1 0.0001 500).calls ≤ 16 ∧
    ((fun t : ℝ => (((m.curve.segments.getD i default).a3 * t
          + (m.curve.segments.getD i default).a2) * t
          + (m.curve.segments.getD i default).a1) * t
          + ((m.curve.segments.getD i default).a0 - v))
        (bisect_run (fun t : ℝ => (((m.curve.segments.getD i default).a3 * t
          + (m.curve.segments.getD i default).a2) * t
          + (m.curve.segments.getD i default).a1) * t
          + ((m.curve.segments.getD i default).a0 - v)) 0 1 0.0001 500).result = 0 ∨
      (bisect_run (fun t : ℝ => (((m.curve.segments.getD i default).a3 * t
          + (m.curve.segments.getD i default).a2) * t
          + (m.curve.segments.getD i default).a1) * t
          + ((m.curve.segments.getD i default).a0 - v)) 0 1 0.0001 500).xmax
        - (bisect_run (fun t : ℝ => (((m.curve.segments.getD i default).a3 * t
          + (m.curve.segments.getD i default).a2) * t
          + (m.curve.segments.getD i default).a1) * t
          + ((m.curve.segments.getD i default).a0 - v)) 0 1 0.0001 500).xmin ≤ 0.0001) := by
  obtain ⟨hf0, hf1, hgi, hcg, hroot⟩ := get_time_cubic values slopes grid m h v i hi hlo hhi
  obtain ⟨hmv, hsorted, _⟩ := MonotoneCubicSpline.monotone_construct_some values slopes grid m h
  obtain ⟨hub, hlb⟩ := bounds_between values hsorted v i hi hlo hhi
  rw [← hmv] at hub hlb hi
  have hgt := get_time_bisect m v i hub hlb hi
  rw [hcg] at hgt
  unfold bisect at hgt
  have hsign := mul_neg_of_neg_of_pos hf0 hf1
  obtain ⟨hcalls, hr0, hr1, hstop⟩ := bisect_unit_interval
    (fun t : ℝ => (((m.curve.segments.getD i default).a3 * t
          + (m.curve.segments.getD i default).a2) * t
          + (m.curve.segments.getD i default).a1) * t
          + ((m.curve.segments.getD i default).a0 - v)) hsign
  have hd : 0 < grid.getD (i + 1) 0 - grid.getD i 0 := sub_pos.mpr hgi
  generalize hres : bisect_run (fun t : ℝ => (((m.curve.segments.getD i default).a3 * t
          + (m.curve.segments.getD i default).a2) * t
          + (m.curve.segments.getD i default).a1) * t
          + ((m.curve.segments.getD i default).a0 - v)) 0 1 0.0001 500 = res
    at hgt hcalls hr0 hr1 hstop ⊢
  have hinside : ∀ r : ℝ, 0 ≤ r → r ≤ 1 →
      (((m.curve.segments.getD i default).a3 * r + (m.curve.segments.getD i default).a2) * r
        + (m.curve.segments.getD i default).a1) * r
        + ((m.curve.segments.getD i default).a0 - v) = 0 → 0 < r ∧ r < 1 := by
    intro r h0 h1 hz
    constructor
    · rcases lt_or_eq_of_le h0 with hlt | heq
      · exact hlt
      · rw [← heq] at hz; linarith
    · rcases lt_or_eq_of_le h1 with hlt | heq
      · exact hlt
      · rw [heq] at hz; linarith
  have ht0 : grid.getD i 0 ≤ res.result * (grid.getD (i + 1) 0 - grid.getD i 0) + grid.getD i 0 := by
    have := mul_nonneg hr0 (le_of_lt hd)
    linarith
  have ht1 : res.result * (grid.getD (i + 1) 0 - grid.getD i 0) + grid.getD i 0
      ≤ grid.getD (i + 1) 0 := by
    have := mul_le_mul_of_nonneg_right hr1 (le_of_lt hd)
    linarith
  have key : ∃ r : ℝ, 0 < r ∧ r < 1 ∧
      (((m.curve.segments.getD i default).a3 * r + (m.curve.segments.getD i default).a2) * r
        + (m.curve.segments.getD i default).a1) * r
        + ((m.curve.segments.getD i default).a0 - v) = 0 ∧ |res.result - r| ≤ 0.0001 := by
    rcases hstop with hz | ⟨hends, a, b, c, d, e⟩
    · obtain ⟨p, q⟩ := hinside res.result hr0 hr1 hz
      exact ⟨res.result, p, q, hz, by rw [sub_self, abs_zero]; norm_num⟩
    · obtain ⟨r, hra, hrb, hrz⟩ := cubic_root_between _ _ _ _ res.xmin res.xmax (le_of_lt b) d
      obtain ⟨p, q⟩ := hinside r (by linarith) (by linarith) hrz
      refine ⟨r, p, q, hrz, ?_⟩
      rw [abs_le]
      rcases hends with he | he <;> rw [he] <;> constructor <;> linarith
  obtain ⟨r, hr0', hr1', hrz, hclose⟩ := key
  refine ⟨⟨_, r * (grid.getD (i + 1) 0 - grid.getD i 0) + grid.getD i 0, hgt, ht0, ht1, ?_, ?_,
    hroot r hr0' hr1' hrz, ?_⟩, hcalls, ?_⟩
  · have := mul_pos hr0' hd
    linarith
  · have := mul_lt_mul_of_pos_right hr1' hd
    linarith
  · have e : res.result * (grid.getD (i + 1) 0 - grid.getD i 0) + grid.getD i 0
        - (r * (grid.getD (i + 1) 0 - grid.getD i 0) + grid.getD i 0)
        = (res.result - r) * (grid.getD (i + 1) 0 - grid.getD i 0) := by ring
    rw [e, abs_mul, abs_of_pos hd]
    exact mul_le_mul_of_nonneg_right hclose (le_of_lt hd)
  · rcases hstop with hz | ⟨_, _, _, _, _, e⟩
    · exact Or.inl hz
    · exact Or.inr e
theorem unit_ramp_construct :
    MonotoneCubicSpline.construct [(0 : ℝ), 1] [none, none] [(0 : ℝ), 1] = some unit_ramp := by
  simp [MonotoneCubicSpline.construct, ShapePreservingCubicSpline.construct,
    ShapePreservingCubicSpline.init, CubicHermiteSpline.construct, has_adjacent_ge, is_sorted,
    hermite_segment, unit_ramp, List.foldlM, List.range, List.range.loop]
  norm_num

theorem get_time_between_witness :
    (MonotoneCubicSpline.construct [(0 : ℝ), 1] [none, none] [(0 : ℝ), 1] = some unit_ramp ∧
      0 + 1 < [(0 : ℝ), 1].length ∧ [(0 : ℝ), 1].getD 0 0 < 1 / 3 ∧
      (1 / 3 : ℝ) < [(0 : ℝ), 1].getD (0 + 1) 0) ∧
    ((∃ t tstar : ℝ, unit_ramp.get_time (1 / 3) = some t ∧
      [(0 : ℝ), 1].getD 0 0 ≤ t ∧ t ≤ [(0 : ℝ), 1].getD (0 + 1) 0 ∧
      [(0 : ℝ), 1].getD 0 0 ≤ tstar ∧ tstar ≤ [(0 : ℝ), 1].getD (0 + 1) 0 ∧
      unit_ramp.curve.evaluate tstar = 1 / 3 ∧
      |t - tstar| ≤ 0.0001 * ([(0 : ℝ), 1].getD (0 + 1) 0 - [(0 : ℝ), 1].getD 0 0)) ∧
    (bisect_run (fun t : ℝ => (((unit_ramp.curve.segments.getD 0 default).a3 * t
          + (unit_ramp.curve.segments.getD 0 default).a2) * t
          + (unit_ramp.curve.segments.getD 0 default).a1) * t
          + ((unit_ramp.curve.segments.getD 0 default).a0 - 1 / 3)) 0 1 0.0001 500).calls ≤ 16 ∧
    ((fun t : ℝ => (((unit_ramp.curve.segments.getD 0 default).a3 * t
          + (unit_ramp.curve.segments.getD 0 default).a2) * t
          + (unit_ramp.curve.segments.getD 0 default).a1) * t
          + ((unit_ramp.curve.segments.getD 0 default).a0 - 1 / 3))
        (bisect_run (fun t : ℝ => (((unit_ramp.curve.segments.getD 0 default).a3 * t
          + (unit_ramp.curve.segments.getD 0 default).a2) * t
          + (unit_ramp.curve.segments.getD 0 default).a1) * t
          + ((unit_ramp.curve.segments.getD 0 default).a0 - 1 / 3)) 0 1 0.0001 500).result = 0 ∨
      (bisect_run (fun t : ℝ => (((unit_ramp.curve.segments.getD 0 default).a3 * t
          + (unit_ramp.curve.segments.getD 0 default).a2) * t
          + (unit_ramp.curve.segments.getD 0 default).a1) * t
          + ((unit_ramp.curve.segments.getD 0 default).a0 - 1 / 3)) 0 1 0.0001 500).xmax
        - (bisect_run (fun t : ℝ => (((unit_ramp.curve.segments.getD 0 default).a3 * t
          + (unit_ramp.curve.segments.getD 0 default).a2) * t
          + (unit_ramp.curve.segments.getD 0 default).a1) * t
          + ((unit_ramp.curve.segments.getD 0 default).a0 - 1 / 3)) 0 1 0.0001 500).xmin
        ≤ 0.0001)) :=
  ⟨⟨unit_ramp_construct, by decide, by norm_num, by norm_num⟩,
    get_time_between [(0 : ℝ), 1] [none, none] [(0 : ℝ), 1] unit_ramp unit_ramp_construct (1 / 3) 0
      (by decide) (by norm_num) (by norm_num)⟩

/-! ## The table of lengths of the time-to-length spline -/

section

theorem countP_lt_succ (l : List Nat) (k : Nat) :
    l.countP (fun m => decide (m < k + 1))
      = l.countP (fun m => decide (m < k)) + l.count k := by
  induction l with
  | nil => rfl
  | cons x xs ih =>
    rw [List.countP_cons, List.countP_cons, List.count_cons, ih]
    by_cases h1 : x < k
    · have h2 : x < k + 1 := by omega
      have h3 : ¬ (x = k) := by omega
      simp only [h1, h2, decide_True, if_true, beq_iff_eq, h3, if_false]
      omega
    · by_cases h2 : x = k
      · subst h2
        simp only [lt_irrefl, decide_False, Nat.lt_succ_self, decide_True, if_true, beq_self_eq_true,
          Bool.false_eq_true, if_false]
        omega
      · have h3 : ¬ (x < k + 1) := by omega
        simp only [h1, h3, decide_False, Bool.false_eq_true, if_false, beq_iff_eq, h2]
        omega

/-- Counting the indices below `k + 1` in a strictly increasing list. -/
theorem countP_lt_succ_of_pairwise (l : List Nat) (hp : l.Pairwise (· < ·)) (k : Nat) :
    l.countP (fun m => decide (m < k + 1))
      = l.countP (fun m => decide (m < k)) + (if k ∈ l then 1 else 0) := by
  rw [countP_lt_succ]
  have hnd : l.Nodup := hp.imp (fun h => ne_of_lt h)
  by_cases hk : k ∈ l
  · rw [if_pos hk, List.count_eq_one_of_mem hnd hk]
  · rw [if_neg hk, List.count_eq_zero_of_not_mem hk]

theorem countP_lt_eq_length (l : List Nat) (k : Nat) (h : ∀ m ∈ l, m < k) :
    l.countP (fun m => decide (m < k)) = l.length := by
  rw [List.countP_eq_length]
  intro m hm
  exact decide_eq_true (h m hm)
end

section
variable {S V : Type} [LinearOrderedField S] [AddCommGroup V] [Module S V]

omit [LinearOrderedField S] [AddCommGroup V] [Module S V] in
/-- When the `CLOSED` marker can only be the last record, the points of the
records sit at the index of their record, and there is one point per record
other than the marker. -/
theorem points_of_records : ∀ (data : List (AsdfVertex S V)),
    (∀ (k : Nat) (vert : AsdfVertex S V), data[k]? = some vert →
      vert.position = Position.CLOSED → k = data.length - 1) →
    (∀ (k : Nat) (vert : AsdfVertex S V) (p : V), data[k]? = some vert →
      vert.position = Position.point p →
      (data.filterMap fun v => v.position.toOption)[k]? = some p) ∧
    (data.filterMap fun v => v.position.toOption).length
      + (match data.getLast? with
          | some ⟨Position.CLOSED, _, _, _⟩ => true
          | _ => false).toNat = data.length := by
  intro data
  induction data with
  | nil => intro _; exact ⟨fun k vert p hk => by simp at hk, rfl⟩
  | cons x xs ih =>
    intro hc
    cases xs with
    | nil =>
      obtain ⟨pos, t, sp, tcb⟩ := x
      cases pos with
      | point p =>
        refine ⟨fun k vert q hk hq => ?_, rfl⟩
        cases k with
        | zero =>
          simp only [List.getElem?_cons_zero, Option.some.injEq] at hk
          subst hk
          simp only [Position.point.injEq] at hq
          subst hq
          rfl
        | succ k => simp at hk
      | CLOSED =>
        refine ⟨fun k vert q hk hq => ?_, rfl⟩
        cases k with
        | zero =>
          simp only [List.getElem?_cons_zero, Option.some.injEq] at hk
          subst hk
          cases hq
        | succ k => simp at hk
    | cons y ys =>
      have hx : ∃ p, x.position = Position.point p := by
        cases hp : x.position with
        | point p => exact ⟨p, rfl⟩
        | CLOSED =>
          have := hc 0 x rfl hp
          simp at this
      obtain ⟨p0, hp0⟩ := hx
      have hc2 : ∀ (k : Nat) (vert : AsdfVertex S V), (y :: ys)[k]? = some vert →
          vert.position = Position.CLOSED → k = (y :: ys).length - 1 := by
        intro k vert hk hv
        have := hc (k + 1) vert (by simpa using hk) hv
        simp only [List.length_cons] at this ⊢
        omega
      obtain ⟨ih1, ih2⟩ := ih hc2
      have hfm : ((x :: y :: ys).filterMap fun v => v.position.toOption)
          = p0 :: ((y :: ys).filterMap fun v => v.position.toOption) := by
        rw [List.filterMap_cons, hp0]
        rfl
      rw [hfm]
      refine ⟨fun k vert q hk hq => ?_, ?_⟩
      · cases k with
        | zero =>
          simp only [List.getElem?_cons_zero, Option.some.injEq] at hk
          subst hk
          rw [hp0] at hq
          simp only [Position.point.injEq] at hq
          subst hq
          exact List.getElem?_cons_zero
        | succ k =>
          rw [List.getElem?_cons_succ] at hk ⊢
          exact ih1 k vert q hk hq
      · rw [List.getLast?_cons_cons, List.length_cons, List.length_cons (a := x)]
        omega
end
section
variable {S V : Type} [LinearOrderedField S] [AddCommGroup V] [Module S V]

/-- Every segment of a constructed Kochanek-Bartels spline has a positive
length, and the spline has one grid value per vertex, the closing one
included. -/
theorem ckb_segments_positive (sqrt : S → S) (length : V → S)
    (hnonneg : ∀ x : V, 0 ≤ length x) (hzero : ∀ x : V, length x = 0 ↔ x = 0)
    (hsqrt : sqrt 0 = 0) (vertices : List V) (tcb : List (S × S × S)) (closed : Bool)
    (path : PiecewiseCubicCurve S V)
    (h : CentripetalKochanekBartelsSpline.construct sqrt length vertices tcb closed = some path) :
    path.grid.length = vertices.length + closed.toNat ∧
    ∀ i, i + 1 < path.grid.length →
      ∃ len, path.segment_length_full length i = some len ∧ 0 < len := by
  unfold CentripetalKochanekBartelsSpline.construct at h
  cases hr : CentripetalKochanekBartelsSpline.init sqrt length vertices tcb closed with
  | none => rw [hr] at h; cases h
  | some r =>
    rw [hr] at h
    simp only at h
    obtain ⟨_, hv, _, hgl, _, hstep⟩ :=
      CentripetalKochanekBartelsSpline.init_spec sqrt length vertices tcb closed r hr
    obtain ⟨_, _, hlen, hpw, hcg, _⟩ :=
      CubicHermiteSpline.hermite_construct_some r.1 r.2.1 r.2.2 path h
    have hsl := CubicHermiteSpline.segments_length r.1 r.2.1 r.2.2 path h
    have hrl : r.1.length = vertices.length + closed.toNat := by
      rw [hv]
      cases closed with
      | true => simp only [if_true, List.length_append, List.length_singleton, Bool.toNat_true]
      | false => simp only [Bool.false_eq_true, if_false, Bool.toNat_false, Nat.add_zero]
    refine ⟨by rw [hcg, ← hlen, hrl], fun i hi => ?_⟩
    rw [PiecewiseCubicCurve.segment_length_full_eq length path i hi hsl]
    refine ⟨_, rfl, ?_⟩
    rw [hcg] at hi ⊢
    refine segment_length_pos length hnonneg (fun x hx => (hzero x).mp hx) _ _ _ ?_ ?_
    · rw [List.getD_eq_getElem _ _ (by omega : i < r.2.2.length), List.getD_eq_getElem _ _ hi]
      exact pairwise_lt_getElem hpw (Nat.lt_succ_self i) hi
    · rw [CubicHermiteSpline.segment_getD r.1 r.2.1 r.2.2 path h i (by omega)]
      intro hconst
      have := hermite_segment_constant _ _ _ _ _ _ hconst
      apply (hstep i (by omega)).1
      rw [this, (hzero 0).mpr rfl, hsqrt]

omit [AddCommGroup V] [Module S V] in
/-- A strictly increasing list stays so when its last element is replaced by
a greater one, and when a greater one is put behind it. -/
theorem pairwise_lt_grow (l : List S) (hl : l ≠ []) (hp : l.Pairwise (· < ·)) (len : S)
    (hpos : 0 < len) :
    (l.dropLast ++ [l.getLastD 0 + len]).Pairwise (· < ·) ∧
    (l ++ [l.getLastD 0 + len]).Pairwise (· < ·) ∧
    (l.dropLast ++ [l.getLastD 0 + len]).length = l.length ∧
    (l ++ [l.getLastD 0 + len]).length = l.length + 1 := by
  have hlast : l.getLastD 0 = l.getLast hl := by
    rw [List.getLastD_eq_getLast?, List.getLast?_eq_getLast _ hl]
    rfl
  have hle : ∀ a ∈ l, a ≤ l.getLast hl := by
    intro a ha
    have hd := List.dropLast_append_getLast hl
    rw [← hd] at ha hp
    rcases List.mem_append.mp ha with h | h
    · exact le_of_lt ((List.pairwise_append.mp hp).2.2 a h _ (List.mem_singleton_self _))
    · rw [List.mem_singleton.mp h]
  have hlen : 0 < l.length := List.length_pos.mpr hl
  refine ⟨?_, ?_, ?_, ?_⟩
  · rw [List.pairwise_append]
    refine ⟨hp.sublist (List.dropLast_sublist l), List.pairwise_singleton _ _, ?_⟩
    intro a ha b hb
    rw [List.mem_singleton.mp hb, hlast]
    have := hle a (List.dropLast_subset l ha)
    linarith
  · rw [List.pairwise_append]
    refine ⟨hp, List.pairwise_singleton _ _, ?_⟩
    intro a ha b hb
    rw [List.mem_singleton.mp hb, hlast]
    have := hle a ha
    linarith
  · rw [List.length_append, List.length_dropLast, List.length_singleton]; omega
  · rw [List.length_append, List.length_singleton]

/-- The loop of `get_t2s_arguments` over segments of positive length returns a
strictly increasing table of lengths, with one row per vertex that is not
among the missing times. -/
theorem Initializer.get_t2s_arguments_increasing (length : V → S) (init : Initializer S V)
    (path : PiecewiseCubicCurve S V)
    (hpos : ∀ i, i + 1 < path.grid.length →
      ∃ len, path.segment_length_full length i = some len ∧ 0 < len)
    (hp : init.missing_times.Pairwise (· < ·)) :
    ∃ args init', init.get_t2s_arguments length path = some (args, init') ∧
      args.1.Pairwise (· < ·) ∧
      args.1.length + init.missing_times.countP (fun m => decide (m < path.grid.length - 1))
        = path.grid.length - 1 + 1 := by
  obtain ⟨st, hst, hne, hpw, hcount⟩ := foldlM_range_some
    (fun (st : List S × List S) i =>
      match path.segment_length_full length i with
      | none => none
      | some len =>
        if i ∈ init.missing_times then
          some (st.1.dropLast ++ [st.1.getLastD 0 + len], st.2 ++ [st.1.getLastD 0])
        else
          some (st.1 ++ [st.1.getLastD 0 + len], st.2))
    (fun k (st : List S × List S) => st.1 ≠ [] ∧ st.1.Pairwise (· < ·) ∧
      st.1.length + init.missing_times.countP (fun m => decide (m < k)) = k + 1)
    ([0], init.lengths_at_missing_times) (path.grid.length - 1)
    ⟨by simp, List.pairwise_singleton _ _, by
      have : init.missing_times.countP (fun m => decide (m < 0)) = 0 := by
        rw [List.countP_eq_zero]
        intro m _
        simp
      rw [this]; rfl⟩
    (fun k s hk ⟨hne, hpw, hcount⟩ => by
      obtain ⟨len, hlen, hlpos⟩ := hpos k (by omega)
      obtain ⟨g1, g2, g3, g4⟩ := pairwise_lt_grow s.1 hne hpw len hlpos
      have hc := countP_lt_succ_of_pairwise init.missing_times hp k
      simp only [hlen]
      by_cases hm : k ∈ init.missing_times
      · rw [if_pos hm] at hc ⊢
        refine ⟨_, rfl, ?_, g1, ?_⟩
        · simp
        · simp only
          rw [g3, hc]; omega
      · rw [if_neg hm] at hc ⊢
        refine ⟨_, rfl, ?_, g2, ?_⟩
        · simp
        · simp only
          rw [g4, hc]; omega)
  refine ⟨(st.1, init.speeds, init.times), { init with lengths_at_missing_times := st.2 }, ?_,
    hpw, hcount⟩
  unfold Initializer.get_t2s_arguments
  rw [hst]
end
section
variable {S : Type} [LinearOrderedField S]

/-- Over strictly increasing stored values `get_time` always returns a time. -/
theorem get_time_ne_none (m : MonotoneCubicSpline S) (hv : m.values.Pairwise (· < ·)) (v : S) :
    m.get_time v ≠ none := by
  rw [Ne, get_time_eq_none_iff m v (lower_le_upper_bound m.values v)]
  intro hc
  have hu := upper_bound_le_length m.values v
  have h0 : lower_bound m.values v < m.values.length := by omega
  have h1 : lower_bound m.values v + 1 < m.values.length := by omega
  have a : v ≤ m.values[lower_bound m.values v] := le_getElem_lower_bound h0
  have b : m.values[lower_bound m.values v + 1] ≤ v :=
    getElem_le_of_lt_upper_bound h1 (by omega)
  have c := pairwise_lt_getElem hv (Nat.lt_succ_self (lower_bound m.values v)) h1
  linarith
end

section
variable {S V : Type} [LinearOrderedField S] [AddCommGroup V] [Module S V]

omit [AddCommGroup V] [Module S V] in
/-- The loop of `get_grid` does not throw when `get_time` always returns a
time. -/
theorem Initializer.get_grid_some (init : Initializer S V) (t2s : MonotoneCubicSpline S)
    (h : ∀ v, t2s.get_time v ≠ none) : (init.get_grid t2s).isSome = true := by
  unfold Initializer.get_grid
  obtain ⟨g, hg, _⟩ := foldlM_range_some
    (fun (times : List S) i =>
      match t2s.get_time (init.lengths_at_missing_times.getD i 0) with
      | some time => some (times.insertIdx (init.missing_times.getD i 0) time)
      | none => none)
    (fun _ _ => True) init.times init.missing_times.length trivial
    (fun k s _ _ => by
      cases ht : t2s.get_time (init.lengths_at_missing_times.getD k 0) with
      | none => exact absurd ht (h _)
      | some time =>
        refine ⟨s.insertIdx (init.missing_times.getD k 0) time, ?_, trivial⟩
        simp only [ht])
  rw [hg]
  rfl

/-- The path of a spline has one grid value per record. -/
theorem path_grid_length (sqrt : S → S) (length : V → S) (data : List (AsdfVertex S V))
    (init : Initializer S V) (path : PiecewiseCubicCurve S V)
    (h1 : Initializer.construct data = some init)
    (h2 : CentripetalKochanekBartelsSpline.construct sqrt length init.vertices init.tcb
      init.closed = some path) :
    path.grid.length = data.length := by
  unfold CentripetalKochanekBartelsSpline.construct at h2
  cases hr : CentripetalKochanekBartelsSpline.init sqrt length init.vertices init.tcb
      init.closed with
  | none => rw [hr] at h2; cases h2
  | some r =>
    rw [hr] at h2
    simp only at h2
    obtain ⟨_, hv, _, hgl, _, _⟩ :=
      CentripetalKochanekBartelsSpline.init_spec sqrt length _ _ _ r hr
    obtain ⟨_, _, hlen, _, hcg, _⟩ :=
      CubicHermiteSpline.hermite_construct_some r.1 r.2.1 r.2.2 path h2
    obtain ⟨hverts, hclosed, hmarker⟩ := Initializer.construct_vertices data init h1
    have hcount := (points_of_records data hmarker).2
    rw [← hverts, ← hclosed] at hcount
    rw [hcg, ← hlen, hv, ← hcount]
    cases init.closed with
    | true => simp only [if_true, List.length_append, List.length_singleton, Bool.toNat_true]
    | false => simp only [Bool.false_eq_true, if_false, Bool.toNat_false, Nat.add_zero]

/-- In exact arithmetic: with a length that is non-negative and zero on the zero vector only,
and a square root with `sqrt(0) = 0`, every segment of a constructed
`CentripetalKochanekBartelsSpline` has a positive `segment_length`; so for the
path of a spline `get_t2s_arguments` returns a strictly increasing table of
lengths with as many rows as there are times, `get_time` of a time-to-length
spline over that table always returns a time, and `get_grid` does not throw. -/
theorem lengths_table_increasing (sqrt : S → S) (length : V → S)
    (hnonneg : ∀ x : V, 0 ≤ length x) (hzero : ∀ x : V, length x = 0 ↔ x = 0)
    (hsqrt : sqrt 0 = 0) :
    (∀ (vertices : List V) (tcb : List (S × S × S)) (closed : Bool)
        (path : PiecewiseCubicCurve S V),
      CentripetalKochanekBartelsSpline.construct sqrt length vertices tcb closed = some path →
      ∀ i, i + 1 < path.grid.length →
        ∃ len, path.segment_length_full length i = some len ∧ 0 < len) ∧
    (∀ (data : List (AsdfVertex S V)) (init : Initializer S V) (path : PiecewiseCubicCurve S V),
      Initializer.construct data = some init →
      CentripetalKochanekBartelsSpline.construct sqrt length init.vertices init.tcb
        init.closed = some path →
      ∃ args init', init.get_t2s_arguments length path = some (args, init') ∧
        args.1.Pairwise (· < ·) ∧ args.1.length = init.times.length ∧
        args.2.2 = init.times ∧
        ∀ t2s, MonotoneCubicSpline.construct args.1 args.2.1 args.2.2 = some t2s →
          (∀ v, t2s.get_time v ≠ none) ∧ (init'.get_grid t2s).isSome = true) := by
  refine ⟨fun vertices tcb closed path h =>
    (ckb_segments_positive sqrt length hnonneg hzero hsqrt vertices tcb closed path h).2,
    fun data init path h1 h2 => ?_⟩
  obtain ⟨_, hpos⟩ := ckb_segments_positive sqrt length hnonneg hzero hsqrt _ _ _ path h2
  have hgl := path_grid_length sqrt length data init path h1 h2
  obtain ⟨hdn, k1, _, _, k4, k5, _⟩ := Initializer.construct_spec data init h1
  obtain ⟨args, init', ha, hpw, hcount⟩ :=
    Initializer.get_t2s_arguments_increasing length init path hpos k5
  obtain ⟨_, e2, _, _⟩ := Initializer.get_t2s_arguments_fields length init init' path args ha
  rw [hgl, countP_lt_eq_length init.missing_times (data.length - 1)
    (fun m hm => by have := (k4 m hm).2; omega)] at hcount
  refine ⟨args, init', ha, hpw, by omega, e2, fun t2s ht => ?_⟩
  obtain ⟨hmv, _, _⟩ := MonotoneCubicSpline.monotone_construct_some _ _ _ t2s ht
  have hne : ∀ v, t2s.get_time v ≠ none :=
    fun v => get_time_ne_none t2s (by rw [hmv]; exact hpw) v
  exact ⟨hne, Initializer.get_grid_some init' t2s hne⟩

theorem lengths_table_increasing_witness :
    ((∀ x : ℚ, 0 ≤ abs_length x) ∧ (∀ x : ℚ, abs_length x = 0 ↔ x = 0) ∧ sqrtQ 0 = 0) ∧
    ((∀ (vertices : List ℚ) (tcb : List (ℚ × ℚ × ℚ)) (closed : Bool)
        (path : PiecewiseCubicCurve ℚ ℚ),
      CentripetalKochanekBartelsSpline.construct sqrtQ abs_length vertices tcb closed
        = some path →
      ∀ i, i + 1 < path.grid.length →
        ∃ len, path.segment_length_full abs_length i = some len ∧ 0 < len) ∧
    (∀ (data : List (AsdfVertex ℚ ℚ)) (init : Initializer ℚ ℚ) (path : PiecewiseCubicCurve ℚ ℚ),
      Initializer.construct data = some init →
      CentripetalKochanekBartelsSpline.construct sqrtQ abs_length init.vertices init.tcb
        init.closed = some path →
      ∃ args init', init.get_t2s_arguments abs_length path = some (args, init') ∧
        args.1.Pairwise (· < ·) ∧ args.1.length = init.times.length ∧
        args.2.2 = init.times ∧
        ∀ t2s, MonotoneCubicSpline.construct args.1 args.2.1 args.2.2 = some t2s →
          (∀ v, t2s.get_time v ≠ none) ∧ (init'.get_grid t2s).isSome = true)) :=
  ⟨⟨fun x => abs_nonneg x, fun _ => abs_eq_zero, by decide!⟩,
    lengths_table_increasing sqrtQ abs_length (fun x => abs_nonneg x) (fun _ => abs_eq_zero)
      (by decide!)⟩
end

/-! ## AsdfSpline: evaluation at the time of a vertex -/

section
variable {α : Type}

theorem getElem?_insertIdx_lt : ∀ (l : List α) (n k : Nat) (x a : α), k < n →
    l[k]? = some a → (l.insertIdx n x)[k]? = some a := by
  intro l
  induction l with
  | nil => intro n k x a _ h; simp at h
  | cons y ys ih =>
    intro n k x a hkn h
    cases n with
    | zero => omega
    | succ n =>
      rw [List.insertIdx_succ_cons]
      cases k with
      | zero => simpa using h
      | succ k =>
        rw [List.getElem?_cons_succ] at h ⊢
        exact ih n k x a (by omega) h

theorem getElem?_insertIdx_ge : ∀ (l : List α) (n k : Nat) (x a : α), n ≤ k →
    l[k]? = some a → (l.insertIdx n x)[k + 1]? = some a := by
  intro l
  induction l with
  | nil => intro n k x a _ h; simp at h
  | cons y ys ih =>
    intro n k x a hnk h
    cases n with
    | zero =>
      rw [List.insertIdx_zero, List.getElem?_cons_succ]
      exact h
    | succ n =>
      rw [List.insertIdx_succ_cons]
      cases k with
      | zero => omega
      | succ k =>
        rw [List.getElem?_cons_succ] at h ⊢
        exact ih n k x a (by omega) h
end

section

/-- In a strictly increasing list of indices not below `a`, fewer than
`k - a + 1` are below `k`. -/
theorem countP_lt_le : ∀ (l : List Nat), l.Pairwise (· < ·) → ∀ (a k : Nat),
    (∀ x ∈ l, a ≤ x) → l.countP (fun m => decide (m < k)) ≤ k - a := by
  intro l
  induction l with
  | nil => intro _ a k _; simp
  | cons x xs ih =>
    intro hp a k ha
    rw [List.pairwise_cons] at hp
    have hx := ha x (List.mem_cons_self _ _)
    have := ih hp.2 (x + 1) k (fun y hy => hp.1 y hy)
    rw [List.countP_cons]
    by_cases hxk : x < k
    · simp only [hxk, decide_True, if_true]; omega
    · simp only [hxk, decide_False, Bool.false_eq_true, if_false]; omega
end

section
variable {S V : Type} [LinearOrderedField S] [AddCommGroup V] [Module S V]

omit [AddCommGroup V] [Module S V] in
/-- The time of a record that has one sits in the vector `times` of the
initializer at the index of the record less the number of records before it
that have no time. -/
theorem Initializer.construct_times_at (data : List (AsdfVertex S V)) (init : Initializer S V)
    (h : Initializer.construct data = some init) (k : Nat) (vert : AsdfVertex S V)
    (hk : data[k]? = some vert) (t : S) (ht : vert.time = some t) :
    k ∉ init.missing_times ∧
    init.times[k - init.missing_times.countP (fun m => decide (m < k))]? = some t := by
  by_cases hlen : data.length < 2
  · unfold Initializer.construct at h
    rw [if_pos hlen] at h
    cases h
  rw [Initializer.construct_eq data hlen] at h
  have key := foldlM_range_inv _ (fun j (s : Initializer S V) =>
      (∀ m ∈ s.missing_times, m < j) ∧
      s.times.length + s.missing_times.length = j ∧
      ∀ k, k < j → ∀ vert, data[k]? = some vert → ∀ t, vert.time = some t →
        k ∉ s.missing_times ∧
        s.times[k - s.missing_times.countP (fun m => decide (m < k))]? = some t) _ data.length
    ?_ ?_ init h
  · exact key.2.2 k (List.getElem?_eq_some_iff.mp hk).1 vert hk t ht
  · exact ⟨fun m hm => by simp at hm, rfl, fun k hk => absurd hk (Nat.not_lt_zero k)⟩
  · intro j s s' hj ⟨i1, i2, i3⟩ hstep
    cases hcur : data[j]? with
    | none => simp [hcur] at hstep
    | some cur =>
      simp only [hcur] at hstep
      obtain ⟨s1, s2, h1, h2, h3⟩ := Initializer.step_some hstep
      obtain ⟨_, p2, p3, _, _, _, _⟩ := Initializer.add_position_spec h1
      obtain ⟨_, _, _, _, t5⟩ := Initializer.add_time_spec h2
      obtain ⟨_, _, c3, _, c5, _, _⟩ := Initializer.add_tcb_spec h3
      rw [c3, c5]
      rcases t5 with ⟨_, e1, _, e3⟩ | ⟨e0, _, _, _, e2, _, e4⟩
      · rw [e1, e3, p2, p3]
        refine ⟨fun m hm => Nat.lt_succ_of_lt (i1 m hm),
          by simp only [List.length_append, List.length_singleton]; omega, ?_⟩
        intro k' hk' vert' hv' t' ht'
        rcases Nat.lt_succ_iff_lt_or_eq.mp hk' with hlt | heq
        · obtain ⟨a, b⟩ := i3 k' hlt vert' hv' t' ht'
          have hb := (List.getElem?_eq_some_iff.mp b).1
          exact ⟨a, by rw [List.getElem?_append_left hb]; exact b⟩
        · subst heq
          rw [hcur] at hv'
          simp only [Option.some.injEq] at hv'
          subst hv'
          refine ⟨fun hm => absurd (i1 _ hm) (lt_irrefl _), ?_⟩
          rw [countP_lt_eq_length s.missing_times k' i1,
            show k' - s.missing_times.length = s.times.length by omega,
            List.getElem?_append_right (le_refl _), Nat.sub_self, ht']
          rfl
      · rw [e2, e4, p2, p3]
        refine ⟨?_, by simp only [List.length_append, List.length_singleton]; omega, ?_⟩
        · intro m hm
          rcases List.mem_append.mp hm with hm | hm
          · exact Nat.lt_succ_of_lt (i1 m hm)
          · rw [List.mem_singleton.mp hm]; exact Nat.lt_succ_self j
        · intro k' hk' vert' hv' t' ht'
          rcases Nat.lt_succ_iff_lt_or_eq.mp hk' with hlt | heq
          · obtain ⟨a, b⟩ := i3 k' hlt vert' hv' t' ht'
            refine ⟨?_, ?_⟩
            · intro hm
              rcases List.mem_append.mp hm with hm | hm
              · exact a hm
              · rw [List.mem_singleton.mp hm] at hlt; exact lt_irrefl _ hlt
            · have hj0 : ¬ (j < k') := by omega
              rw [List.countP_append]
              simp only [List.countP_cons, List.countP_nil, hj0, decide_False,
                Bool.false_eq_true, if_false, Nat.add_zero]
              exact b
          · subst heq
            rw [hcur] at hv'
            simp only [Option.some.injEq] at hv'
            subst hv'
            rw [e0] at ht'
            cases ht'

omit [AddCommGroup V] [Module S V] in
/-- The loop of `get_grid` leaves the time of every record that has one at
the index of the record. -/
theorem Initializer.get_grid_at (init : Initializer S V) (t2s : MonotoneCubicSpline S)
    (grid : List S) (h : init.get_grid t2s = some grid)
    (hp : init.missing_times.Pairwise (· < ·)) (k : Nat) (t : S)
    (hk : k ∉ init.missing_times)
    (ht : init.times[k - init.missing_times.countP (fun m => decide (m < k))]? = some t) :
    grid[k]? = some t := by
  unfold Initializer.get_grid at h
  have key := foldlM_range_inv _ (fun j (times : List S) =>
      times[k - (init.missing_times.drop j).countP (fun m => decide (m < k))]? = some t)
    init.times init.missing_times.length (by simp only [List.drop_zero]; exact ht) ?_ grid h
  · simp only [List.drop_length, List.countP_nil, Nat.sub_zero] at key
    exact key
  · intro j times times' hj hinv hstep
    cases hg : t2s.get_time (init.lengths_at_missing_times.getD j 0) with
    | none => rw [hg] at hstep; cases hstep
    | some time =>
      rw [hg] at hstep
      simp only [Option.some.injEq] at hstep
      subst hstep
      have hd : init.missing_times.drop j
          = init.missing_times[j] :: init.missing_times.drop (j + 1) :=
        List.drop_eq_getElem_cons hj
      have hm : init.missing_times.getD j 0 = init.missing_times[j] :=
        List.getD_eq_getElem _ _ hj
      have hpd : (init.missing_times.drop j).Pairwise (· < ·) :=
        hp.sublist (List.drop_sublist j _)
      rw [hd, List.pairwise_cons] at hpd
      rw [hd, List.countP_cons] at hinv
      rw [hm]
      have hne : k ≠ init.missing_times[j] := by
        intro e; apply hk; rw [e]; exact List.getElem_mem _
      rcases Nat.lt_or_gt_of_ne hne with hlt | hgt
      · have hz : (init.missing_times.drop (j + 1)).countP (fun m => decide (m < k)) = 0 := by
          rw [List.countP_eq_zero]
          intro m hm2
          have := hpd.1 m hm2
          simp only [decide_eq_true_eq, not_lt]
          omega
        have hnot : ¬ (init.missing_times[j] < k) := by omega
        simp only [hz, hnot, decide_False, Bool.false_eq_true, if_false, Nat.add_zero,
          Nat.sub_zero] at hinv ⊢
        exact getElem?_insertIdx_lt _ _ _ _ _ hlt hinv
      · have hb := countP_lt_le (init.missing_times.drop (j + 1)) hpd.2
          (init.missing_times[j] + 1) k (fun x hx => hpd.1 x hx)
        simp only [hgt, decide_True, if_true] at hinv
        have e : k - (init.missing_times.drop (j + 1)).countP (fun m => decide (m < k))
            = (k - ((init.missing_times.drop (j + 1)).countP (fun m => decide (m < k)) + 1))
              + 1 := by omega
        rw [e]
        exact getElem?_insertIdx_ge _ _ _ _ _ (by omega) hinv
end
section
variable {S V : Type} [LinearOrderedField S] [AddCommGroup V] [Module S V]

/-- The three-argument `segment_length` over an empty interval is zero. -/
theorem segment_length_empty (length : V → S) (c : PiecewiseCubicCurve S V) (i : Nat) (u : S) :
    (c.segment_length length i u u).getD 0 = 0 := by
  unfold PiecewiseCubicCurve.segment_length
  split
  · simp only [Option.getD_some, gauss_legendre13, sub_self, zero_mul, zero_div]
  · rfl

/-- At the arc length of a grid time, when these arc lengths are strictly
increasing, `_s2u` returns the grid value of the path with the same index:
at once for the first and for the last one, and for one in between from the
first test of `bisect`, which finds the function zero at the lower bound. -/
theorem AsdfSpline.s2u_at (length : V → S) (sp : AsdfSpline S V)
    (hs : sp.s_grid.Pairwise (· < ·)) (hl : sp.path.grid.length = sp.s_grid.length) (k : Nat)
    (hk : k < sp.s_grid.length) :
    sp.s2u length (sp.s_grid.getD k 0) = sp.path.grid.getD k 0 ∧
    (0 < k → k + 1 < sp.s_grid.length →
      sp.s2u length (sp.s_grid.getD k 0)
        = bisect (fun u : S => (sp.path.segment_length length k (sp.path.grid.getD k 0) u).getD 0
            - (sp.s_grid.getD k 0 - sp.s_grid.getD k 0))
          (sp.path.grid.getD k 0) (sp.path.grid.getD (k + 1) 0) 0.0001 50 ∧
      bisect_run (fun u : S => (sp.path.segment_length length k (sp.path.grid.getD k 0) u).getD 0
            - (sp.s_grid.getD k 0 - sp.s_grid.getD k 0))
          (sp.path.grid.getD k 0) (sp.path.grid.getD (k + 1) 0) 0.0001 50
        = ⟨sp.path.grid.getD k 0, sp.path.grid.getD k 0, sp.path.grid.getD (k + 1) 0, 1⟩) := by
  have hle : sp.s_grid.Pairwise (· ≤ ·) := hs.imp le_of_lt
  have hget : ∀ a b, a < b → b < sp.s_grid.length →
      sp.s_grid.getD a 0 < sp.s_grid.getD b 0 := by
    intro a b hab hb
    rw [List.getD_eq_getElem _ _ (by omega : a < sp.s_grid.length), List.getD_eq_getElem _ _ hb]
    exact pairwise_lt_getElem hs hab hb
  have hzero : (sp.path.segment_length length k (sp.path.grid.getD k 0)
      (sp.path.grid.getD k 0)).getD 0 - (sp.s_grid.getD k 0 - sp.s_grid.getD k 0) = 0 := by
    rw [segment_length_empty, sub_self, sub_self]
  have hrun : bisect_run (fun u : S =>
        (sp.path.segment_length length k (sp.path.grid.getD k 0) u).getD 0
          - (sp.s_grid.getD k 0 - sp.s_grid.getD k 0))
        (sp.path.grid.getD k 0) (sp.path.grid.getD (k + 1) 0) 0.0001 50
      = ⟨sp.path.grid.getD k 0, sp.path.grid.getD k 0, sp.path.grid.getD (k + 1) 0, 1⟩ := by
    unfold bisect_run
    simp only [hzero, if_true]
  have hmid : 0 < k → k + 1 < sp.s_grid.length →
      sp.s2u length (sp.s_grid.getD k 0)
        = bisect (fun u : S => (sp.path.segment_length length k (sp.path.grid.getD k 0) u).getD 0
            - (sp.s_grid.getD k 0 - sp.s_grid.getD k 0))
          (sp.path.grid.getD k 0) (sp.path.grid.getD (k + 1) 0) 0.0001 50 := by
    intro h0 h1
    have c1 : ¬ (sp.s_grid.getD k 0 ≤ sp.s_grid.headD 0) := by
      rw [headD_eq_getD]
      exact not_le.mpr (hget 0 k h0 hk)
    have c2 : sp.s_grid.getD k 0 < sp.s_grid.getLastD 0 := by
      rw [getLastD_eq_getD]
      exact hget k _ (by omega) (by omega)
    have hub : upper_bound sp.s_grid (sp.s_grid.getD k 0) = k + 1 := by
      have a := lt_upper_bound hle hk
        (le_of_eq (List.getD_eq_getElem _ _ hk).symm : sp.s_grid[k] ≤ sp.s_grid.getD k 0)
      have b := upper_bound_le h1 (by
        rw [← List.getD_eq_getElem _ 0 h1]
        exact hget k (k + 1) (Nat.lt_succ_self k) h1 : sp.s_grid.getD k 0 < sp.s_grid[k + 1])
      omega
    unfold AsdfSpline.s2u
    simp only [if_neg c1, if_pos c2, hub, Nat.add_sub_cancel]
  refine ⟨?_, fun h0 h1 => ⟨hmid h0 h1, hrun⟩⟩
  rcases Nat.eq_zero_or_pos k with h0 | h0
  · subst h0
    unfold AsdfSpline.s2u
    rw [headD_eq_getD, if_pos (le_refl _), headD_eq_getD]
  rcases Nat.lt_or_ge (k + 1) sp.s_grid.length with h1 | h1
  · rw [hmid h0 h1]
    unfold bisect
    rw [hrun]
  · have hkl : k = sp.s_grid.length - 1 := by omega
    have c1 : ¬ (sp.s_grid.getD k 0 ≤ sp.s_grid.headD 0) := by
      rw [headD_eq_getD]
      exact not_le.mpr (hget 0 k h0 hk)
    have c2 : ¬ (sp.s_grid.getD k 0 < sp.s_grid.getLastD 0) := by
      rw [getLastD_eq_getD, ← hkl]
      exact lt_irrefl _
    unfold AsdfSpline.s2u
    simp only [if_neg c1, if_neg c2]
    rw [getLastD_eq_getD, hl, ← hkl]
end
section
variable {S V : Type} [LinearOrderedField S] [AddCommGroup V] [Module S V]

/-- In exact arithmetic: in a constructed spline whose table of arc lengths at the grid times
is strictly increasing, a record `k` with the time `t` has `t` at the index `k`
of the grid, `_s2u` of the arc length at `t` is the grid value `k` of the path
(for a record other than the first and the last one, `bisect` returns it after
its first evaluation, which finds the function zero at the lower bound), and
`evaluate(t)` is the point of the record, or the first point when the record
is the `CLOSED` marker. -/
theorem evaluate_at_vertex_time (sqrt : S → S) (length : V → S)
    (data : List (AsdfVertex S V)) (sp : AsdfSpline S V)
    (h : AsdfSpline.construct sqrt length data = some sp)
    (hs : sp.s_grid.Pairwise (· < ·)) (k : Nat) (vert : AsdfVertex S V)
    (hk : data[k]? = some vert) (t : S) (ht : vert.time = some t) :
    sp.grid.getD k 0 = t ∧
    sp.s2u length (sp.t2s.curve.evaluate t) = sp.path.grid.getD k 0 ∧
    (0 < k → k + 1 < data.length →
      bisect_run (fun u : S => (sp.path.segment_length length k (sp.path.grid.getD k 0) u).getD 0
            - (sp.t2s.curve.evaluate t - sp.s_grid.getD k 0))
          (sp.path.grid.getD k 0) (sp.path.grid.getD (k + 1) 0) 0.0001 50
        = ⟨sp.path.grid.getD k 0, sp.path.grid.getD k 0, sp.path.grid.getD (k + 1) 0, 1⟩) ∧
    (∀ p, vert.position = Position.point p → sp.evaluate length t = p) ∧
    (vert.position = Position.CLOSED →
      ∀ p, data.head?.map (fun v => v.position) = some (Position.point p) →
        sp.evaluate length t = p) := by
  obtain ⟨init, init', args, h1, h2, h3, _, h5, hsg⟩ :=
    AsdfSpline.construct_stages sqrt length data sp h
  obtain ⟨hnm, hti⟩ := Initializer.construct_times_at data init h1 k vert hk t ht
  obtain ⟨hdn, k1, _, _, k4, k5, _⟩ := Initializer.construct_spec data init h1
  obtain ⟨_, _, e1, e2⟩ := Initializer.get_t2s_arguments_fields length init init' sp.path args h3
  have hgk : sp.grid[k]? = some t :=
    Initializer.get_grid_at init' sp.t2s sp.grid h5 (by rw [e2]; exact k5) k t
      (by rw [e2]; exact hnm) (by rw [e1, e2]; exact hti)
  have hglen := (Initializer.get_grid_spec init' sp.t2s sp.grid data.length h5
    (by rw [e1, e2]; exact k1) (by rw [e2]; exact k4) (by rw [e2]; exact k5)).1
  have hplen := path_grid_length sqrt length data init sp.path h1 h2
  have hslen : sp.s_grid.length = data.length := by rw [hsg, List.length_map, hglen]
  have hkd : k < data.length := (List.getElem?_eq_some_iff.mp hk).1
  have hgt : sp.grid.getD k 0 = t := getD_of_getElem? 0 hgk
  have hsk : sp.s_grid.getD k 0 = sp.t2s.curve.evaluate t := by
    rw [hsg, List.getD_eq_getElem?_getD, List.getElem?_map, hgk]
    rfl
  obtain ⟨hu, hb⟩ := AsdfSpline.s2u_at length sp hs (by rw [hplen, hslen]) k (by omega)
  rw [hsk] at hu
  have hev : sp.evaluate length t = sp.path.evaluate (sp.path.grid.getD k 0) := by
    unfold AsdfSpline.evaluate
    rw [hu]
  refine ⟨hgt, hu, fun h0 hlast => ?_, ?_⟩
  · rw [← hsk]
    exact (hb h0 (by omega)).2
  -- the path at its grid value `k`
  unfold CentripetalKochanekBartelsSpline.construct at h2
  cases hr : CentripetalKochanekBartelsSpline.init sqrt length init.vertices init.tcb
      init.closed with
  | none => rw [hr] at h2; cases h2
  | some r =>
    rw [hr] at h2
    simp only at h2
    obtain ⟨_, hv, _, _, _, _⟩ :=
      CentripetalKochanekBartelsSpline.init_spec sqrt length _ _ _ r hr
    obtain ⟨_, _, hlen, _, hcg, _⟩ :=
      CubicHermiteSpline.hermite_construct_some r.1 r.2.1 r.2.2 sp.path h2
    have hk2 : k < r.1.length := by rw [hlen, ← hcg, hplen]; exact hkd
    have hpe := CubicHermiteSpline.evaluate_grid r.1 r.2.1 r.2.2 sp.path h2 k hk2
    rw [← hcg] at hpe
    rw [hev, hpe]
    obtain ⟨hverts, hclosed, hmarker⟩ := Initializer.construct_vertices data init h1
    obtain ⟨hpts, hcount⟩ := points_of_records data hmarker
    rw [← hverts] at hpts
    rw [← hverts, ← hclosed] at hcount
    have hleft : ∀ j q, init.vertices[j]? = some q → r.1.getD j 0 = q := by
      intro j q hj
      have hjl := (List.getElem?_eq_some_iff.mp hj).1
      rw [hv]
      cases init.closed with
      | true =>
        simp only [if_true]
        rw [getD_append_left_of_lt _ _ _ hjl]
        exact getD_of_getElem? 0 hj
      | false =>
        simp only [Bool.false_eq_true, if_false]
        exact getD_of_getElem? 0 hj
    refine ⟨fun p hp => hleft k p (hpts k vert p hk hp), fun hc p hp => ?_⟩
    have hkl := hmarker k vert hk hc
    obtain ⟨d0, rest, hdata⟩ := List.exists_cons_of_ne_nil
      (by intro e; rw [e] at hdn; simp at hdn : data ≠ [])
    have hd0 : d0.position = Position.point p := by
      rw [hdata] at hp
      simpa using hp
    have hv0 : init.vertices[0]? = some p := hpts 0 d0 p (by rw [hdata]; exact List.getElem?_cons_zero) hd0
    have hcl : init.closed = true := by
      by_contra hne
      have hf : init.closed = false := by simpa using hne
      rw [hf] at hcount
      simp only [Bool.toNat_false, Nat.add_zero] at hcount
      have hlast : data.getLast? = some vert := by
        rw [List.getLast?_eq_getElem?, ← hkl]
        exact hk
      rw [hlast] at hclosed
      obtain ⟨pos, tm, spd, tc⟩ := vert
      simp only at hc
      subst hc
      simp only at hclosed
      rw [hclosed] at hf
      cases hf
    rw [hcl] at hcount hv
    simp only [Bool.toNat_true] at hcount
    simp only [if_true] at hv
    have hkv : k = init.vertices.length := by omega
    rw [hv, hkv, getD_append_singleton_last]
    exact getD_of_getElem? 0 hv0

theorem evaluate_at_vertex_time_witness :
    (AsdfSpline.construct sqrtQ abs_length line_data = some line_spline ∧
      line_spline.s_grid.Pairwise (· < ·) ∧
      line_data[1]? = some ⟨Position.point 1, some 1, some 1, (0, 0, 0)⟩ ∧
      (⟨Position.point 1, some 1, some 1, (0, 0, 0)⟩ : AsdfVertex ℚ ℚ).time = some 1) ∧
    (line_spline.grid.getD 1 0 = 1 ∧
    line_spline.s2u abs_length (line_spline.t2s.curve.evaluate 1)
      = line_spline.path.grid.getD 1 0 ∧
    (0 < 1 → 1 + 1 < line_data.length →
      bisect_run (fun u : ℚ =>
            (line_spline.path.segment_length abs_length 1 (line_spline.path.grid.getD 1 0) u).getD 0
            - (line_spline.t2s.curve.evaluate 1 - line_spline.s_grid.getD 1 0))
          (line_spline.path.grid.getD 1 0) (line_spline.path.grid.getD (1 + 1) 0) 0.0001 50
        = ⟨line_spline.path.grid.getD 1 0, line_spline.path.grid.getD 1 0,
            line_spline.path.grid.getD (1 + 1) 0, 1⟩) ∧
    (∀ p, (⟨Position.point 1, some 1, some 1, (0, 0, 0)⟩ : AsdfVertex ℚ ℚ).position
        = Position.point p → line_spline.evaluate abs_length 1 = p) ∧
    ((⟨Position.point 1, some 1, some 1, (0, 0, 0)⟩ : AsdfVertex ℚ ℚ).position
        = Position.CLOSED →
      ∀ p, line_data.head?.map (fun v => v.position) = some (Position.point p) →
        line_spline.evaluate abs_length 1 = p)) :=
  ⟨⟨by decide!, by decide!, by decide!, rfl⟩,
    evaluate_at_vertex_time sqrtQ abs_length line_data line_spline (by decide!) (by decide!) 1
      ⟨Position.point 1, some 1, some 1, (0, 0, 0)⟩ (by decide!) 1 rfl⟩
end

end asdf
